import Mathlib

/-!
Verification of libfirm claims against a shallow embedding of the relevant
source files (src/ir/opt/loop_unrolling.c, src/ir/be/ia32/ia32_finish.c,
src/ir/be/beverify.c, src/ir/be/mips/mips_bearch.c).

Machine integers are modelled as Nat/Int with explicit truncation
(`% 2 ^ 32`, `% 2 ^ 64`) at the points where the C code performs casts
or where overflow matters.
-/

namespace FactorArith

/-- Power-of-two test as written in the source:
`(candidate != 0) && ((candidate & (candidate - 1)) == 0)`
(loop_unrolling.c line 326). -/
def is_pow2_mask (c : Nat) : Bool :=
  decide (c ≠ 0) && decide (c &&& (c - 1) = 0)

/-- Loop body of `find_optimal_factor` (loop_unrolling.c lines 320-331):
`for (i = 2; i <= number / 2; i++)` looking for a small divisor `i` such
that `number / i <= max` and the 32-bit truncated candidate
`(unsigned) number / i` is a nonzero power of two.  Note the C cast binds
tighter than the division: the candidate is `((unsigned) number) / i`.
`fuel` bounds the iteration count; `find_optimal_factor` passes enough. -/
def find_optimal_factor_go (number max : Nat) : Nat → Nat → Nat
  | _, 0 => 0
  | i, Nat.succ fuel =>
    if i ≤ number / 2 then
      if number % i = 0 ∧ number / i ≤ max ∧
          is_pow2_mask ((number % 2 ^ 32) / i) = true then
        (number % 2 ^ 32) / i
      else
        find_optimal_factor_go number max (i + 1) fuel
    else 0

/-- `find_optimal_factor` (loop_unrolling.c lines 314-333).
`number` is a C `unsigned long` (64-bit), `max` a C `unsigned` (32-bit);
the early return performs the cast `(unsigned) number`. -/
def find_optimal_factor (number max : Nat) : Nat :=
  if number ≤ max then number % 2 ^ 32
  else find_optimal_factor_go number max 2 (number / 2)

theorem find_optimal_factor_go_spec (number max : Nat) :
    ∀ fuel i, find_optimal_factor_go number max i fuel = 0 ∨
      ∃ d, number % d = 0 ∧ number / d ≤ max ∧
        find_optimal_factor_go number max i fuel = (number % 2 ^ 32) / d ∧
        is_pow2_mask ((number % 2 ^ 32) / d) = true := by
  intro fuel
  induction fuel with
  | zero => intro i; left; rfl
  | succ fuel ih =>
    intro i
    rw [find_optimal_factor_go]
    by_cases hle : i ≤ number / 2
    · simp only [hle, if_true]
      by_cases hc : number % i = 0 ∧ number / i ≤ max ∧
          is_pow2_mask ((number % 2 ^ 32) / i) = true
      · simp only [hc, if_true]
        exact Or.inr ⟨i, hc.1, hc.2.1, rfl, hc.2.2⟩
      · simp only [hc, if_false]
        exact ih (i + 1)
    · simp only [hle, if_false]
      left; trivial

/-- A nonzero Nat passing the `c & (c-1) == 0` test is a power of two. -/
theorem pow2_of_mask (c : Nat) (h : is_pow2_mask c = true) : ∃ k, c = 2 ^ k := by
  unfold is_pow2_mask at h
  simp only [Bool.and_eq_true, decide_eq_true_eq] at h
  obtain ⟨hne, hmask⟩ := h
  induction c using Nat.strong_induction_on with
  | _ c ih =>
    rcases Nat.even_or_odd c with he | ho
    · obtain ⟨d, hd⟩ := he
      have hc2 : c = 2 * d := by omega
      have hd0 : d ≠ 0 := by omega
      have hhalf : d &&& (d - 1) = 0 := by
        have hs : (c &&& (c - 1)) / 2 = c / 2 &&& (c - 1) / 2 := Nat.and_div_two
        have h1 : c / 2 = d := by omega
        have h2 : (c - 1) / 2 = d - 1 := by omega
        rw [hmask, h1, h2] at hs
        omega
      obtain ⟨k, hk⟩ := ih d (by omega) hd0 hhalf
      exact ⟨k + 1, by rw [hc2, hk, pow_succ]; ring⟩
    · rcases Nat.lt_or_ge c 2 with hlt | hge
      · exact ⟨0, by omega⟩
      · exfalso
        obtain ⟨d, hd⟩ := ho
        have hd1 : 1 ≤ d := by omega
        have hs : (c &&& (c - 1)) / 2 = c / 2 &&& (c - 1) / 2 := Nat.and_div_two
        have h1 : c / 2 = d := by omega
        have h2 : (c - 1) / 2 = d := by omega
        rw [hmask, h1, h2, Nat.and_self] at hs
        omega

/-- Claim C10 fails as stated: at `number = 8589934605`, `max = 3000000000`
the function returns `4`, which is not a divisor of `number` (the candidate
`(unsigned) number / i` divides the 32-bit truncation of `number`, not
`number` itself). -/
theorem c10_counterexample :
    find_optimal_factor 8589934605 3000000000 = 4 ∧
      ¬ (8589934605 % 4 = 0) := by
  constructor
  · rfl
  · decide

/-- Claim C10 (amended): with `number < 2^64` and `max < 2^32`,
`find_optimal_factor number max` returns `number` itself whenever
`number ≤ max`; otherwise it returns 0 or a power of two that is at most
`max`, and when `number < 2^32` a nonzero result additionally divides
`number` (for `number ≥ 2^32` the 32-bit truncation in the candidate
computation can break the divisor property). -/
theorem c10_find_optimal_factor_amended (number max : Nat)
    (hnum : number < 2 ^ 64) (hmax : max < 2 ^ 32) :
    (number ≤ max → find_optimal_factor number max = number) ∧
    (max < number → find_optimal_factor number max = 0 ∨
      (∃ k, find_optimal_factor number max = 2 ^ k) ∧
        find_optimal_factor number max ≤ max ∧
        (number < 2 ^ 32 → number % find_optimal_factor number max = 0)) := by
  constructor
  · intro hle
    unfold find_optimal_factor
    simp only [hle, if_true]
    exact Nat.mod_eq_of_lt (by omega)
  · intro hgt
    unfold find_optimal_factor
    have hnle : ¬ number ≤ max := by omega
    simp only [hnle, if_false]
    rcases find_optimal_factor_go_spec number max (number / 2) 2 with h0 | hd
    · left; exact h0
    · right
      obtain ⟨d, hdvd, hdle, heq, hmask2⟩ := hd
      have hd0 : d ≠ 0 := by
        intro h; subst h
        simp only [Nat.mod_zero] at hdvd
        omega
      refine ⟨?_, ?_, ?_⟩
      · obtain ⟨k, hk⟩ := pow2_of_mask _ hmask2
        exact ⟨k, heq.trans hk⟩
      · rw [heq]
        calc (number % 2 ^ 32) / d ≤ number / d :=
              Nat.div_le_div_right (Nat.mod_le _ _)
          _ ≤ max := hdle
      · intro hsmall
        rw [heq, Nat.mod_eq_of_lt hsmall]
        have hdvd2 : (number / d) ∣ number :=
          Nat.div_dvd_of_dvd (Nat.dvd_of_mod_eq_zero hdvd)
        have hdle2 : d ≤ number := by
          by_contra hgt2
          have : number % d = number := Nat.mod_eq_of_lt (by omega)
          omega
        exact Nat.mod_eq_zero_of_dvd hdvd2

/-- Witness for the amended C10 theorem at `number = 12`, `max = 6`
(the loop finds divisor 3 and returns `4 = 2 ^ 2 ≤ 6`, which divides 12). -/
theorem c10_find_optimal_factor_amended_witness :
    (6 ≤ 8 → find_optimal_factor 6 8 = 6) ∧
    (6 < 12 → find_optimal_factor 12 6 = 0 ∨
      (∃ k, find_optimal_factor 12 6 = 2 ^ k) ∧
        find_optimal_factor 12 6 ≤ 6 ∧
        (12 < 2 ^ 32 → 12 % find_optimal_factor 12 6 = 0)) :=
  ⟨(c10_find_optimal_factor_amended 6 8 (by norm_num) (by norm_num)).1,
   (c10_find_optimal_factor_amended 12 6 (by norm_num) (by norm_num)).2⟩

end FactorArith

namespace DuffResidue

/-- Firm relation constants (bitmask encoding): `ir_relation_less = 1`,
`ir_relation_equal = 2`, `ir_relation_greater = 4`; `less_equal = 3`,
`greater_equal = 6`. -/
def ir_relation_less : Nat := 1

def ir_relation_less_equal : Nat := 3

def ir_relation_greater : Nat := 4

def ir_relation_greater_equal : Nat := 6

/-- Expression skeleton of the nodes built by `create_fixup_switch_header`
(loop_unrolling.c lines 2248-2331) and `create_abs` (lines 1787-1802).
`phiI` stands for `info->phi`, `bndN` for the copied bound `N_cpy`,
`stepC` for the copied step `c_cpy`. -/
inductive Expr where
  | cnst (v : Int)
  | phiI
  | bndN
  | stepC
  | shrs (e : Expr) (k : Nat)
  | eor (a b : Expr)
  | subE (a b : Expr)
  | addE (a b : Expr)
  | mulE (a b : Expr)
deriving DecidableEq, Repr

/-- Truncation of an integer to an unsigned `w`-bit value. -/
def wrap (w : Nat) (x : Int) : Nat := (x % (2 ^ w : Int)).toNat

/-- Signed (two's-complement) reading of a `w`-bit value. -/
def toSigned (w : Nat) (x : Nat) : Int :=
  if x < 2 ^ (w - 1) then (x : Int) else (x : Int) - 2 ^ w

/-- Arithmetic shift right: floor division by `2 ^ k`. -/
def sshr (x : Int) (k : Nat) : Int := Int.fdiv x (2 ^ k)

/-- Two's-complement evaluation of an expression in mode width `w`, with
the phi value `iv`, the bound value `nv` and the step value `cv` (all as
unsigned `w`-bit values). -/
def eval (w iv nv cv : Nat) : Expr → Nat
  | .cnst v => wrap w v
  | .phiI => iv
  | .bndN => nv
  | .stepC => cv
  | .shrs e k => wrap w (sshr (toSigned w (eval w iv nv cv e)) k)
  | .eor a b => eval w iv nv cv a ^^^ eval w iv nv cv b
  | .subE a b => wrap w ((eval w iv nv cv a : Int) - (eval w iv nv cv b : Int))
  | .addE a b => wrap w ((eval w iv nv cv a : Int) + (eval w iv nv cv b : Int))
  | .mulE a b => wrap w ((eval w iv nv cv a : Int) * (eval w iv nv cv b : Int))

/-- `create_abs` (loop_unrolling.c lines 1787-1802): the branchless
absolute value `sub(eor(shrs(n, bits-1), n), shrs(n, bits-1))`. -/
def create_abs (w : Nat) (e : Expr) : Expr :=
  Expr.subE (Expr.eor (Expr.shrs e (w - 1)) e) (Expr.shrs e (w - 1))

/-- `is_less` (loop_unrolling.c lines 1887-1893): `less ^ inverted` where
`inverted` records that the phi is the right operand of the compare. -/
def is_less (rel : Nat) (phiOnRight : Bool) : Bool :=
  xor (decide (rel = ir_relation_less) || decide (rel = ir_relation_less_equal))
    phiOnRight

/-- The residue expression built in `create_fixup_switch_header`
(loop_unrolling.c lines 2268-2294): `N_minus_i` is `Sub(N_abs, phi)` (or
the reverse when the loop counts down), incremented by one for non-strict
relations; `res = Add(N_minus_i, Sub(c_abs, 1))`. -/
def build_residue (w rel : Nat) (phiOnRight : Bool) : Expr :=
  let n_abs := create_abs w Expr.bndN
  let c_abs := create_abs w Expr.stepC
  let one_const := Expr.cnst 1
  let n_minus_i :=
    if is_less rel phiOnRight then Expr.subE n_abs Expr.phiI
    else Expr.subE Expr.phiI n_abs
  let n_minus_i :=
    if rel = ir_relation_less_equal ∨ rel = ir_relation_greater_equal then
      Expr.addE n_minus_i one_const
    else n_minus_i
  let c_one := Expr.subE c_abs one_const
  Expr.addE n_minus_i c_one

/-- The chain of landing-pad compares (loop_unrolling.c lines 2296-2311):
`factor - 1` blocks, each comparing `res >= (factor - 1 - i) * c_abs`. -/
def build_cmp_chain (w factor rel : Nat) (phiOnRight : Bool) :
    List (Expr × Expr) :=
  (List.range (factor - 1)).map fun idx =>
    (build_residue w rel phiOnRight,
     Expr.mulE (Expr.cnst ((factor : Int) - 1 - idx)) (create_abs w Expr.stepC))

theorem wrap_lt (w : Nat) (x : Int) : wrap w x < 2 ^ w := by
  unfold wrap
  have h0 : (0 : Int) < 2 ^ w := by positivity
  have h1 := Int.emod_nonneg x h0.ne'
  have h2 := Int.emod_lt_of_pos x h0
  have hc : ((2 ^ w : Nat) : Int) = (2 : Int) ^ w := by push_cast; rfl
  omega

theorem wrap_cast (w : Nat) (x : Int) :
    ((wrap w x : Nat) : Int) = x % 2 ^ w := by
  unfold wrap
  have h0 : (0 : Int) < 2 ^ w := by positivity
  exact Int.toNat_of_nonneg (Int.emod_nonneg x h0.ne')

theorem wrap_congr (w : Nat) {a b : Int} (h : a % 2 ^ w = b % 2 ^ w) :
    wrap w a = wrap w b := by
  unfold wrap; rw [h]

theorem emod_absorb_add_left (M a b : Int) : (a % M + b) % M = (a + b) % M := by
  conv_lhs => rw [Int.add_emod]
  rw [Int.emod_emod_of_dvd a dvd_rfl, ← Int.add_emod]

theorem emod_absorb_add_right (M a b : Int) : (a + b % M) % M = (a + b) % M := by
  conv_lhs => rw [Int.add_emod]
  rw [Int.emod_emod_of_dvd b dvd_rfl, ← Int.add_emod]

theorem emod_absorb_sub_left (M a b : Int) : (a % M - b) % M = (a - b) % M := by
  conv_lhs => rw [Int.sub_emod]
  rw [Int.emod_emod_of_dvd a dvd_rfl, ← Int.sub_emod]

theorem emod_absorb_sub_right (M a b : Int) : (a - b % M) % M = (a - b) % M := by
  conv_lhs => rw [Int.sub_emod]
  rw [Int.emod_emod_of_dvd b dvd_rfl, ← Int.sub_emod]

/-- Xor with the all-ones mask `2 ^ w - 1` is complement. -/
theorem xor_all_ones : ∀ (w x : Nat), x < 2 ^ w →
    x ^^^ (2 ^ w - 1) = (2 ^ w - 1) - x := by
  intro w
  induction w with
  | zero =>
    intro x hx
    have : x = 0 := by omega
    subst this; rfl
  | succ w ih =>
    intro x hx
    have hpow : (2 : Nat) ^ (w + 1) = 2 * 2 ^ w := by rw [pow_succ]; ring
    have hpw : 1 ≤ 2 ^ w := Nat.one_le_two_pow
    have hm : (2 ^ (w + 1) - 1) / 2 = 2 ^ w - 1 := by omega
    have hdiv : (x ^^^ (2 ^ (w + 1) - 1)) / 2 = x / 2 ^^^ (2 ^ w - 1) := by
      rw [Nat.xor_div_two, hm]
    have hq : x / 2 < 2 ^ w := by omega
    rw [ih (x / 2) hq] at hdiv
    have hmodm : (2 ^ (w + 1) - 1) % 2 = 1 := by omega
    have hmb : (2 ^ (w + 1) - 1).testBit 0 = true := by
      simp only [Nat.testBit_zero, hmodm, decide_eq_true_eq]
    have hb : (x ^^^ (2 ^ (w + 1) - 1)).testBit 0 =
        (x.testBit 0).xor ((2 ^ (w + 1) - 1).testBit 0) :=
      Nat.testBit_xor x (2 ^ (w + 1) - 1) 0
    have hmod : (x ^^^ (2 ^ (w + 1) - 1)) % 2 = 1 - x % 2 := by
      rcases Nat.mod_two_eq_zero_or_one x with h0 | h1
      · have hxb : x.testBit 0 = false := by
          simp only [Nat.testBit_zero, h0, decide_eq_true_eq]
          decide
        rw [hxb, hmb] at hb
        have : (x ^^^ (2 ^ (w + 1) - 1)) % 2 = 1 :=
          Nat.mod_two_eq_one_iff_testBit_zero.mpr (by rw [hb]; rfl)
        omega
      · have hxb : x.testBit 0 = true := by
          simp only [Nat.testBit_zero, h1, decide_eq_true_eq]
        rw [hxb, hmb] at hb
        have : (x ^^^ (2 ^ (w + 1) - 1)) % 2 = 0 :=
          Nat.mod_two_eq_zero_iff_testBit_zero.mpr (by rw [hb]; rfl)
        omega
    have hz := Nat.div_add_mod (x ^^^ (2 ^ (w + 1) - 1)) 2
    omega

/-- On a value `x < 2 ^ w`, the branchless gadget built by `create_abs`
evaluates to the absolute value of the signed reading of `x`, truncated
back to `w` bits. -/
theorem eval_create_abs (w : Nat) (hw : 0 < w) (iv nv cv : Nat) (e : Expr)
    (hval : eval w iv nv cv e < 2 ^ w) :
    eval w iv nv cv (create_abs w e) =
      wrap w (|toSigned w (eval w iv nv cv e)|) := by
  have hhalf : 2 ^ w = 2 * 2 ^ (w - 1) := by
    conv_lhs => rw [show w = (w - 1) + 1 by omega]
    rw [pow_succ]; ring
  set x := eval w iv nv cv e with hx
  have hM : (0 : Int) < 2 ^ w := by positivity
  by_cases hsmall : x < 2 ^ (w - 1)
  · -- nonnegative signed value: shift yields 0, xor is identity
    have hts : toSigned w x = (x : Int) := by unfold toSigned; rw [if_pos hsmall]
    have hshr : sshr (toSigned w x) (w - 1) = 0 := by
      unfold sshr
      rw [Int.fdiv_eq_ediv _ (by positivity)]
      exact Int.ediv_eq_zero_of_lt (by rw [hts]; positivity)
        (by rw [hts]; exact_mod_cast hsmall)
    have habs : |toSigned w x| = (x : Int) := by
      rw [hts]; exact abs_of_nonneg (by positivity)
    show wrap w (((eval w iv nv cv (.eor (.shrs e (w - 1)) e) : Nat) : Int) -
        ((eval w iv nv cv (.shrs e (w - 1)) : Nat) : Int)) = _
    have hsv : eval w iv nv cv (.shrs e (w - 1)) = 0 := by
      show wrap w (sshr (toSigned w x) (w - 1)) = 0
      rw [hshr]; rfl
    have hev : eval w iv nv cv (.eor (.shrs e (w - 1)) e) = x := by
      show eval w iv nv cv (.shrs e (w - 1)) ^^^ x = x
      rw [hsv]; exact Nat.zero_xor x
    rw [hsv, hev, habs]
    norm_num
  · -- negative signed value: shift yields all-ones, xor complements
    have hx1 : 1 ≤ x := by omega
    have hts : toSigned w x = (x : Int) - 2 ^ w := by
      unfold toSigned; rw [if_neg hsmall]
    have htneg : toSigned w x < 0 := by
      rw [hts]; have : (x : Int) < 2 ^ w := by exact_mod_cast hval
      omega
    have htlb : -(2 ^ ((w : Nat) - 1) : Int) ≤ toSigned w x := by
      rw [hts]
      have h1 : ((2 ^ (w - 1) : Nat) : Int) ≤ (x : Int) := by exact_mod_cast (by omega : 2 ^ (w - 1) ≤ x)
      have h2 : ((2 ^ w : Nat) : Int) = 2 ^ w := by push_cast; rfl
      have h3 : ((2 ^ (w - 1) : Nat) : Int) = 2 ^ (w - 1) := by push_cast; rfl
      have h4 : (2 ^ w : Int) = 2 * 2 ^ (w - 1) := by exact_mod_cast (by omega : (2 ^ w : Nat) = 2 * 2 ^ (w - 1))
      omega
    have hshr : sshr (toSigned w x) (w - 1) = -1 := by
      unfold sshr
      rw [Int.fdiv_eq_ediv _ (by positivity)]
      have hrw : toSigned w x = (toSigned w x + 2 ^ ((w : Nat) - 1)) + (-1) * 2 ^ ((w : Nat) - 1) := by ring
      rw [hrw, Int.add_mul_ediv_right _ _ (by positivity : (0:Int) < 2 ^ ((w:Nat) - 1)).ne']
      rw [Int.ediv_eq_zero_of_lt (by omega) (by omega)]
      ring
    have hsv : eval w iv nv cv (.shrs e (w - 1)) = 2 ^ w - 1 := by
      show wrap w (sshr (toSigned w x) (w - 1)) = 2 ^ w - 1
      rw [hshr]
      unfold wrap
      have hneg1 : (-1 : Int) % 2 ^ w = 2 ^ w - 1 := by
        have h1 : ((-1 : Int) + 2 ^ w * 1) % 2 ^ w = (-1 : Int) % 2 ^ w :=
          Int.add_mul_emod_self_left (-1 : Int) (2 ^ w) 1
        have h2 : ((-1 : Int) + 2 ^ w * 1) = 2 ^ w - 1 := by ring
        rw [h2] at h1
        rw [← h1]
        exact Int.emod_eq_of_lt (by omega) (by omega)
      rw [hneg1]
      have hc : ((2 ^ w : Nat) : Int) = (2 : Int) ^ w := by push_cast; rfl
      omega
    have hev : eval w iv nv cv (.eor (.shrs e (w - 1)) e) = (2 ^ w - 1) - x := by
      show eval w iv nv cv (.shrs e (w - 1)) ^^^ x = _
      rw [hsv, Nat.xor_comm]
      exact xor_all_ones w x hval
    show wrap w (((eval w iv nv cv (.eor (.shrs e (w - 1)) e) : Nat) : Int) -
        ((eval w iv nv cv (.shrs e (w - 1)) : Nat) : Int)) = _
    rw [hsv, hev]
    have habs : |toSigned w x| = 2 ^ w - (x : Int) := by
      rw [abs_of_neg htneg, hts]; ring
    rw [habs]
    have hcast1 : (((2 ^ w - 1 - x : Nat) : Int)) = 2 ^ w - 1 - x := by
      have : x ≤ 2 ^ w - 1 := by omega
      push_cast [this]
      have : 1 ≤ 2 ^ w := Nat.one_le_two_pow
      push_cast [this]
      ring
    have hcast2 : (((2 ^ w - 1 : Nat) : Int)) = 2 ^ w - 1 := by
      have : 1 ≤ 2 ^ w := Nat.one_le_two_pow
      push_cast [this]; ring
    rw [hcast1, hcast2]
    have h1 : (2 ^ w - 1 - (x : Int) - (2 ^ w - 1)) = -(x : Int) := by ring
    rw [h1]
    apply wrap_congr
    rw [show (2 ^ w : Int) - (x : Int) = -(x : Int) + 2 ^ w * 1 by ring,
      Int.add_mul_emod_self_left]

theorem wrap_absorb_sub_left (w : Nat) (X b : Int) :
    wrap w ((wrap w X : Nat) - b) = wrap w (X - b) := by
  apply wrap_congr
  rw [wrap_cast]
  exact emod_absorb_sub_left _ _ _

theorem wrap_absorb_sub_right (w : Nat) (a Y : Int) :
    wrap w (a - (wrap w Y : Nat)) = wrap w (a - Y) := by
  apply wrap_congr
  rw [wrap_cast]
  exact emod_absorb_sub_right _ _ _

theorem wrap_absorb_add_left (w : Nat) (X b : Int) :
    wrap w ((wrap w X : Nat) + b) = wrap w (X + b) := by
  apply wrap_congr
  rw [wrap_cast]
  exact emod_absorb_add_left _ _ _

theorem wrap_absorb_add_right (w : Nat) (a Y : Int) :
    wrap w (a + (wrap w Y : Nat)) = wrap w (a + Y) := by
  apply wrap_congr
  rw [wrap_cast]
  exact emod_absorb_add_right _ _ _

theorem emod_congr_add_right {M a b : Int} (c : Int) (h : a % M = b % M) :
    (a + c) % M = (b + c) % M := by
  rw [Int.add_emod, h, ← Int.add_emod]

theorem emod_congr_sub_right {M a b : Int} (c : Int) (h : a % M = b % M) :
    (c - a) % M = (c - b) % M := by
  rw [Int.sub_emod, h, ← Int.sub_emod]

theorem emod_congr_sub_left {M a b : Int} (c : Int) (h : a % M = b % M) :
    (a - c) % M = (b - c) % M := by
  rw [Int.sub_emod, h, ← Int.sub_emod]

theorem toSigned_emod (w : Nat) (x : Nat) :
    toSigned w x % 2 ^ w = (x : Int) % 2 ^ w := by
  unfold toSigned
  split
  · rfl
  · rw [show (x : Int) - 2 ^ w = (x : Int) + 2 ^ w * (-1) by ring,
      Int.add_mul_emod_self_left]

/-- Claim C4 fails as stated: for a `<=` loop with `N = 10`, `i = 0`,
`c = 1` in a 32-bit mode, the residue built by
`create_fixup_switch_header` evaluates to `11`, while the claimed
`|N - i| + (|c| - 1)` is `10` (the code adds one for non-strict
relations, which the claim omits). -/
theorem c4_counterexample :
    eval 32 0 10 1 (build_residue 32 ir_relation_less_equal false) = 11 ∧
      wrap 32 (|toSigned 32 10 - toSigned 32 0| + (|toSigned 32 1| - 1)) = 10 ∧
      (11 : Nat) ≠ 10 := by
  refine ⟨by decide, by decide, by decide⟩

/-- Claim C4 (amended): the residue built by `create_fixup_switch_header`
and fed as the left operand to every landing-pad compare evaluates to
`|N| - i + (|c| - 1)` for up-counting loops (`i - |N| + (|c| - 1)` for
down-counting ones), plus one when the header relation is non-strict;
the code takes the absolute value of `N` and subtracts the raw `i`
rather than computing `|N - i|`. -/
theorem c4_build_residue_amended (w : Nat) (hw : 0 < w) (iv nv cv : Nat)
    (hnv : nv < 2 ^ w) (hcv : cv < 2 ^ w)
    (rel : Nat) (phiOnRight : Bool) (factor : Nat) :
    eval w iv nv cv (build_residue w rel phiOnRight) =
      wrap w ((if is_less rel phiOnRight then
                 |toSigned w nv| - toSigned w iv
               else toSigned w iv - |toSigned w nv|) +
              (if rel = ir_relation_less_equal ∨ rel = ir_relation_greater_equal
               then 1 else 0) +
              (|toSigned w cv| - 1)) ∧
    ∀ p ∈ build_cmp_chain w factor rel phiOnRight,
      p.1 = build_residue w rel phiOnRight := by
  constructor
  · have habsN : eval w iv nv cv (create_abs w Expr.bndN) =
        wrap w (|toSigned w nv|) := eval_create_abs w hw iv nv cv Expr.bndN hnv
    have habsC : eval w iv nv cv (create_abs w Expr.stepC) =
        wrap w (|toSigned w cv|) := eval_create_abs w hw iv nv cv Expr.stepC hcv
    have hts : toSigned w iv % 2 ^ w = (iv : Int) % 2 ^ w := toSigned_emod w iv
    have hone : eval w iv nv cv (Expr.cnst 1) = wrap w 1 := rfl
    unfold build_residue
    by_cases hless : is_less rel phiOnRight = true
    · simp only [hless, if_true]
      by_cases hns : rel = ir_relation_less_equal ∨ rel = ir_relation_greater_equal
      · simp only [hns, if_true]
        show wrap w ((((eval w iv nv cv
            (Expr.addE (Expr.subE (create_abs w Expr.bndN) Expr.phiI)
              (Expr.cnst 1)) : Nat) : Int)) +
            ((eval w iv nv cv (Expr.subE (create_abs w Expr.stepC)
              (Expr.cnst 1)) : Nat) : Int)) = _
        have h1 : eval w iv nv cv
            (Expr.subE (create_abs w Expr.bndN) Expr.phiI) =
            wrap w (|toSigned w nv| - (iv : Int)) := by
          show wrap w (((eval w iv nv cv (create_abs w Expr.bndN) : Nat) : Int) -
            ((iv : Nat) : Int)) = _
          rw [habsN, wrap_absorb_sub_left]
        have h2 : eval w iv nv cv
            (Expr.addE (Expr.subE (create_abs w Expr.bndN) Expr.phiI)
              (Expr.cnst 1)) =
            wrap w ((|toSigned w nv| - (iv : Int)) + 1) := by
          show wrap w (((eval w iv nv cv
            (Expr.subE (create_abs w Expr.bndN) Expr.phiI) : Nat) : Int) +
            ((eval w iv nv cv (Expr.cnst 1) : Nat) : Int)) = _
          rw [h1, hone, wrap_absorb_add_left, wrap_absorb_add_right]
        have h3 : eval w iv nv cv
            (Expr.subE (create_abs w Expr.stepC) (Expr.cnst 1)) =
            wrap w (|toSigned w cv| - 1) := by
          show wrap w (((eval w iv nv cv (create_abs w Expr.stepC) : Nat) : Int) -
            ((eval w iv nv cv (Expr.cnst 1) : Nat) : Int)) = _
          rw [habsC, hone, wrap_absorb_sub_left, wrap_absorb_sub_right]
        rw [h2, h3, wrap_absorb_add_left, wrap_absorb_add_right]
        apply wrap_congr
        refine emod_congr_add_right _ (emod_congr_add_right _ ?_)
        exact (emod_congr_sub_right _ hts).symm
      · simp only [hns, if_false]
        show wrap w (((eval w iv nv cv
            (Expr.subE (create_abs w Expr.bndN) Expr.phiI) : Nat) : Int) +
            ((eval w iv nv cv (Expr.subE (create_abs w Expr.stepC)
              (Expr.cnst 1)) : Nat) : Int)) = _
        have h1 : eval w iv nv cv
            (Expr.subE (create_abs w Expr.bndN) Expr.phiI) =
            wrap w (|toSigned w nv| - (iv : Int)) := by
          show wrap w (((eval w iv nv cv (create_abs w Expr.bndN) : Nat) : Int) -
            ((iv : Nat) : Int)) = _
          rw [habsN, wrap_absorb_sub_left]
        have h3 : eval w iv nv cv
            (Expr.subE (create_abs w Expr.stepC) (Expr.cnst 1)) =
            wrap w (|toSigned w cv| - 1) := by
          show wrap w (((eval w iv nv cv (create_abs w Expr.stepC) : Nat) : Int) -
            ((eval w iv nv cv (Expr.cnst 1) : Nat) : Int)) = _
          rw [habsC, hone, wrap_absorb_sub_left, wrap_absorb_sub_right]
        rw [h1, h3, wrap_absorb_add_left, wrap_absorb_add_right]
        apply wrap_congr
        rw [add_zero]
        refine emod_congr_add_right _ ?_
        exact (emod_congr_sub_right _ hts).symm
    · have hless2 : is_less rel phiOnRight = false := by
        revert hless; cases is_less rel phiOnRight <;> simp
      simp only [hless2, Bool.false_eq_true, if_false]
      by_cases hns : rel = ir_relation_less_equal ∨ rel = ir_relation_greater_equal
      · simp only [hns, if_true]
        show wrap w (((eval w iv nv cv
            (Expr.addE (Expr.subE Expr.phiI (create_abs w Expr.bndN))
              (Expr.cnst 1)) : Nat) : Int) +
            ((eval w iv nv cv (Expr.subE (create_abs w Expr.stepC)
              (Expr.cnst 1)) : Nat) : Int)) = _
        have h1 : eval w iv nv cv
            (Expr.subE Expr.phiI (create_abs w Expr.bndN)) =
            wrap w ((iv : Int) - |toSigned w nv|) := by
          show wrap w (((iv : Nat) : Int) -
            ((eval w iv nv cv (create_abs w Expr.bndN) : Nat) : Int)) = _
          rw [habsN, wrap_absorb_sub_right]
        have h2 : eval w iv nv cv
            (Expr.addE (Expr.subE Expr.phiI (create_abs w Expr.bndN))
              (Expr.cnst 1)) =
            wrap w (((iv : Int) - |toSigned w nv|) + 1) := by
          show wrap w (((eval w iv nv cv
            (Expr.subE Expr.phiI (create_abs w Expr.bndN)) : Nat) : Int) +
            ((eval w iv nv cv (Expr.cnst 1) : Nat) : Int)) = _
          rw [h1, hone, wrap_absorb_add_left, wrap_absorb_add_right]
        have h3 : eval w iv nv cv
            (Expr.subE (create_abs w Expr.stepC) (Expr.cnst 1)) =
            wrap w (|toSigned w cv| - 1) := by
          show wrap w (((eval w iv nv cv (create_abs w Expr.stepC) : Nat) : Int) -
            ((eval w iv nv cv (Expr.cnst 1) : Nat) : Int)) = _
          rw [habsC, hone, wrap_absorb_sub_left, wrap_absorb_sub_right]
        rw [h2, h3, wrap_absorb_add_left, wrap_absorb_add_right]
        apply wrap_congr
        refine emod_congr_add_right _ (emod_congr_add_right _ ?_)
        exact (emod_congr_sub_left _ hts).symm
      · simp only [hns, if_false]
        show wrap w (((eval w iv nv cv
            (Expr.subE Expr.phiI (create_abs w Expr.bndN)) : Nat) : Int) +
            ((eval w iv nv cv (Expr.subE (create_abs w Expr.stepC)
              (Expr.cnst 1)) : Nat) : Int)) = _
        have h1 : eval w iv nv cv
            (Expr.subE Expr.phiI (create_abs w Expr.bndN)) =
            wrap w ((iv : Int) - |toSigned w nv|) := by
          show wrap w (((iv : Nat) : Int) -
            ((eval w iv nv cv (create_abs w Expr.bndN) : Nat) : Int)) = _
          rw [habsN, wrap_absorb_sub_right]
        have h3 : eval w iv nv cv
            (Expr.subE (create_abs w Expr.stepC) (Expr.cnst 1)) =
            wrap w (|toSigned w cv| - 1) := by
          show wrap w (((eval w iv nv cv (create_abs w Expr.stepC) : Nat) : Int) -
            ((eval w iv nv cv (Expr.cnst 1) : Nat) : Int)) = _
          rw [habsC, hone, wrap_absorb_sub_left, wrap_absorb_sub_right]
        rw [h1, h3, wrap_absorb_add_left, wrap_absorb_add_right]
        apply wrap_congr
        rw [add_zero]
        refine emod_congr_add_right _ ?_
        exact (emod_congr_sub_left _ hts).symm
  · intro p hp
    unfold build_cmp_chain at hp
    obtain ⟨idx, _, hpe⟩ := List.mem_map.mp hp
    rw [← hpe]

/-- Witness for the amended C4 theorem: an 8-bit up-counting `<` loop with
`i = 3`, `N = 10`, `c = 2` and unroll factor 4. -/
theorem c4_build_residue_amended_witness :
    eval 8 3 10 2 (build_residue 8 ir_relation_less false) =
      wrap 8 ((if is_less ir_relation_less false then
                 |toSigned 8 10| - toSigned 8 3
               else toSigned 8 3 - |toSigned 8 10|) +
              (if ir_relation_less = ir_relation_less_equal ∨
                  ir_relation_less = ir_relation_greater_equal
               then 1 else 0) +
              (|toSigned 8 2| - 1)) ∧
    ∀ p ∈ build_cmp_chain 8 4 ir_relation_less false,
      p.1 = build_residue 8 ir_relation_less false :=
  c4_build_residue_amended 8 (by decide) 3 10 2 (by decide) (by decide)
    ir_relation_less false 4

end DuffResidue

namespace LoopUnroll

/-- Opcode tags for the node kinds inspected by the unroller. -/
inductive Opc where
  | block
  | phi
  | cmp
  | cond
  | proj
  | const
  | add
  | sub
  | mul
  | load
  | store
  | call
  | conv
  | jmp
  | endN
  | other
deriving DecidableEq, Repr

/-- Modes: control flow (`mode_X`), memory (`mode_M`), integer modes of a
given bit width, anything else. -/
inductive IRMode where
  | x
  | m
  | intM (bits : Nat)
  | otherM
deriving DecidableEq, Repr

/-- `mode_is_int`. -/
def IRMode.isInt : IRMode → Bool
  | .intM _ => true
  | _ => false

/-- An element of a loop: a block node or a child loop (`loop_element`). -/
inductive LoopElem where
  | node (blk : Nat)
  | loopEl (l : Nat)
deriving DecidableEq, Repr

/-- Per-node data: opcode, mode, ordered predecessors (`get_irn_n`), owning
block (`get_nodes_block` / `get_block`; a Block is its own block), the Proj
number, the Cmp relation (firm bitmask numbers), whether a Call's callee
graph is known (`get_entity_linktime_irg`), whether the callee is pure
(`mtp_property_pure`), and the node's load/store/call type. -/
structure IRNode where
  opc : Opc := .other
  mode : IRMode := .otherM
  preds : List Nat := []
  block : Nat := 0
  projNum : Nat := 0
  rel : Nat := 0
  calleeKnown : Bool := false
  calleePure : Bool := false
  ty : Nat := 0
deriving DecidableEq, Repr

/-- An entry of the `alias_candidates` list (`struct alias_list`). -/
structure AliasEntry where
  node : Nat
  addr : Nat
  ty : Nat
  size : Nat
deriving DecidableEq, Repr

/-- The graph as read by the unroller: nodes, out edges (`get_irn_out`),
immediate dominators (`get_Block_idom`), the loop of each block
(`get_irn_loop`), the loop tree (`get_loop_element` / outer loop / depth),
type sizes, and two analysis oracles that live outside src/:
`aliasOracle a b` stands for `get_alias_relation(a...) != ir_no_alias`
(modelled from the spec: alias analysis derives no/may/must alias from
type, address base and offset), and `calleeStores c` stands for the store
entries that `walk_call_for_aliases` collects by walking the known callee
graph of call `c` (cross-graph traversal; callee graphs are outside this
embedding). -/
structure Graph where
  node : Nat → IRNode
  outs : Nat → List Nat
  idom : Nat → Option Nat
  irnLoop : Nat → Option Nat
  loopElems : Nat → List LoopElem
  outerLoop : Nat → Nat
  loopDepth : Nat → Nat
  typeSize : Nat → Nat
  aliasOracle : AliasEntry → AliasEntry → Bool
  calleeStores : Nat → List AliasEntry

def get_block (g : Graph) (n : Nat) : Nat := (g.node n).block

def get_Proj_pred (g : Graph) (n : Nat) : Nat := (g.node n).preds.headD 0

def get_Cond_selector (g : Graph) (n : Nat) : Nat := (g.node n).preds.headD 0

def get_binop_left (g : Graph) (n : Nat) : Nat := (g.node n).preds.getD 0 0

def get_binop_right (g : Graph) (n : Nat) : Nat := (g.node n).preds.getD 1 0

def get_Cmp_left (g : Graph) (n : Nat) : Nat := (g.node n).preds.getD 0 0

def get_Cmp_right (g : Graph) (n : Nat) : Nat := (g.node n).preds.getD 1 0

/-- Pointer operand of a Load/Store/Call (`get_Load_ptr` etc.; the memory
input sits at index 0, the pointer at index 1). -/
def get_ptr (g : Graph) (n : Nat) : Nat := (g.node n).preds.getD 1 0

/-- Parameters of a Call (after memory and callee pointer). -/
def get_Call_params (g : Graph) (n : Nat) : List Nat := (g.node n).preds.drop 2

/-- `is_inner_loop` (loop_unrolling.c lines 61-69): walk the outer-loop
chain of `inner` until it reaches a fixpoint or `outer`. -/
def is_inner_loop (g : Graph) (outer : Nat) : Nat → Nat → Bool
  | 0, _ => false
  | fuel + 1, inner =>
    let old := inner
    let inner2 := g.outerLoop inner
    if inner2 ≠ old ∧ inner2 ≠ outer then is_inner_loop g outer fuel inner2
    else decide (inner2 ≠ old)

/-- `block_is_inside_loop` (lines 71-77); a NULL loop argument can never
match a block's (non-NULL) loop nor terminate `is_inner_loop` positively. -/
def block_is_inside_loop (g : Graph) (fuel : Nat) (block : Nat)
    (loop : Option Nat) : Bool :=
  match g.irnLoop block with
  | none => false
  | some block_loop =>
    match loop with
    | none => false
    | some l => block_loop = l || is_inner_loop g l fuel block_loop

/-- Chain of immediate dominators above a block. -/
def dom_chain (g : Graph) : Nat → Nat → List Nat
  | 0, _ => []
  | fuel + 1, b =>
    match g.idom b with
    | none => []
    | some d => d :: dom_chain g fuel d

/-- Modelled from the spec: `block_dominates` comes from the dominance
analysis (outside src/); a block dominates another iff it equals it or
appears on its immediate-dominator chain. -/
def block_dominates (g : Graph) (fuel a b : Nat) : Bool :=
  a = b || (dom_chain g fuel b).contains a

/-- `block_dominates_loop` (lines 79-94). -/
def block_dominates_loop (g : Graph) : Nat → Nat → Nat → Bool
  | 0, _, _ => false
  | fuel + 1, block, loop =>
    (g.loopElems loop).all fun el =>
      match el with
      | .node b => block_dominates g fuel block b
      | .loopEl son => block_dominates_loop g fuel block son

/-- Dominator walk of `get_loop_header` (lines 111-116). -/
def get_loop_header_walk (g : Graph) : Nat → Nat → Nat → Nat
  | 0, header, _ => header
  | fuel + 1, header, loop =>
    match g.idom header with
    | none => header
    | some d =>
      if block_is_inside_loop g fuel d (some loop) then
        get_loop_header_walk g fuel d loop
      else header

/-- `get_loop_header` (lines 96-119): pick the first block element, walk up
the dominance tree inside the loop, return it iff it dominates the loop. -/
def get_loop_header (g : Graph) (fuel loop : Nat) : Option Nat :=
  let header0 := (g.loopElems loop).findSome? fun el =>
    match el with
    | .node b => some b
    | .loopEl _ => none
  match header0 with
  | none => none
  | some h0 =>
    let header := get_loop_header_walk g fuel h0 loop
    if block_dominates_loop g fuel header loop then some header else none

/-- `is_Proj_attached_to_Cmp` (lines 121-130). -/
def is_Proj_attached_to_Cmp (g : Graph) (proj : Nat) : Bool :=
  let post_proj := get_Proj_pred g proj
  if (g.node post_proj).opc ≠ .cond then false
  else (g.node (get_Cond_selector g post_proj)).opc = .cmp

def pn_Cond_false : Nat := 0

def pn_Cond_true : Nat := 1

/-- `get_false_and_true_targets` (lines 132-166): scan the header's out
edges for mode-X Projs attached to a Cond over a Cmp and classify their
(unique) successor as in-loop or out-of-loop target. -/
def get_false_and_true_targets (g : Graph) (fuel header : Nat) :
    Option Nat × Option Nat :=
  (g.outs header).foldl
    (fun (acc : Option Nat × Option Nat) curr =>
      if (g.node curr).opc ≠ .proj ∨ (g.node curr).mode ≠ .x ∨
          ¬ is_Proj_attached_to_Cmp g curr then acc
      else if (g.node curr).projNum = pn_Cond_true ∨
          (g.node curr).projNum = pn_Cond_false then
        match (g.outs curr).head? with
        | none => acc
        | some post_proj =>
          if block_is_inside_loop g fuel (get_block g post_proj)
              (g.irnLoop header) then
            (some post_proj, acc.2)
          else (acc.1, some post_proj)
      else acc)
    (none, none)

/-- `is_aliased` (lines 391-424): for a Load/Store/Call, test the node's
address and type against every collected alias candidate. -/
def is_aliased (g : Graph) (cands : List AliasEntry) (node : Nat) : Bool :=
  match (g.node node).opc with
  | .load | .store | .call =>
    let addr := get_ptr g node
    let ty := (g.node node).ty
    cands.any fun curr =>
      g.aliasOracle curr ⟨node, addr, ty, g.typeSize ty⟩
  | _ => false

/-- `walk_call_for_aliases` (lines 474-534): a call with a known callee
graph contributes the stores found by walking that graph (given by the
`calleeStores` oracle); an unknown callee contributes entries derived from
its Proj parameters (Proj over Load, or Proj over Proj over Call). -/
def walk_call_for_aliases (g : Graph) (call : Nat)
    (cands : List AliasEntry) : List AliasEntry :=
  if (g.node call).calleeKnown then g.calleeStores call ++ cands
  else
    (get_Call_params g call).foldl
      (fun cands param =>
        if (g.node param).opc = .proj then
          let pre_proj := get_Proj_pred g param
          if (g.node pre_proj).opc = .load then
            ⟨pre_proj, get_ptr g pre_proj, (g.node pre_proj).ty,
              g.typeSize (g.node pre_proj).ty⟩ :: cands
          else if (g.node pre_proj).opc = .proj then
            let pre_pre_proj := get_Proj_pred g pre_proj
            if (g.node pre_pre_proj).opc = .call then
              ⟨pre_proj, get_ptr g pre_pre_proj, (g.node pre_pre_proj).ty,
                g.typeSize (g.node pre_pre_proj).ty⟩ :: cands
            else cands
          else cands
        else cands)
      cands

/-- `check_for_store_` (lines 427-459): calls are walked for aliases; a
store inside the right loop is prepended to the candidate list. -/
def check_for_store (g : Graph) (fuel : Nat) (loop : Option Nat)
    (cands : List AliasEntry) (n : Nat) : List AliasEntry :=
  let cands :=
    if (g.node n).opc = .call then walk_call_for_aliases g n cands else cands
  if (g.node n).opc ≠ .store then cands
  else
    match loop with
    | some l =>
      if ¬ block_is_inside_loop g fuel (get_block g n) (some l) then cands
      else ⟨n, get_ptr g n, (g.node n).ty, g.typeSize (g.node n).ty⟩ :: cands
    | none => ⟨n, get_ptr g n, (g.node n).ty, g.typeSize (g.node n).ty⟩ :: cands

/-- `get_all_stores` (lines 549-577).  The source resets the global
candidate list (`alias_candidates = NULL`) at every (re)entry, including
the recursive call for a child loop, which therefore replaces whatever the
parent had collected so far; the fold mirrors that. -/
def get_all_stores (g : Graph) : Nat → Nat → List AliasEntry
  | 0, _ => []
  | fuel + 1, loop =>
    (g.loopElems loop).foldl
      (fun cands el =>
        match el with
        | .loopEl son => get_all_stores g fuel son
        | .node blk => (g.outs blk).foldl (check_for_store g fuel (some loop)) cands)
      []

/-- Parameter loop of the pure-call case of `is_valid_base_`
(lines 662-672); `go` is the recursive call at the current depth. -/
def is_valid_base_params (go : Nat → List Nat → Bool × List Nat) :
    List Nat → List Nat → Bool × List Nat
  | [], stack => (true, stack)
  | p :: rest, stack =>
    let r := go p stack
    if r.1 then is_valid_base_params go rest r.2
    else (false, r.2)

/-- Phi-predecessor loop of `is_valid_base_` (lines 690-720): count
predecessors inside the loop and require each to be a valid base;
`none` means an invalid pred. -/
def is_valid_base_phis (go : Nat → List Nat → Bool × List Nat)
    (inLoop : Nat → Bool) :
    List Nat → List Nat → Nat → Option Nat × List Nat
  | [], stack, cnt => (some cnt, stack)
  | p :: rest, stack, cnt =>
    let cnt := if inLoop p then cnt + 1 else cnt
    let r := go p stack
    if ¬ r.1 then (none, r.2)
    else is_valid_base_phis go inLoop rest r.2 cnt

/-- `is_valid_base_` (lines 620-728), with the global `visited_base` stack
threaded explicitly and the recursion bounded by `fuel` (the C recursion
terminates through the visited stack; any sufficiently large fuel agrees
with it). -/
def is_valid_base_go (g : Graph) (cands : List AliasEntry) :
    Nat → Nat → Option Nat → List Nat → Bool × List Nat
  | 0, _, _, stack => (false, stack)
  | Nat.succ fuel, node, loop, stack =>
    if stack.contains node then (false, stack)
    else
      let stack := node :: stack
      if (g.node node).opc = .const then (true, stack)
      else if loop.isSome ∧
          ¬ block_is_inside_loop g fuel (get_block g node) loop then
        (true, stack)
      else if (g.node node).opc = .proj then
        let pre_proj := get_Proj_pred g node
        if (g.node pre_proj).opc = .proj then
          let proj_call := get_Proj_pred g pre_proj
          if (g.node proj_call).opc ≠ .call then (false, stack)
          else if loop.isSome ∧
              ¬ block_is_inside_loop g fuel (get_block g proj_call) loop then
            (true, stack)
          else if ¬ (g.node proj_call).calleePure then (false, stack)
          else
            let r := is_valid_base_params
              (fun p st => is_valid_base_go g cands fuel p loop st)
              (get_Call_params g proj_call) stack
            if ¬ r.1 then (false, r.2)
            else (¬ is_aliased g cands proj_call, r.2)
        else if (g.node pre_proj).opc = .load then
          let pre_load := get_ptr g pre_proj
          if (g.node pre_load).opc = .proj then
            let r := is_valid_base_go g cands fuel pre_load loop stack
            if ¬ r.1 then (false, r.2)
            else (¬ is_aliased g cands pre_proj, r.2)
          else (¬ is_aliased g cands pre_proj, stack)
        else (false, stack)
      else if (g.node node).opc = .phi then
        let r := is_valid_base_phis
          (fun p st => is_valid_base_go g cands fuel p loop st)
          (fun p => loop.isSome ∧
            block_is_inside_loop g fuel (get_block g p) loop)
          (g.node node).preds stack 0
        match r.1 with
        | none => (false, r.2)
        | some pointing_into_loop =>
          if loop.isSome ∧ pointing_into_loop > 1 then (false, r.2)
          else (true, r.2)
      else if (g.node node).opc = .conv then
        is_valid_base_go g cands fuel ((g.node node).preds.headD 0) loop stack
      else (false, stack)

/-- `is_valid_base` (lines 730-736): reset the visited stack and run. -/
def is_valid_base (g : Graph) (cands : List AliasEntry) (fuel : Nat)
    (node : Nat) (loop : Option Nat) : Bool :=
  (is_valid_base_go g cands fuel node loop []).1

/-- `climb_single_phi` (lines 738-745). -/
def climb_single_phi (g : Graph) : Nat → Nat → Nat
  | 0, phi => phi
  | fuel + 1, phi =>
    if (g.node phi).opc ≠ .phi then phi
    else if (g.node phi).preds.length ≠ 1 then phi
    else climb_single_phi g fuel ((g.node phi).preds.headD 0)

/-- State of `phi_cycle_dfs` (its four out-parameters and the shared
visited stack). -/
structure PCD where
  foundCycle : Bool
  valid : Bool
  outside : Option Nat
  stack : List Nat
deriving DecidableEq, Repr

/-- Predecessor loop of `phi_cycle_dfs`; the Bool reports the early
return taken when an already-visited phi is met (it skips the rest of the
current level only); `dfs` is the recursive call at the current depth. -/
def pcd_preds (g : Graph) (searched : Nat) (dfs : Nat → PCD → PCD) :
    List Nat → Nat → PCD → Bool × PCD
  | [], _, st => (false, st)
  | w :: rest, curr, st =>
    let st := if w = searched then { st with foundCycle := true } else st
    if (g.node w).opc ≠ .phi then
      let st :=
        if st.outside = none then { st with outside := some curr }
        else if st.outside ≠ some curr then { st with valid := false }
        else st
      pcd_preds g searched dfs rest curr st
    else if st.stack.contains w then (true, st)
    else
      pcd_preds g searched dfs rest curr (dfs w st)

/-- `phi_cycle_dfs` (lines 747-794). -/
def phi_cycle_dfs (g : Graph) (searched loop : Nat) :
    Nat → Nat → PCD → PCD
  | 0, _, st => st
  | Nat.succ fuel, curr, st =>
    let st := { st with stack := curr :: st.stack }
    let preds := (g.node curr).preds
    if preds.length = 0 then { st with valid := false }
    else
      let r := pcd_preds g searched
        (fun w st2 => phi_cycle_dfs g searched loop fuel w st2) preds curr st
      if r.1 then r.2
      else if r.2.outside ≠ some curr ∧
          ¬ block_is_inside_loop g fuel (get_block g curr) (some loop) then
        { r.2 with valid := false }
      else r.2

/-- `check_cycle_and_find_exit` (lines 795-816). -/
def check_cycle_and_find_exit (g : Graph) (fuel : Nat)
    (initial_phi searched loop : Nat) : Option Nat :=
  if (g.node initial_phi).opc ≠ .phi then some initial_phi
  else
    let st := phi_cycle_dfs g searched loop fuel initial_phi
      ⟨false, true, none, []⟩
    match st.outside with
    | some o => if st.valid ∧ st.foundCycle then some o else none
    | none => none

/-- `enum Op` (line 343). -/
inductive Op where
  | ADD
  | SUB
  | MUL
deriving DecidableEq, Repr

/-- `binop_to_op` (lines 346-359), fused with the recognized-op filter;
other firm binops (And, Or, shifts...) pass `is_binop` but make
`binop_to_op` return false without writing `*op`, reaching the same
`return false` in `is_valid_incr`. -/
def binop_to_op (g : Graph) (n : Nat) : Option Op :=
  match (g.node n).opc with
  | .add => some .ADD
  | .sub => some .SUB
  | .mul => some .MUL
  | _ => none

def is_binop (g : Graph) (n : Nat) : Bool := (binop_to_op g n).isSome

/-- `duff_unrollability` (lines 335-341) as its two flag bits. -/
structure DuffUnrollability where
  loopFixup : Bool
  switchFixup : Bool
deriving DecidableEq, Repr

def duff_unrollable_none : DuffUnrollability := ⟨false, false⟩

def duff_unrollable_all : DuffUnrollability := ⟨true, true⟩

/-- Bitwise or of unrollabilities (`ret |= ...`). -/
def DuffUnrollability.orD (a b : DuffUnrollability) : DuffUnrollability :=
  ⟨a.loopFixup || b.loopFixup, a.switchFixup || b.switchFixup⟩

/-- `u &= ~duff_unrollable_switch_fixup`. -/
def clear_switch (u : DuffUnrollability) : DuffUnrollability :=
  { u with switchFixup := false }

/-- `struct linear_unroll_info` (lines 361-372); the `i` array is `none`
while the C pointer is NULL, `i_size` is its length. -/
structure LinUnrollInfo where
  op : Op := .ADD
  loop : Nat := 0
  i : Option (List Nat) := none
  cmp : Nat := 0
  rel : Nat := 0
  incr : Nat := 0
  phi : Nat := 0
  bound : Nat := 0
  header : Nat := 0
deriving DecidableEq, Repr

/-- `is_valid_incr` (lines 818-882).  Note that `unroll_info->op` is
written by `binop_to_op` even when the overall check fails later. -/
def is_valid_incr (g : Graph) (fuel : Nat) (cands : List AliasEntry)
    (info : LinUnrollInfo) (node : Nat) : Bool × LinUnrollInfo :=
  if ¬ is_binop g node then (false, info)
  else
    match binop_to_op g node with
    | none => (false, info)
    | some op =>
      let info := { info with op := op }
      let left := climb_single_phi g fuel (get_binop_left g node)
      let right := climb_single_phi g fuel (get_binop_right g node)
      if (g.node left).opc ≠ .phi ∧ (g.node right).opc ≠ .phi then
        (false, info)
      else
        let tail : Nat → Bool × LinUnrollInfo := fun node_to_check =>
          if info.op = .MUL ∧ (g.node node_to_check).opc ≠ .const then
            (false, info)
          else if ¬ is_valid_base g cands fuel node_to_check
              (g.irnLoop (get_block g node_to_check)) then
            (false, info)
          else (true, { info with incr := node_to_check })
        let ntc0 : Option Nat :=
          if right = info.phi then some left
          else if left = info.phi then some right
          else none
        match ntc0 with
        | some ntc => tail ntc
        | none =>
          let left_c :=
            check_cycle_and_find_exit g fuel (get_binop_left g node) node
              info.loop
          let right_c :=
            check_cycle_and_find_exit g fuel (get_binop_right g node) node
              info.loop
          let ntc1 : Option Nat :=
            if right_c = some info.phi then some left
            else if left_c = some info.phi then some right
            else none
          match ntc1 with
          | some ntc => tail ntc
          | none => (false, info)

/-- State of the predecessor loop in `check_phi` (lines 909-932):
`incrIdx` is `incr_pred_index` (`none` for -1), `isArr` the `is` array,
`unroll` the running unrollability. -/
structure CPSt where
  incrIdx : Option Nat
  isArr : List Nat
  unroll : DuffUnrollability
  info : LinUnrollInfo
deriving DecidableEq, Repr

/-- Predecessor loop of `check_phi`: a second valid increment resets the
index and breaks; an invalid-base pred clears the switch-fixup bit; other
preds are recorded in the `is` array while it has room. -/
def check_phi_go (g : Graph) (fuel : Nat) (cands : List AliasEntry)
    (loop phiPredsLen : Nat) : List (Nat × Nat) → CPSt → CPSt
  | [], st => st
  | (i, curr) :: rest, st =>
    let p := is_valid_incr g fuel cands st.info curr
    let ok := p.1
    let st := { st with info := p.2 }
    if ok then
      match st.incrIdx with
      | some _ => { st with incrIdx := none }
      | none =>
        check_phi_go g fuel cands loop phiPredsLen rest
          { st with incrIdx := some i }
    else
      let st :=
        if ¬ is_valid_base g cands fuel curr (some loop) then
          { st with unroll := clear_switch st.unroll }
        else st
      let st :=
        if st.isArr.length < phiPredsLen - 1 then
          { st with isArr := st.isArr ++ [curr] }
        else st
      check_phi_go g fuel cands loop phiPredsLen rest st

/-- `check_phi` (lines 883-951). -/
def check_phi (g : Graph) (fuel : Nat) (info : LinUnrollInfo) (loop : Nat) :
    DuffUnrollability × LinUnrollInfo :=
  let phi := info.phi
  let phiPreds := (g.node phi).preds
  if phiPreds.length < 2 then (duff_unrollable_none, info)
  else if (phiPreds.filter fun p =>
      block_is_inside_loop g fuel (get_block g p) (some loop)).length > 1 then
    (duff_unrollable_none, info)
  else
    let cands := get_all_stores g fuel loop
    let st := check_phi_go g fuel cands loop phiPreds.length phiPreds.enum
      ⟨none, [], duff_unrollable_all, info⟩
    match st.incrIdx with
    | none => (duff_unrollable_none, st.info)
    | some _ =>
      let info :=
        if st.info.i = none then { st.info with i := some st.isArr }
        else st.info
      let u :=
        if ¬ (g.node phi).mode.isInt then clear_switch st.unroll
        else st.unroll
      (u, info)

/-- `no_of_block_in_loop` (lines 987-995). -/
def no_of_block_in_loop (g : Graph) (loop : Nat) : Nat :=
  ((g.loopElems loop).filter fun el =>
    match el with
    | .node _ => true
    | .loopEl _ => false).length

/-- `loop_exits_from_block` (lines 952-972). -/
def loop_exits_from_block (g : Graph) (fuel block loop : Nat) : Nat :=
  ((g.outs block).map fun out =>
    if get_block g out ≠ block then 0
    else if (g.node out).mode ≠ .x then 0
    else ((g.outs out).filter fun curr =>
      ¬ block_is_inside_loop g fuel (get_block g curr) (some loop)).length).sum

/-- `has_multiple_loop_exits` (lines 974-985); the `loop_exits <= 1` guard
in the source's for loop only stops counting early and does not change
the boolean result. -/
def has_multiple_loop_exits (g : Graph) (fuel loop : Nat) : Bool :=
  (((g.loopElems loop).map fun el =>
    match el with
    | .node b => loop_exits_from_block g fuel b loop
    | .loopEl _ => 0).sum) > 1

/-- Firm relation constants (see `DuffResidue`). -/
def rel_less : Nat := 1

def rel_less_equal : Nat := 3

def rel_greater : Nat := 4

def rel_greater_equal : Nat := 6

/-- Body run for the first header Cmp that passes the relation filter
(lines 1046-1084): record relation and compare, run `check_phi` for each
phi operand, then veto on an invalid bound base, a multiplicative step
(switch fix-up only) and multiple loop exits.
The bound check `is_valid_base(info->bound, loop)` reads the global
candidate list that the last `check_phi` left behind; when `check_phi`
ran past its early exits that list is exactly `get_all_stores loop`
(recomputed deterministically here; if every `check_phi` returned before
collecting stores the C reads a stale freed list, which is undefined). -/
def determine_found (g : Graph) (fuel loop node : Nat)
    (info : LinUnrollInfo) : DuffUnrollability × LinUnrollInfo :=
  let info := { info with rel := (g.node node).rel, cmp := node }
  let left := get_Cmp_left g node
  let right := get_Cmp_right g node
  if (g.node left).opc ≠ .phi ∧ (g.node right).opc ≠ .phi then
    (duff_unrollable_none, info)
  else
    let p1 :=
      if (g.node left).opc = .phi then
        check_phi g fuel { info with phi := left, bound := right } loop
      else (duff_unrollable_none, info)
    let p2 :=
      if (g.node right).opc = .phi then
        check_phi g fuel { p1.2 with phi := right, bound := left } loop
      else (duff_unrollable_none, p1.2)
    let ret := p1.1.orD p2.1
    let cands := get_all_stores g fuel loop
    let ret :=
      if ¬ is_valid_base g cands fuel p2.2.bound (some loop) then
        duff_unrollable_none
      else ret
    let ret := if p2.2.op = .MUL then clear_switch ret else ret
    let ret :=
      if has_multiple_loop_exits g fuel loop then duff_unrollable_none
      else ret
    (ret, p2.2)

/-- The out-edge scan of `determine_lin_unroll_info` (lines 1021-1085),
returning from the first header Cmp whose relation passes the filter. -/
def determine_scan (g : Graph) (fuel loop header : Nat) :
    List Nat → LinUnrollInfo → DuffUnrollability × LinUnrollInfo
  | [], info => (duff_unrollable_none, info)
  | node :: rest, info =>
    if get_block g node ≠ header then determine_scan g fuel loop header rest info
    else if (g.node node).opc ≠ .cmp then
      determine_scan g fuel loop header rest info
    else
      let rel := (g.node node).rel
      if rel ≠ rel_greater_equal ∧ rel ≠ rel_greater ∧
          rel ≠ rel_less_equal ∧ rel ≠ rel_less then
        determine_scan g fuel loop header rest info
      else determine_found g fuel loop node info

/-- `determine_lin_unroll_info` (lines 997-1089).  `info0` stands for the
uninitialized stack struct the caller passes in.  When `get_loop_header`
returns NULL the C dereferences it in `get_irn_loop`; we return
not-unrollable there. -/
def determine_lin_unroll_info (g : Graph) (fuel : Nat) (info0 : LinUnrollInfo)
    (loop : Nat) : DuffUnrollability × LinUnrollInfo :=
  let info := { info0 with i := none, loop := loop }
  if no_of_block_in_loop g loop ≤ 1 then (duff_unrollable_none, info)
  else
    match get_loop_header g fuel loop with
    | none => (duff_unrollable_none, info)
    | some header =>
      if g.irnLoop header ≠ some loop then (duff_unrollable_none, info)
      else if (g.node header).preds.any fun p => get_block g p = header then
        (duff_unrollable_none, info)
      else
        let targets := get_false_and_true_targets g fuel header
        if targets.1 = none ∨ targets.2 = none then
          (duff_unrollable_none, info)
        else determine_scan g fuel loop header (g.outs header) info

/-- `find_suitable_factor` (lines 1116-1245).  The function body reads
`unsigned const DONT_UNROLL = 0; unsigned const n_outs = ...;
unsigned factor = 1; return 0;` — the unconditional `return 0` at line
1122 precedes the whole Cmp scan and iteration-count analysis (lines
1123-1244), so that analysis is unreachable, the out-parameter
`*fully_unroll` is never written, and the result is 0 for every header,
every bound and every incoming flag value. -/
def find_suitable_factor (g : Graph) (header max : Nat)
    (fully_unroll : Bool) : Nat × Bool :=
  let factor := 1
  (0, fully_unroll)

/-- Mutable pass state: the graph and the `n_loops_unrolled` counter. -/
structure UnrollState where
  g : Graph
  n_loops_unrolled : Nat

/-- Signature of the graph-mutating helpers (`rewire_loop`,
`rewire_fully_unrolled`, `unroll_loop_duff`): the theorems below hold for
every behavior of these, so they are taken as parameters. -/
def RewireFn : Type := UnrollState → Nat → Nat → Nat → UnrollState

def DuffFn : Type :=
  UnrollState → Nat → Nat → LinUnrollInfo → DuffUnrollability → UnrollState

/-- `unroll_loop` (lines 2909-2933): find the header, ask
`find_suitable_factor`, return early when the factor is below the
threshold, otherwise rewire (and remove the control-flow loop when fully
unrolling). -/
def unroll_loop (rewire_loop rewire_fully : RewireFn) (fuel : Nat)
    (st : UnrollState) (loop factor : Nat) : UnrollState :=
  match get_loop_header st.g fuel loop with
  | none => st
  | some header =>
    let fully_unroll := false
    let fr := find_suitable_factor st.g header factor fully_unroll
    if fr.1 < 1 ∨ (fr.1 = 1 ∧ fr.2 = false) then st
    else
      let st := rewire_loop st loop header fr.1
      let st := { st with n_loops_unrolled := st.n_loops_unrolled + 1 }
      if fr.2 then rewire_fully st loop header fr.1 else st

/-- `count_nodes` (lines 2935-2948). -/
def count_nodes (g : Graph) : Nat → Nat → Nat
  | 0, _ => 0
  | fuel + 1, loop =>
    ((g.loopElems loop).map fun el =>
      match el with
      | .node b => (g.outs b).length
      | .loopEl son => count_nodes g fuel son).sum

/-- `determine_unroll_factor` (lines 2950-2953). -/
def determine_unroll_factor (g : Graph) (fuel loop factor maxsize : Nat) :
    Nat :=
  if count_nodes g fuel loop < maxsize then factor else 0

/-- Child-loop recursion of `duplicate_innermost_loops`; the Bool is the
`innermost` flag and `next` is the recursive call at the current depth. -/
def dil_children (next : UnrollState → Nat → UnrollState) :
    List LoopElem → UnrollState → UnrollState × Bool
  | [], st => (st, true)
  | .node _ :: rest, st => dil_children next rest st
  | .loopEl son :: rest, st =>
    let st := next st son
    let r := dil_children next rest st
    (r.1, false)

/-- `duplicate_innermost_loops` (lines 2965-3026), release-build semantics
(the `DEBUG_ONLY(goto duff)` and the `duff:` label vanish).  `duffFactor`
stands for the `DUFF_FACTOR` environment lookup, `info0` for the
uninitialized `linear_unroll_info` stack struct. -/
def duplicate_innermost_loops (rewire_loop rewire_fully : RewireFn)
    (duffFn : DuffFn) (info0 : LinUnrollInfo) (duffFactor : Nat) :
    Nat → UnrollState → Nat → Nat → Nat → Bool → UnrollState
  | 0, st, _, _, _, _ => st
  | Nat.succ fuel, st, loop, factor, maxsize, outermost =>
    let r :=
      dil_children
        (fun st2 son =>
          duplicate_innermost_loops rewire_loop rewire_fully duffFn info0
            duffFactor fuel st2 son factor maxsize false)
        (st.g.loopElems loop) st
    let st := r.1
    let innermost := r.2
    if ¬ innermost then st
    else
      let viaNormal : Option UnrollState :=
        if ¬ outermost then
          let actual_factor :=
            determine_unroll_factor st.g fuel loop factor maxsize
          if actual_factor > 0 then
            some (unroll_loop rewire_loop rewire_fully fuel st loop
              actual_factor)
          else none
        else none
      match viaNormal with
      | some st => st
      | none =>
        match get_loop_header st.g fuel loop with
        | none => st
        | some header =>
          match st.g.irnLoop header with
          | none => st
          | some curr_loop =>
            if st.g.loopDepth curr_loop = 0 then st
            else
              let du := determine_lin_unroll_info st.g fuel info0 curr_loop
              if du.1 ≠ duff_unrollable_none then
                duffFn st curr_loop duffFactor du.2 du.1
              else st

theorem is_valid_incr_preserves (g : Graph) (fuel : Nat)
    (cands : List AliasEntry) (info : LinUnrollInfo) (node : Nat) :
    (is_valid_incr g fuel cands info node).2.cmp = info.cmp ∧
    (is_valid_incr g fuel cands info node).2.rel = info.rel ∧
    (is_valid_incr g fuel cands info node).2.phi = info.phi ∧
    (is_valid_incr g fuel cands info node).2.bound = info.bound := by
  unfold is_valid_incr
  dsimp only
  repeat' split <;>
    first
    | exact ⟨rfl, rfl, rfl, rfl⟩
    | (constructor <;> first | rfl | trivial | (constructor <;> first | rfl | trivial | (constructor <;> first | rfl | trivial)))
    | simp_all
    | skip

theorem check_phi_go_preserves (g : Graph) (fuel : Nat)
    (cands : List AliasEntry) (loop phiPredsLen : Nat) :
    ∀ (l : List (Nat × Nat)) (st : CPSt),
      (check_phi_go g fuel cands loop phiPredsLen l st).info.cmp =
        st.info.cmp ∧
      (check_phi_go g fuel cands loop phiPredsLen l st).info.rel =
        st.info.rel := by
  intro l
  induction l with
  | nil => intro st; exact ⟨rfl, rfl⟩
  | cons hd rest ih =>
    intro st
    obtain ⟨i, curr⟩ := hd
    rw [check_phi_go]
    obtain ⟨hc, hr, -, -⟩ := is_valid_incr_preserves g fuel cands st.info curr
    dsimp only
    split
    · split
      · exact ⟨hc, hr⟩
      · constructor
        · rw [(ih _).1]; exact hc
        · rw [(ih _).2]; exact hr
    · constructor
      · rw [(ih _).1]
        split <;> split <;> simp [hc]
      · rw [(ih _).2]
        split <;> split <;> simp [hr]

theorem check_phi_preserves (g : Graph) (fuel : Nat) (info : LinUnrollInfo)
    (loop : Nat) :
    (check_phi g fuel info loop).2.cmp = info.cmp ∧
    (check_phi g fuel info loop).2.rel = info.rel := by
  unfold check_phi
  obtain ⟨hc, hr⟩ :=
    check_phi_go_preserves g fuel (get_all_stores g fuel loop) loop
      (g.node info.phi).preds.length (g.node info.phi).preds.enum
      ⟨none, [], duff_unrollable_all, info⟩
  dsimp only
  repeat' split <;> simp_all

/-- Switch-fixup guard of `check_phi`: a non-integer phi mode clears the
switch-fixup bit of whatever `check_phi` returns. -/
theorem check_phi_switch_clear (g : Graph) (fuel : Nat)
    (info : LinUnrollInfo) (loop : Nat)
    (h : ¬ (g.node info.phi).mode.isInt = true) :
    (check_phi g fuel info loop).1.switchFixup = false := by
  unfold check_phi
  dsimp only
  split
  · rfl
  · split
    · rfl
    · split
      · rfl
      · simp only [h]
        rfl

theorem check_phi_go_preserves_phi (g : Graph) (fuel : Nat)
    (cands : List AliasEntry) (loop phiPredsLen : Nat) :
    ∀ (l : List (Nat × Nat)) (st : CPSt),
      (check_phi_go g fuel cands loop phiPredsLen l st).info.phi =
        st.info.phi := by
  intro l
  induction l with
  | nil => intro st; rfl
  | cons hd rest ih =>
    intro st
    obtain ⟨i, curr⟩ := hd
    rw [check_phi_go]
    obtain ⟨-, -, hp, -⟩ := is_valid_incr_preserves g fuel cands st.info curr
    dsimp only
    split
    · split
      · exact hp
      · rw [ih _]; exact hp
    · rw [ih _]
      split <;> split <;> simp [hp]

theorem check_phi_preserves_phi (g : Graph) (fuel : Nat)
    (info : LinUnrollInfo) (loop : Nat) :
    (check_phi g fuel info loop).2.phi = info.phi := by
  unfold check_phi
  have hp :=
    check_phi_go_preserves_phi g fuel (get_all_stores g fuel loop) loop
      (g.node info.phi).preds.length (g.node info.phi).preds.enum
      ⟨none, [], duff_unrollable_all, info⟩
  dsimp only
  repeat' split <;> simp_all

/-- Contrapositive of the mode guard: `check_phi` can only return with
the switch-fixup bit set if its phi has integer mode. -/
theorem check_phi_switch_set (g : Graph) (fuel : Nat)
    (info : LinUnrollInfo) (loop : Nat)
    (h : (check_phi g fuel info loop).1.switchFixup = true) :
    (g.node info.phi).mode.isInt = true := by
  by_cases hm : (g.node info.phi).mode.isInt = true
  · exact hm
  · rw [check_phi_switch_clear g fuel info loop hm] at h
    exact absurd h (by decide)

/-- Shape of the post-filters at the end of `determine_found`: a
surviving switch-fixup bit comes from one of the two `check_phi`
results that were or-ed. -/
theorem post_filter_switch (b1 b2 : DuffUnrollability) (c1 c2 c3 : Prop)
    [Decidable c1] [Decidable c2] [Decidable c3]
    (h : (if c3 then duff_unrollable_none
        else if c2 then
          clear_switch (if c1 then duff_unrollable_none else b1.orD b2)
        else if c1 then duff_unrollable_none
        else b1.orD b2).switchFixup = true) :
    b1.switchFixup = true ∨ b2.switchFixup = true := by
  by_cases h3 : c3
  · rw [if_pos h3] at h
    exact absurd h (by decide)
  · rw [if_neg h3] at h
    by_cases h2 : c2
    · rw [if_pos h2] at h
      exact absurd h (by simp [clear_switch])
    · rw [if_neg h2] at h
      by_cases h1 : c1
      · rw [if_pos h1] at h
        exact absurd h (by decide)
      · rw [if_neg h1] at h
        simpa [DuffUnrollability.orD] using h

theorem determine_found_info (g : Graph) (fuel loop node : Nat)
    (info : LinUnrollInfo) :
    (determine_found g fuel loop node info).2.cmp = node ∧
    (determine_found g fuel loop node info).2.rel = (g.node node).rel := by
  unfold determine_found
  by_cases hnp : (g.node (get_Cmp_left g node)).opc ≠ Opc.phi ∧
      (g.node (get_Cmp_right g node)).opc ≠ Opc.phi
  · simp only [if_pos hnp]
    constructor <;> first | rfl | trivial
  · simp only [if_neg hnp]
    by_cases hr2 : (g.node (get_Cmp_right g node)).opc = Opc.phi
    · simp only [if_pos hr2]
      constructor
      · rw [(check_phi_preserves g fuel _ loop).1]
        by_cases hl : (g.node (get_Cmp_left g node)).opc = Opc.phi
        · simp only [if_pos hl]
          rw [(check_phi_preserves g fuel _ loop).1]
        · simp only [if_neg hl]
      · rw [(check_phi_preserves g fuel _ loop).2]
        by_cases hl : (g.node (get_Cmp_left g node)).opc = Opc.phi
        · simp only [if_pos hl]
          rw [(check_phi_preserves g fuel _ loop).2]
        · simp only [if_neg hl]
    · simp only [if_neg hr2]
      by_cases hl : (g.node (get_Cmp_left g node)).opc = Opc.phi
      · simp only [if_pos hl]
        constructor
        · rw [(check_phi_preserves g fuel _ loop).1]
        · rw [(check_phi_preserves g fuel _ loop).2]
      · simp only [if_neg hl]
        constructor <;> first | rfl | trivial

theorem determine_found_mul (g : Graph) (fuel loop node : Nat)
    (info : LinUnrollInfo)
    (hmul : (determine_found g fuel loop node info).2.op = Op.MUL) :
    (determine_found g fuel loop node info).1.switchFixup = false := by
  unfold determine_found at hmul ⊢
  by_cases hnp : (g.node (get_Cmp_left g node)).opc ≠ Opc.phi ∧
      (g.node (get_Cmp_right g node)).opc ≠ Opc.phi
  · simp only [if_pos hnp]
    rfl
  · simp only [if_neg hnp] at hmul ⊢
    by_cases hmulti : has_multiple_loop_exits g fuel loop = true
    · rw [if_pos hmulti]
      rfl
    · rw [if_neg hmulti, if_pos hmul]
      rfl

/-- Under the firm invariant that the two Cmp operands share a mode, a
switch-fixup bit surviving `determine_found` means the recorded
induction phi has integer mode: the bit came from a `check_phi` run
whose own phi was one of the operands, and that run's mode guard forces
integer mode, which the shared-mode hypothesis transfers to the operand
that ended up recorded. -/
theorem determine_found_phi (g : Graph) (fuel loop node : Nat)
    (info : LinUnrollInfo)
    (hmode : (g.node (get_Cmp_left g node)).mode =
      (g.node (get_Cmp_right g node)).mode)
    (h : (determine_found g fuel loop node info).1.switchFixup = true) :
    (g.node (determine_found g fuel loop node info).2.phi).mode.isInt =
      true := by
  unfold determine_found at h ⊢
  by_cases hnp : (g.node (get_Cmp_left g node)).opc ≠ Opc.phi ∧
      (g.node (get_Cmp_right g node)).opc ≠ Opc.phi
  · simp only [if_pos hnp] at h
    exact absurd h (by decide)
  · simp only [if_neg hnp] at h ⊢
    have hor := post_filter_switch _ _ _ _ _ h
    by_cases hr2 : (g.node (get_Cmp_right g node)).opc = Opc.phi
    · simp only [if_pos hr2] at hor ⊢
      rw [check_phi_preserves_phi]
      rcases hor with hb | hb
      · by_cases hl : (g.node (get_Cmp_left g node)).opc = Opc.phi
        · simp only [if_pos hl] at hb
          have hint := check_phi_switch_set g fuel _ loop hb
          show (g.node (get_Cmp_right g node)).mode.isInt = true
          rw [← hmode]
          exact hint
        · simp only [if_neg hl] at hb
          exact absurd hb (by decide)
      · exact check_phi_switch_set g fuel _ loop hb
    · simp only [if_neg hr2] at hor ⊢
      have hl : (g.node (get_Cmp_left g node)).opc = Opc.phi := by
        by_contra hln
        exact hnp ⟨hln, hr2⟩
      simp only [if_pos hl] at hor ⊢
      rw [check_phi_preserves_phi]
      rcases hor with hb | hb
      · exact check_phi_switch_set g fuel _ loop hb
      · exact absurd hb (by decide)

/-- Spec of the Cmp scan: when it reports the loop unrollable, the
recorded compare's relation was recorded faithfully and is one of the
four ordered relations; when the switch-fixup bit survives, the recorded
step op is not MUL. -/
theorem determine_scan_spec (g : Graph) (fuel loop header : Nat) :
    ∀ (l : List Nat) (info : LinUnrollInfo),
      ((determine_scan g fuel loop header l info).1 ≠ duff_unrollable_none →
        (g.node (determine_scan g fuel loop header l info).2.cmp).rel =
          (determine_scan g fuel loop header l info).2.rel ∧
        ((determine_scan g fuel loop header l info).2.rel = rel_less ∨
         (determine_scan g fuel loop header l info).2.rel = rel_less_equal ∨
         (determine_scan g fuel loop header l info).2.rel = rel_greater ∨
         (determine_scan g fuel loop header l info).2.rel =
           rel_greater_equal)) ∧
      ((determine_scan g fuel loop header l info).1.switchFixup = true →
        (determine_scan g fuel loop header l info).2.op ≠ Op.MUL) := by
  intro l
  induction l with
  | nil =>
    intro info
    constructor
    · intro h; exact absurd rfl h
    · intro h
      exact absurd h (by simp [determine_scan, duff_unrollable_none])
  | cons node rest ih =>
    intro info
    rw [determine_scan]
    dsimp only
    split
    · exact ih info
    · split
      · exact ih info
      · split
        · exact ih info
        · rename_i hblk hcmp hrel
          constructor
          · intro hne
            obtain ⟨hcmpeq, hreleq⟩ := determine_found_info g fuel loop node info
            refine ⟨by rw [hcmpeq, hreleq], ?_⟩
            rw [hreleq]
            rcases Decidable.not_and_iff_or_not.mp hrel with h | h
            · exact Or.inr (Or.inr (Or.inr (Decidable.not_not.mp h)))
            · rcases Decidable.not_and_iff_or_not.mp h with h2 | h2
              · exact Or.inr (Or.inr (Or.inl (Decidable.not_not.mp h2)))
              · rcases Decidable.not_and_iff_or_not.mp h2 with h3 | h3
                · exact Or.inr (Or.inl (Decidable.not_not.mp h3))
                · exact Or.inl (Decidable.not_not.mp h3)
          · intro h hm
            have hfix := determine_found_mul g fuel loop node info hm
            rw [hfix] at h
            exact absurd h (by decide)

/-- Combined spec of `determine_lin_unroll_info`: a non-`none` result
carries a faithfully recorded compare with one of the four ordered
relations, and a surviving switch-fixup bit excludes a MUL step. -/
theorem determine_spec (g : Graph) (fuel : Nat) (info0 : LinUnrollInfo)
    (loop : Nat) :
    ((determine_lin_unroll_info g fuel info0 loop).1 ≠
        duff_unrollable_none →
      (g.node (determine_lin_unroll_info g fuel info0 loop).2.cmp).rel =
        (determine_lin_unroll_info g fuel info0 loop).2.rel ∧
      ((determine_lin_unroll_info g fuel info0 loop).2.rel = rel_less ∨
       (determine_lin_unroll_info g fuel info0 loop).2.rel =
         rel_less_equal ∨
       (determine_lin_unroll_info g fuel info0 loop).2.rel = rel_greater ∨
       (determine_lin_unroll_info g fuel info0 loop).2.rel =
         rel_greater_equal)) ∧
    ((determine_lin_unroll_info g fuel info0 loop).1.switchFixup = true →
      (determine_lin_unroll_info g fuel info0 loop).2.op ≠ Op.MUL) := by
  unfold determine_lin_unroll_info
  by_cases h1 : no_of_block_in_loop g loop ≤ 1
  · simp only [if_pos h1]
    exact ⟨fun h => absurd rfl h, fun h => Bool.noConfusion h⟩
  · simp only [if_neg h1]
    cases hh : get_loop_header g fuel loop with
    | none =>
      simp only [hh]
      exact ⟨fun h => absurd rfl h, fun h => Bool.noConfusion h⟩
    | some header =>
      simp only [hh]
      by_cases h2 : g.irnLoop header ≠ some loop
      · simp only [if_pos h2]
        exact ⟨fun h => absurd rfl h, fun h => Bool.noConfusion h⟩
      · simp only [if_neg h2]
        by_cases h3 : ((g.node header).preds.any fun p =>
            get_block g p = header) = true
        · simp only [h3, if_true]
          exact ⟨fun h => absurd rfl h, fun h => Bool.noConfusion h⟩
        · simp only [h3, if_false, Bool.false_eq_true]
          by_cases h4 : (get_false_and_true_targets g fuel header).1 = none ∨
              (get_false_and_true_targets g fuel header).2 = none
          · simp only [if_pos h4]
            exact ⟨fun h => absurd rfl h, fun h => Bool.noConfusion h⟩
          · simp only [if_neg h4]
            exact ⟨(determine_scan_spec g fuel loop header
                (g.outs header) _).1,
              (determine_scan_spec g fuel loop header (g.outs header) _).2⟩

/-- Lift of `determine_found_phi` through the Cmp scan: the shared-mode
hypothesis is phrased on the Cmp the scan itself records. -/
theorem determine_scan_phi (g : Graph) (fuel loop header : Nat) :
    ∀ (l : List Nat) (info : LinUnrollInfo),
      (g.node (get_Cmp_left g
          (determine_scan g fuel loop header l info).2.cmp)).mode =
        (g.node (get_Cmp_right g
          (determine_scan g fuel loop header l info).2.cmp)).mode →
      (determine_scan g fuel loop header l info).1.switchFixup = true →
      (g.node
          (determine_scan g fuel loop header l info).2.phi).mode.isInt =
        true := by
  intro l
  induction l with
  | nil =>
    intro info hmode h
    exact absurd h (by simp [determine_scan, duff_unrollable_none])
  | cons node rest ih =>
    intro info
    rw [determine_scan]
    dsimp only
    split
    · exact ih info
    · split
      · exact ih info
      · split
        · exact ih info
        · intro hmode h
          have hcmp := (determine_found_info g fuel loop node info).1
          rw [hcmp] at hmode
          exact determine_found_phi g fuel loop node info hmode h

/-- Lift of the shared-mode switch-fixup guard to
`determine_lin_unroll_info` itself. -/
theorem determine_phi_mode (g : Graph) (fuel : Nat) (info0 : LinUnrollInfo)
    (loop : Nat)
    (hmode : (g.node (get_Cmp_left g
        (determine_lin_unroll_info g fuel info0 loop).2.cmp)).mode =
      (g.node (get_Cmp_right g
        (determine_lin_unroll_info g fuel info0 loop).2.cmp)).mode)
    (h : (determine_lin_unroll_info g fuel info0 loop).1.switchFixup =
      true) :
    (g.node
        (determine_lin_unroll_info g fuel info0 loop).2.phi).mode.isInt =
      true := by
  unfold determine_lin_unroll_info at hmode h ⊢
  by_cases h1 : no_of_block_in_loop g loop ≤ 1
  · simp only [if_pos h1] at h
    exact absurd h (by decide)
  · simp only [if_neg h1] at hmode h ⊢
    cases hh : get_loop_header g fuel loop with
    | none =>
      simp only [hh] at h
      exact absurd h (by decide)
    | some header =>
      simp only [hh] at hmode h ⊢
      by_cases h2 : g.irnLoop header ≠ some loop
      · simp only [if_pos h2] at h
        exact absurd h (by decide)
      · simp only [if_neg h2] at hmode h ⊢
        by_cases h3 : ((g.node header).preds.any fun p =>
            get_block g p = header) = true
        · simp only [h3, if_true] at h
          exact absurd h (by decide)
        · simp only [h3, if_false, Bool.false_eq_true] at hmode h ⊢
          by_cases h4 : (get_false_and_true_targets g fuel header).1 = none ∨
              (get_false_and_true_targets g fuel header).2 = none
          · simp only [if_pos h4] at h
            exact absurd h (by decide)
          · simp only [if_neg h4] at hmode h ⊢
            exact determine_scan_phi g fuel loop header (g.outs header) _
              hmode h

/-- Claim C6: whenever `determine_lin_unroll_info` can report the loop
unrollable, the compare node it recorded has relation less, less-equal,
greater, or greater-equal — never equal, not-equal, or an unordered
floating relation (whose firm encodings all differ from these four). -/
theorem c6_recorded_compare_relation (g : Graph) (fuel : Nat)
    (info0 : LinUnrollInfo) (loop : Nat)
    (h : (determine_lin_unroll_info g fuel info0 loop).1 ≠
      duff_unrollable_none) :
    (g.node (determine_lin_unroll_info g fuel info0 loop).2.cmp).rel =
      (determine_lin_unroll_info g fuel info0 loop).2.rel ∧
    ((determine_lin_unroll_info g fuel info0 loop).2.rel = rel_less ∨
     (determine_lin_unroll_info g fuel info0 loop).2.rel = rel_less_equal ∨
     (determine_lin_unroll_info g fuel info0 loop).2.rel = rel_greater ∨
     (determine_lin_unroll_info g fuel info0 loop).2.rel =
       rel_greater_equal) :=
  (determine_spec g fuel info0 loop).1 h

/-- Claim C5: `determine_lin_unroll_info` clears the switch-fixup bit
for a non-integer induction-phi mode and for a multiplicative step.
Contrapositively: a returned value whose switch-fixup bit is still set
has a recorded induction phi of integer mode and a recorded step
operation other than MUL.  The non-integer half relies on the firm graph
invariant (`verify_node_Cmp`) that a Cmp's two operands share a mode,
taken as the hypothesis `hmode` instantiated at the recorded compare. -/
theorem c5_switch_fixup_guards (g : Graph) (fuel : Nat)
    (info0 : LinUnrollInfo) (loop : Nat)
    (hmode : (g.node (get_Cmp_left g
        (determine_lin_unroll_info g fuel info0 loop).2.cmp)).mode =
      (g.node (get_Cmp_right g
        (determine_lin_unroll_info g fuel info0 loop).2.cmp)).mode)
    (h : (determine_lin_unroll_info g fuel info0 loop).1.switchFixup =
      true) :
    (g.node
        (determine_lin_unroll_info g fuel info0 loop).2.phi).mode.isInt =
      true ∧
    (determine_lin_unroll_info g fuel info0 loop).2.op ≠ Op.MUL :=
  ⟨determine_phi_mode g fuel info0 loop hmode h,
   (determine_spec g fuel info0 loop).2 h⟩

/-- `unroll_loop` never changes the pass state: `find_suitable_factor`
returns 0, so the early return is always taken. -/
theorem unroll_loop_eq_self (rewire_loop rewire_fully : RewireFn)
    (fuel : Nat) (st : UnrollState) (loop factor : Nat) :
    unroll_loop rewire_loop rewire_fully fuel st loop factor = st := by
  unfold unroll_loop
  cases get_loop_header st.g fuel loop with
  | none => rfl
  | some header => rfl

/-- Claim C1: `find_suitable_factor` returns 0 for every header, every
maximum-factor bound and every incoming flag (its `return 0` precedes the
iteration-count analysis), and consequently `unroll_loop` takes its early
return and performs no fixed-factor unroll, for every possible behavior
of the rewiring helpers. -/
theorem c1_find_suitable_factor_disabled (g : Graph) (header max : Nat)
    (fully_unroll : Bool) (rewire_loop rewire_fully : RewireFn)
    (fuel : Nat) (st : UnrollState) (loop factor : Nat) :
    find_suitable_factor g header max fully_unroll = (0, fully_unroll) ∧
    unroll_loop rewire_loop rewire_fully fuel st loop factor = st :=
  ⟨rfl, unroll_loop_eq_self rewire_loop rewire_fully fuel st loop factor⟩

theorem dil_children_no_loops (next : UnrollState → Nat → UnrollState) :
    ∀ (els : List LoopElem) (st : UnrollState),
      (∀ son, LoopElem.loopEl son ∉ els) →
      dil_children next els st = (st, true) := by
  intro els
  induction els with
  | nil => intro st h; rfl
  | cons hd rest ih =>
    intro st h
    cases hd with
    | node b =>
      exact ih st fun son hmem => h son (List.mem_cons_of_mem _ hmem)
    | loopEl son => exact absurd (List.mem_cons_self _ _) (h son)

/-- Claim C2: when the unroller deems a loop ineligible — the factor from
`find_suitable_factor` is below the threshold in `unroll_loop`, or
`determine_lin_unroll_info` returns `duff_unrollable_none` so
`unroll_loop_duff` is never invoked — the pass returns with the state
(graph and counter) unchanged, for every behavior of the mutating
helpers. -/
theorem c2_ineligible_leaves_graph_unchanged
    (rewire_loop rewire_fully : RewireFn) (duffFn : DuffFn)
    (info0 : LinUnrollInfo) (duffFactor fuel : Nat) (st : UnrollState)
    (loop factor maxsize : Nat) (outermost : Bool)
    (hfac : ∀ header, (find_suitable_factor st.g header factor false).1 < 1 ∨
      ((find_suitable_factor st.g header factor false).1 = 1 ∧
       (find_suitable_factor st.g header factor false).2 = false))
    (hinner : ∀ son, LoopElem.loopEl son ∉ st.g.loopElems loop)
    (hduff : ∀ f cl, (determine_lin_unroll_info st.g f info0 cl).1 =
      duff_unrollable_none) :
    unroll_loop rewire_loop rewire_fully fuel st loop factor = st ∧
    duplicate_innermost_loops rewire_loop rewire_fully duffFn info0
      duffFactor fuel st loop factor maxsize outermost = st := by
  refine ⟨unroll_loop_eq_self rewire_loop rewire_fully fuel st loop factor,
    ?_⟩
  cases fuel with
  | zero => rfl
  | succ fuel =>
    rw [duplicate_innermost_loops]
    rw [dil_children_no_loops _ (st.g.loopElems loop) st hinner]
    dsimp only
    rw [if_neg (by simp)]
    have hrest :
        (match get_loop_header st.g fuel loop with
          | none => st
          | some header =>
            match st.g.irnLoop header with
            | none => st
            | some curr_loop =>
              if st.g.loopDepth curr_loop = 0 then st
              else
                if (determine_lin_unroll_info st.g fuel info0 curr_loop).1 ≠
                    duff_unrollable_none then
                  duffFn st curr_loop duffFactor
                    (determine_lin_unroll_info st.g fuel info0 curr_loop).2
                    (determine_lin_unroll_info st.g fuel info0 curr_loop).1
                else st) = st := by
      cases hh : get_loop_header st.g fuel loop with
      | none => rfl
      | some header =>
        dsimp only
        cases hcl : st.g.irnLoop header with
        | none => rfl
        | some curr_loop =>
          dsimp only
          by_cases hd : st.g.loopDepth curr_loop = 0
          · rw [if_pos hd]
          · rw [if_neg hd, if_neg]
            simp [hduff fuel curr_loop]
    by_cases ho : outermost = true
    · simp only [ho]
      rw [if_neg (by simp)]
      exact hrest
    · have ho2 : outermost = false := by
        revert ho; cases outermost <;> simp
      simp only [ho2]
      rw [if_pos (by simp)]
      by_cases hf : determine_unroll_factor st.g fuel loop factor maxsize > 0
      · rw [if_pos hf]
        exact unroll_loop_eq_self rewire_loop rewire_fully fuel st loop _
      · rw [if_neg hf]
        exact hrest

/-- The pass state for the C2 witness: an empty graph. -/
def trivialGraph : Graph where
  node := fun _ => {}
  outs := fun _ => []
  idom := fun _ => none
  irnLoop := fun _ => none
  loopElems := fun _ => []
  outerLoop := fun _ => 0
  loopDepth := fun _ => 0
  typeSize := fun _ => 0
  aliasOracle := fun _ _ => false
  calleeStores := fun _ => []

def trivialState : UnrollState := ⟨trivialGraph, 0⟩

def idRewire : RewireFn := fun st _ _ _ => st

def idDuff : DuffFn := fun st _ _ _ _ => st

/-- Witness for C2: on the empty graph every loop is innermost and not
duff-unrollable, and the pass leaves the state unchanged. -/
theorem c2_ineligible_witness :
    unroll_loop idRewire idRewire 5 trivialState 0 0 = trivialState ∧
    duplicate_innermost_loops idRewire idRewire idDuff {} 4 5 trivialState
      0 0 0 true = trivialState :=
  c2_ineligible_leaves_graph_unchanged idRewire idRewire idDuff {} 4 5
    trivialState 0 0 0 true
    (fun _ => Or.inl Nat.zero_lt_one)
    (fun _ => List.not_mem_nil _)
    (fun _ _ => rfl)

/-- Nodes of the witness loop `for (i = 0; i < 10; i += 1)`:
block 0 = entry, block 1 = header, block 2 = body, block 3 = after-loop;
10/21 jumps, 11/12/13 the constants 0/10/1, 14 the induction phi,
15 the header compare `phi < 10`, 16 its Cond, 17/18 the true/false
projections, 20 the increment `Add(phi, 1)`. -/
def exampleNode : Nat → IRNode := fun n =>
  match n with
  | 0 => { opc := .block, block := 0 }
  | 1 => { opc := .block, block := 1, preds := [10, 21] }
  | 2 => { opc := .block, block := 2, preds := [17] }
  | 3 => { opc := .block, block := 3, preds := [18] }
  | 10 => { opc := .jmp, mode := .x, block := 0 }
  | 11 => { opc := .const, mode := .intM 32, block := 0 }
  | 12 => { opc := .const, mode := .intM 32, block := 0 }
  | 13 => { opc := .const, mode := .intM 32, block := 0 }
  | 14 => { opc := .phi, mode := .intM 32, block := 1, preds := [11, 20] }
  | 15 => { opc := .cmp, block := 1, preds := [14, 12], rel := 1 }
  | 16 => { opc := .cond, block := 1, preds := [15] }
  | 17 => { opc := .proj, mode := .x, block := 1, preds := [16], projNum := 1 }
  | 18 => { opc := .proj, mode := .x, block := 1, preds := [16], projNum := 0 }
  | 20 => { opc := .add, mode := .intM 32, block := 2, preds := [14, 13] }
  | 21 => { opc := .jmp, mode := .x, block := 2 }
  | _ => {}

/-- The witness graph: loop 1 (inside root loop 0) consists of blocks 1
and 2. -/
def exampleGraph : Graph where
  node := exampleNode
  outs := fun n =>
    match n with
    | 0 => [10, 11, 12, 13]
    | 1 => [14, 15, 16, 17, 18]
    | 2 => [20, 21]
    | 10 => [1]
    | 13 => [20]
    | 14 => [15, 20]
    | 15 => [16]
    | 16 => [17, 18]
    | 17 => [2]
    | 18 => [3]
    | 21 => [1]
    | _ => []
  idom := fun n =>
    match n with
    | 1 => some 0
    | 2 => some 1
    | 3 => some 1
    | _ => none
  irnLoop := fun n =>
    match n with
    | 1 => some 1
    | 2 => some 1
    | _ => none
  loopElems := fun l =>
    match l with
    | 0 => [.loopEl 1]
    | 1 => [.node 1, .node 2]
    | _ => []
  outerLoop := fun _ => 0
  loopDepth := fun l => match l with | 1 => 1 | _ => 0
  typeSize := fun _ => 0
  aliasOracle := fun _ _ => false
  calleeStores := fun _ => []

/-- Witness for C6: on the example loop `determine_lin_unroll_info`
reports unrollability, and the recorded compare's relation (less) is
among the four ordered relations. -/
theorem c6_recorded_compare_relation_witness :
    (exampleGraph.node
        (determine_lin_unroll_info exampleGraph 30 {} 1).2.cmp).rel =
      (determine_lin_unroll_info exampleGraph 30 {} 1).2.rel ∧
    ((determine_lin_unroll_info exampleGraph 30 {} 1).2.rel = rel_less ∨
     (determine_lin_unroll_info exampleGraph 30 {} 1).2.rel =
       rel_less_equal ∨
     (determine_lin_unroll_info exampleGraph 30 {} 1).2.rel = rel_greater ∨
     (determine_lin_unroll_info exampleGraph 30 {} 1).2.rel =
       rel_greater_equal) :=
  c6_recorded_compare_relation exampleGraph 30 {} 1 (by decide)

/-- Witness for C5 at the example graph: the analysis returns with the
switch-fixup bit set, the recorded compare's two operands (the phi,
node 14, and the constant bound, node 12) share the 32-bit integer
mode, and the theorem yields integer phi mode and a non-MUL step. -/
theorem c5_switch_fixup_guards_witness :
    (exampleGraph.node (get_Cmp_left exampleGraph
        (determine_lin_unroll_info exampleGraph 30 {} 1).2.cmp)).mode =
      (exampleGraph.node (get_Cmp_right exampleGraph
        (determine_lin_unroll_info exampleGraph 30 {} 1).2.cmp)).mode ∧
    (determine_lin_unroll_info exampleGraph 30 {} 1).1.switchFixup =
      true ∧
    ((exampleGraph.node
        (determine_lin_unroll_info exampleGraph 30 {}
          1).2.phi).mode.isInt = true ∧
     (determine_lin_unroll_info exampleGraph 30 {} 1).2.op ≠ Op.MUL) :=
  ⟨by decide, by decide,
   c5_switch_fixup_guards exampleGraph 30 {} 1 (by decide) (by decide)⟩

end LoopUnroll

namespace BeVerify

/-!
Shallow embedding of the scheduled-graph verifiers of
`src/ir/be/beverify.c`.  Every function threads the graph value through
its calls in state-passing style, so that each C statement corresponds
to a Lean step and the absence of graph mutation is a provable property
rather than a modelling assumption.  Helpers from headers that are not
part of `src/` (`besched.h` schedule access, `bearch.h` register
requirements, `belive.h` liveness) are represented as oracle fields of
the graph record: the verifiers only read them. -/

/-- Per-node facts read by the verifiers: its block, its inputs
(`foreach_irn_in`), the predicates `is_Phi`, `is_cfop`, `be_is_Keep`,
`be_is_CopyKeep`, the `arch_irn_flag_not_scheduled` flag, the out-edge
count `get_irn_n_edges`, the schedule timestep `sched_get_time_step`,
and `sched_is_scheduled`.  `projPred` is `get_Proj_pred` when the node
is a Proj (for `skip_Proj`). -/
structure SNode where
  block : Nat := 0
  args : List Nat := []
  isPhi : Bool := false
  isCfop : Bool := false
  isKeep : Bool := false
  isCopyKeep : Bool := false
  projPred : Option Nat := none
  flagNotSched : Bool := false
  nEdges : Nat := 0
  timestep : Nat := 0
  inSchedule : Bool := false

/-- Modelled from the spec: a scheduled graph together with the oracle
data the verifiers read:
the block list walked by `irg_block_walk_graph`, each block's schedule
list (`sched_foreach`), the node list of `irg_walk_graph`, the liveness
sets and transfer of `belive.h`, `be_get_n_allocatable_regs`, and the
register-requirement answers of `bearch.h` used by the
register-allocation verifier. -/
structure SGraph where
  node : Nat → SNode := fun _ => {}
  blocks : List Nat := []
  sched : Nat → List Nat := fun _ => []
  allNodes : List Nat := []
  liveEnd : Nat → Nat → List Nat := fun _ _ => []
  transfer : Nat → Nat → List Nat → List Nat := fun _ _ l => l
  availRegs : Nat → Nat := fun _ => 0
  raLiveEnd : Nat → List Nat := fun _ => []
  raLiveIn : Nat → List Nat := fun _ => []
  regOf : Nat → Option Nat := fun _ => none
  regVirtual : Nat → Bool := fun _ => false
  regWidth : Nat → Nat := fun _ => 1
  reqClsRegs : Nat → Bool := fun _ => false
  nodeReqCls : Nat → Nat := fun _ => 0
  inReqCls : Nat → Nat → Nat := fun _ _ => 0
  inReqClsRegs : Nat → Nat → Bool := fun _ _ => false
  inReqWidth : Nat → Nat → Nat := fun _ _ => 1
  inAllocatable : Nat → Nat → Bool := fun _ _ => true
  outAllocatable : Nat → Bool := fun _ => true
  hasInReqs : Nat → Bool := fun _ => true
  isBad : Nat → Bool := fun _ => false
  nonSsaReg : Nat → Bool := fun _ => false
  values : Nat → List Nat := fun _ => []
  nRegs : Nat := 0

/-- `skip_Proj`. -/
def skip_Proj (g : SGraph) (n : Nat) : Nat :=
  match (g.node n).projPred with
  | some p => p
  | none => n

/-- `sched_prev` on the circular schedule list of a block: positions are
`some i` for the i-th scheduled node and `none` for the block head. -/
def sched_prev_pos (len : Nat) : Option Nat → Option Nat
  | some 0 => none
  | some (i + 1) => some i
  | none => if len = 0 then none else some (len - 1)

/-- The node at a schedule position (the block itself at the head). -/
def pos_node (g : SGraph) (b : Nat) (l0 : List Nat) : Option Nat → Nat
  | none => b
  | some i => l0.getD i 0

/-- The `while (be_is_Keep(prev) || be_is_CopyKeep(prev))` loop of
`verify_schedule_walker` (lines 355-356). -/
def skip_keeps (g : SGraph) (b : Nat) (l0 : List Nat) :
    Nat → Option Nat → Option Nat
  | 0, p => p
  | fuel + 1, p =>
    let n := pos_node g b l0 p
    if (g.node n).isKeep ∨ (g.node n).isCopyKeep then
      skip_keeps g b l0 fuel (sched_prev_pos l0.length p)
    else p

/-- The `do { ... } while (is_Phi(prev))` anchor search of
`verify_schedule_walker` (lines 358-364); `true` means the `goto ok`
was taken. -/
def keep_anchor_loop (g : SGraph) (b : Nat) (l0 : List Nat) (node : Nat) :
    Nat → Option Nat → Bool
  | 0, _ => false
  | fuel + 1, p =>
    if (g.node node).args.any (fun a => skip_Proj g a = pos_node g b l0 p)
    then true
    else
      let p2 := sched_prev_pos l0.length p
      if (g.node (pos_node g b l0 p2)).isPhi then
        keep_anchor_loop g b l0 node fuel p2
      else false

/-- The Keep/CopyKeep anchor check of `verify_schedule_walker`
(lines 351-368) for the node at schedule position `pos`. -/
def keep_anchor_ok (g : SGraph) (b : Nat) (l0 : List Nat) (node : Nat)
    (kfuel : Nat) (pos : Option Nat) : Bool :=
  let p := sched_prev_pos l0.length pos
  let p := skip_keeps g b l0 kfuel p
  keep_anchor_loop g b l0 node kfuel p

/-- The `env->problem_found = true` conditions of one
`verify_schedule_walker` iteration (lines 279-369), collected into one
disjunction: double scheduling, wrong block, non-increasing timestep,
`arch_irn_flag_not_scheduled`, a Phi after a non-Phi, a second control
flow op (or a non-Keep after one), an in-block scheduled argument not
defined strictly earlier, a dead node, and a Keep/CopyKeep without its
anchor. -/
def vsw_bad (g : SGraph) (b : Nat) (l0 : List Nat) (kfuel : Nat)
    (n i : Nat) (sched : List Nat) (nonPhi cf : Option Nat)
    (lastTs : Nat) : Bool :=
  let nd := g.node n
  sched.contains n
  || decide (nd.block ≠ b)
  || decide (nd.timestep ≤ lastTs)
  || nd.flagNotSched
  || (nd.isPhi && nonPhi.isSome)
  || (if nd.isCfop then cf.isSome else cf.isSome && !nd.isKeep)
  || (!nd.isPhi && nd.args.any fun a =>
        decide ((g.node a).block = b) && (g.node a).inSchedule &&
        decide (nd.timestep ≤ (g.node a).timestep))
  || decide (nd.nEdges = 0)
  || ((nd.isKeep || nd.isCopyKeep) &&
        !keep_anchor_ok g b l0 n kfuel (some i))

/-- Body of `verify_schedule_walker` (lines 266-370): one step per
scheduled node of block `b`, threading the graph, the `scheduled`
bitset, the `non_phi_found` / `cfchange_found` locals and
`last_timestep`. -/
def vsw_go (g : SGraph) (b : Nat) (l0 : List Nat) (kfuel : Nat) :
    List Nat → Nat → List Nat → Option Nat → Option Nat → Nat → Bool →
    SGraph × List Nat × Bool
  | [], _, sched, _, _, _, prob => (g, sched, prob)
  | n :: rest, i, sched, nonPhi, cf, lastTs, prob =>
    let nd := g.node n
    vsw_go g b l0 kfuel rest (i + 1) (n :: sched)
      (if nd.isPhi then nonPhi else some n)
      (if nd.isCfop then (if cf.isSome then cf else some n) else cf)
      nd.timestep
      (prob || vsw_bad g b l0 kfuel n i sched nonPhi cf lastTs)

/-- `verify_schedule_walker` over the block list
(`irg_block_walk_graph`, line 390). -/
def verify_schedule_blocks (g : SGraph) (kfuel : Nat) :
    List Nat → List Nat → Bool → SGraph × List Nat × Bool
  | [], sched, prob => (g, sched, prob)
  | b :: rest, sched, prob =>
    let r := vsw_go g b (g.sched b) kfuel (g.sched b) 0 sched none none 0 prob
    verify_schedule_blocks r.1 kfuel rest r.2.1 r.2.2

/-- `check_schedule` (lines 372-382) over all nodes
(`irg_walk_graph`, line 392). -/
def check_schedule_all (g : SGraph) (schedSet : List Nat) :
    List Nat → Bool → Bool
  | [], prob => prob
  | n :: rest, prob =>
    check_schedule_all g schedSet rest
      (prob || decide ((!(g.node n).flagNotSched) ≠ schedSet.contains n))

/-- `be_verify_schedule` (lines 384-395); the returned graph is the one
threaded through both walks. -/
def be_verify_schedule (g : SGraph) (kfuel : Nat) : SGraph × Bool :=
  let r := verify_schedule_blocks g kfuel g.blocks [] false
  (r.1, !(check_schedule_all r.1 r.2.1 r.1.allNodes r.2.2))

/-- The `sched_foreach_non_phi_reverse` part of `verify_liveness_walker`
(lines 228-240): transfer liveness backwards over each non-Phi node and
check the pressure. -/
def vlw_go (g : SGraph) (cls : Nat) :
    List Nat → List Nat → Bool → SGraph × List Nat × Bool
  | [], live, prob => (g, live, prob)
  | n :: rest, live, prob =>
    let live := g.transfer cls n live
    let prob := prob || decide (live.length > g.availRegs cls)
    vlw_go g cls rest live prob

/-- `verify_liveness_walker` (lines 210-242). -/
def verify_liveness_walker (g : SGraph) (cls b : Nat) (prob : Bool) :
    SGraph × Bool :=
  let live := g.liveEnd cls b
  let prob := prob || decide (live.length > g.availRegs cls)
  let r := vlw_go g cls
    ((g.sched b).reverse.takeWhile fun n => !(g.node n).isPhi) live prob
  (r.1, r.2.2)

/-- `verify_liveness_walker` over the block list (line 253). -/
def bvp_blocks (g : SGraph) (cls : Nat) : List Nat → Bool → SGraph × Bool
  | [], prob => (g, prob)
  | b :: rest, prob =>
    let r := verify_liveness_walker g cls b prob
    bvp_blocks r.1 cls rest r.2

/-- `be_verify_register_pressure` (lines 244-257). -/
def be_verify_register_pressure (g : SGraph) (cls : Nat) : SGraph × Bool :=
  let r := bvp_blocks g cls g.blocks false
  (r.1, !r.2)

/-- `check_output_constraints` (lines 697-712); only the problem flag is
written. -/
def check_output_constraints (g : SGraph) (n : Nat) (prob : Bool) : Bool :=
  if ¬ g.reqClsRegs n then prob
  else
    match g.regOf n with
    | none => true
    | some _ => if ¬ g.outAllocatable n then true else prob

/-- Input loop of `check_input_constraints` (lines 724-754), indexing
the inputs like `foreach_irn_in`. -/
def cic_preds (g : SGraph) (node : Nat) :
    List Nat → Nat → Bool → Bool
  | [], _, prob => prob
  | pred :: rest, i, prob =>
    if g.isBad pred then cic_preds g node rest (i + 1) true
    else
      let prob := prob || decide (g.inReqCls node i ≠ g.nodeReqCls pred)
      if ¬ g.inReqClsRegs node i then cic_preds g node rest (i + 1) prob
      else
        let prob := prob || decide (g.inReqWidth node i > g.regWidth pred)
        let prob :=
          match g.regOf pred with
          | none => true
          | some _ => prob || !g.inAllocatable node i
        cic_preds g node rest (i + 1) prob

/-- Phi-NOP loop of `check_input_constraints` (lines 758-770). -/
def cic_phi (g : SGraph) (node : Nat) : List Nat → Bool → Bool
  | [], prob => prob
  | pred :: rest, prob =>
    cic_phi g node rest
      (prob || (decide (g.regOf node ≠ g.regOf pred) && !g.regVirtual pred))

/-- `check_input_constraints` (lines 714-771). -/
def check_input_constraints (g : SGraph) (node : Nat) (prob : Bool) :
    Bool :=
  if ¬ g.hasInReqs node ∧ (g.node node).args.length ≠ 0 then true
  else
    let prob := cic_preds g node (g.node node).args 0 prob
    if (g.node node).isPhi then cic_phi g node (g.node node).args prob
    else prob

/-- Functional update of the `registers` array. -/
def regset (regs : Nat → Option Nat) (k : Nat) (v : Option Nat) :
    Nat → Option Nat :=
  fun j => if j = k then v else regs j

/-- `value_used` (lines 781-799); the `registers` array and the problem
flag are threaded. -/
def value_used (g : SGraph) (n : Nat)
    (regs : Nat → Option Nat) (prob : Bool) :
    (Nat → Option Nat) × Bool :=
  match g.regOf n with
  | none => (regs, prob)
  | some reg =>
    if g.regVirtual n then (regs, prob)
    else
      (List.range (g.regWidth n)).foldl
        (fun acc i =>
          let rn := acc.1 (reg + i)
          let prob := acc.2 ||
            (match rn with
             | some m => decide (m ≠ n) && !g.nonSsaReg reg
             | none => false)
          (regset acc.1 (reg + i) (some n), prob))
        (regs, prob)

/-- Width loop of `value_def` with its early `return` (lines 811-824). -/
def vd_go (g : SGraph) (n reg : Nat) :
    List Nat → (Nat → Option Nat) → Bool → (Nat → Option Nat) × Bool
  | [], regs, prob => (regs, prob)
  | i :: rest, regs, prob =>
    let rn := regs (reg + i)
    if rn = none ∧ (g.node n).nEdges = 0 then (regs, prob)
    else
      let prob := prob || (decide (rn ≠ some n) && !g.nonSsaReg reg)
      vd_go g n reg rest (regset regs (reg + i) none) prob

/-- `value_def` (lines 801-825). -/
def value_def (g : SGraph) (n : Nat)
    (regs : Nat → Option Nat) (prob : Bool) :
    (Nat → Option Nat) × Bool :=
  match g.regOf n with
  | none => (regs, prob)
  | some reg =>
    if g.regVirtual n then (regs, prob)
    else vd_go g n reg (List.range (g.regWidth n)) regs prob

/-- The `sched_foreach_reverse` body of
`verify_block_register_allocation` (lines 838-852). -/
def vbra_sched (g : SGraph) (b : Nat) :
    List Nat → (Nat → Option Nat) → Bool →
    SGraph × (Nat → Option Nat) × Bool
  | [], regs, prob => (g, regs, prob)
  | n :: rest, regs, prob =>
    let rp := (g.values n).foldl
      (fun acc v =>
        let r1 := value_def g v acc.1 acc.2
        (r1.1, check_output_constraints g v r1.2))
      (regs, prob)
    let prob := check_input_constraints g n rp.2
    let rp2 :=
      if ¬ (g.node n).isPhi then
        (g.node n).args.foldl (fun acc a => value_used g a acc.1 acc.2)
          (rp.1, prob)
      else (rp.1, prob)
    vbra_sched g b rest rp2.1 rp2.2

/-- `verify_block_register_allocation` (lines 827-865). -/
def verify_block_register_allocation (g : SGraph) (b : Nat)
    (prob : Bool) : SGraph × Bool :=
  let r1 := (g.raLiveEnd b).foldl
    (fun acc n => value_used g n acc.1 acc.2)
    ((fun _ => none : Nat → Option Nat), prob)
  let r2 := vbra_sched g b (g.sched b).reverse r1.1 r1.2
  let r3 := (g.raLiveIn b).foldl
    (fun acc n => value_def g n acc.1 acc.2) (r2.2.1, r2.2.2)
  (r2.1, r3.2 || ((List.range g.nRegs).any fun i => (r3.1 i).isSome))

/-- `verify_block_register_allocation` over the block list (line 875). -/
def bvra_blocks (g : SGraph) : List Nat → Bool → SGraph × Bool
  | [], prob => (g, prob)
  | b :: rest, prob =>
    let r := verify_block_register_allocation g b prob
    bvra_blocks r.1 rest r.2

/-- `be_verify_register_allocation` (lines 867-879). -/
def be_verify_register_allocation (g : SGraph) : SGraph × Bool :=
  let r := bvra_blocks g g.blocks false
  (r.1, !r.2)

/-- Strictly increasing schedule timesteps starting above `last`
(`last_timestep` begins at 0, line 278). -/
def ts_mono (g : SGraph) : Nat → List Nat → Prop
  | _, [] => True
  | last, n :: rest =>
    last < (g.node n).timestep ∧ ts_mono g (g.node n).timestep rest

/-- All Phi nodes precede every non-Phi node in the list. -/
def phis_first (g : SGraph) : List Nat → Bool
  | [] => true
  | n :: rest =>
    if (g.node n).isPhi then phis_first g rest
    else rest.all fun m => !(g.node m).isPhi

/-- `phis_first` relative to an already-seen non-Phi
(`non_phi_found`). -/
def phis_first_from (g : SGraph) : Option Nat → List Nat → Bool
  | none, l => phis_first g l
  | some _, l => l.all fun m => !(g.node m).isPhi

end BeVerify

namespace BeVerify

theorem vsw_go_graph (g : SGraph) (b : Nat) (l0 : List Nat) (kfuel : Nat) :
    ∀ (l : List Nat) (i : Nat) (sched : List Nat) (np cf : Option Nat)
      (ts : Nat) (prob : Bool),
      (vsw_go g b l0 kfuel l i sched np cf ts prob).1 = g := by
  intro l
  induction l with
  | nil => intro i sched np cf ts prob; rfl
  | cons n rest ih => intro i sched np cf ts prob; exact ih _ _ _ _ _ _

theorem vsw_go_true (g : SGraph) (b : Nat) (l0 : List Nat) (kfuel : Nat) :
    ∀ (l : List Nat) (i : Nat) (sched : List Nat) (np cf : Option Nat)
      (ts : Nat),
      (vsw_go g b l0 kfuel l i sched np cf ts true).2.2 = true := by
  intro l
  induction l with
  | nil => intro i sched np cf ts; rfl
  | cons n rest ih =>
    intro i sched np cf ts
    simp only [vsw_go, Bool.true_or]
    exact ih _ _ _ _ _

end BeVerify

namespace BeVerify

theorem vsw_go_false_props (g : SGraph) (b : Nat) (l0 : List Nat)
    (kfuel : Nat) :
    ∀ (l : List Nat) (i : Nat) (sched : List Nat) (nonPhi cf : Option Nat)
      (lastTs : Nat),
      (vsw_go g b l0 kfuel l i sched nonPhi cf lastTs false).2.2 = false →
      (∀ n ∈ l, (g.node n).block = b) ∧
      (∀ n ∈ l, (g.node n).nEdges ≠ 0) ∧
      ts_mono g lastTs l ∧
      phis_first_from g nonPhi l = true ∧
      l.countP (fun n => (g.node n).isCfop) +
        (if cf.isSome then 1 else 0) ≤ 1 ∧
      (∀ n ∈ l, (g.node n).isPhi = false →
        ∀ a ∈ (g.node n).args, (g.node a).block = b →
          (g.node a).inSchedule = true →
          (g.node a).timestep < (g.node n).timestep) := by
  intro l
  induction l with
  | nil =>
    intro i sched nonPhi cf lastTs h
    refine ⟨by simp, by simp, trivial, ?_, ?_, by simp⟩
    · cases nonPhi <;> rfl
    · cases cf <;> simp
  | cons n rest ih =>
    intro i sched nonPhi cf lastTs h
    simp only [vsw_go] at h
    by_cases hb : vsw_bad g b l0 kfuel n i sched nonPhi cf lastTs = true
    · rw [hb, Bool.or_true, vsw_go_true] at h
      exact Bool.noConfusion h
    · rw [Bool.not_eq_true] at hb
      rw [hb, Bool.or_false] at h
      obtain ⟨h1, h2, h3, h4, h5, h6⟩ := ih _ _ _ _ _ h
      simp only [vsw_bad, Bool.or_eq_false_iff] at hb
      obtain ⟨⟨⟨⟨⟨⟨⟨⟨c1, c2⟩, c3⟩, c4⟩, c5⟩, c6⟩, c7⟩, c8⟩, c9⟩ := hb
      refine ⟨?_, ?_, ?_, ?_, ?_, ?_⟩
      · intro m hm
        rcases List.mem_cons.mp hm with hm | hm
        · subst hm; simpa using c2
        · exact h1 m hm
      · intro m hm
        rcases List.mem_cons.mp hm with hm | hm
        · subst hm; simpa using c8
        · exact h2 m hm
      · refine ⟨?_, h3⟩
        have hc3 : ¬ ((g.node n).timestep ≤ lastTs) := by simpa using c3
        omega
      · by_cases hphi : (g.node n).isPhi = true
        · cases nonPhi with
          | some v => rw [hphi] at c5; simp at c5
          | none =>
            show phis_first g (n :: rest) = true
            simp only [phis_first, hphi, if_true]
            simpa [hphi] using h4
        · rw [Bool.not_eq_true] at hphi
          simp only [hphi, Bool.false_eq_true, if_false] at h4
          cases nonPhi with
          | none =>
            show phis_first g (n :: rest) = true
            simp only [phis_first, hphi, Bool.false_eq_true, if_false]
            exact h4
          | some v =>
            show List.all (n :: rest) (fun m => !(g.node m).isPhi) = true
            simp only [List.all_cons, hphi, Bool.not_false, Bool.true_and]
            exact h4
      · by_cases hcf : (g.node n).isCfop = true
        · rw [if_pos hcf] at c6
          simp only [hcf, if_true, c6, Bool.false_eq_true, if_false,
            Option.isSome_some] at h5
          rw [List.countP_cons_of_pos _ _ (by simpa using hcf), c6]
          simpa using h5
        · rw [Bool.not_eq_true] at hcf
          simp only [hcf, Bool.false_eq_true, if_false] at h5
          rw [List.countP_cons_of_neg]
          · exact h5
          · simp [hcf]
      · intro m hm hmphi a ha hab has
        rcases List.mem_cons.mp hm with hm | hm
        · subst hm
          simp only [hmphi, Bool.not_false, Bool.true_and,
            List.any_eq_false] at c7
          have hc := c7 a ha
          simp [hab, has] at hc
          omega
        · exact h6 m hm hmphi a ha hab has

end BeVerify

namespace BeVerify

theorem verify_schedule_blocks_graph (g : SGraph) (kfuel : Nat) :
    ∀ (bs sched : List Nat) (prob : Bool),
      (verify_schedule_blocks g kfuel bs sched prob).1 = g := by
  intro bs
  induction bs with
  | nil => intro sched prob; rfl
  | cons b rest ih =>
    intro sched prob
    simp only [verify_schedule_blocks]
    rw [vsw_go_graph]
    exact ih _ _

theorem verify_schedule_blocks_true (g : SGraph) (kfuel : Nat) :
    ∀ (bs sched : List Nat),
      (verify_schedule_blocks g kfuel bs sched true).2.2 = true := by
  intro bs
  induction bs with
  | nil => intro sched; rfl
  | cons b rest ih =>
    intro sched
    simp only [verify_schedule_blocks]
    rw [vsw_go_graph, vsw_go_true]
    exact ih _

theorem check_schedule_all_true (g : SGraph) (ss : List Nat) :
    ∀ (l : List Nat), check_schedule_all g ss l true = true := by
  intro l
  induction l with
  | nil => rfl
  | cons n rest ih =>
    simp only [check_schedule_all, Bool.true_or]
    exact ih

theorem verify_schedule_blocks_props (g : SGraph) (kfuel : Nat) :
    ∀ (bs sched : List Nat),
      (verify_schedule_blocks g kfuel bs sched false).2.2 = false →
      ∀ b ∈ bs,
        (∀ n ∈ g.sched b, (g.node n).block = b) ∧
        (∀ n ∈ g.sched b, (g.node n).nEdges ≠ 0) ∧
        ts_mono g 0 (g.sched b) ∧
        phis_first g (g.sched b) = true ∧
        (g.sched b).countP (fun n => (g.node n).isCfop) ≤ 1 ∧
        (∀ n ∈ g.sched b, (g.node n).isPhi = false →
          ∀ a ∈ (g.node n).args, (g.node a).block = b →
            (g.node a).inSchedule = true →
            (g.node a).timestep < (g.node n).timestep) := by
  intro bs
  induction bs with
  | nil => intro sched h b hb; exact absurd hb (List.not_mem_nil b)
  | cons b0 rest ih =>
    intro sched h b hb
    simp only [verify_schedule_blocks] at h
    rw [vsw_go_graph] at h
    by_cases hr : (vsw_go g b0 (g.sched b0) kfuel (g.sched b0) 0 sched
        none none 0 false).2.2 = true
    · rw [hr, verify_schedule_blocks_true] at h
      exact Bool.noConfusion h
    · rw [Bool.not_eq_true] at hr
      rcases List.mem_cons.mp hb with hb | hb
      · subst hb
        obtain ⟨p1, p2, p3, p4, p5, p6⟩ :=
          vsw_go_false_props g b (g.sched b) kfuel (g.sched b) 0 sched
            none none 0 hr
        refine ⟨p1, p2, p3, p4, ?_, p6⟩
        simpa using p5
      · rw [hr] at h
        exact ih _ h b hb

end BeVerify

namespace BeVerify

/-- Claim C7: `be_verify_schedule` returns true only if, in every walked
block, every scheduled node lives in that block, the schedule timesteps
strictly increase from the initial 0, all Phi nodes precede every
non-Phi node, at most one control-flow operation is scheduled, no dead
node (without out-edges) is scheduled, and every in-block scheduled
argument of a non-Phi node is defined at a strictly smaller timestep
than its user. -/
theorem c7_be_verify_schedule_sound (g : SGraph) (kfuel : Nat)
    (h : (be_verify_schedule g kfuel).2 = true) :
    ∀ b ∈ g.blocks,
      (∀ n ∈ g.sched b, (g.node n).block = b) ∧
      (∀ n ∈ g.sched b, (g.node n).nEdges ≠ 0) ∧
      ts_mono g 0 (g.sched b) ∧
      phis_first g (g.sched b) = true ∧
      (g.sched b).countP (fun n => (g.node n).isCfop) ≤ 1 ∧
      (∀ n ∈ g.sched b, (g.node n).isPhi = false →
        ∀ a ∈ (g.node n).args, (g.node a).block = b →
          (g.node a).inSchedule = true →
          (g.node a).timestep < (g.node n).timestep) := by
  unfold be_verify_schedule at h
  dsimp only at h
  rw [Bool.not_eq_true'] at h
  by_cases hp : (verify_schedule_blocks g kfuel g.blocks [] false).2.2 = true
  · rw [hp, check_schedule_all_true] at h
    exact Bool.noConfusion h
  · rw [Bool.not_eq_true] at hp
    exact verify_schedule_blocks_props g kfuel g.blocks [] hp

/-- Concrete graph for the C7 witness: one block (node 1) whose schedule
is a Phi (node 2, timestep 1) followed by a jump (node 3, timestep 2)
using the Phi. -/
def c7wg : SGraph where
  node := fun n =>
    match n with
    | 1 => { flagNotSched := true }
    | 2 => { block := 1, isPhi := true, timestep := 1, nEdges := 1,
             inSchedule := true }
    | 3 => { block := 1, isCfop := true, timestep := 2, nEdges := 1,
             args := [2], inSchedule := true }
    | _ => {}
  blocks := [1]
  sched := fun b => if b = 1 then [2, 3] else []
  allNodes := [1, 2, 3]

end BeVerify

namespace BeVerify

theorem c7_be_verify_schedule_sound_witness :
    (be_verify_schedule c7wg 5).2 = true ∧
    (∀ b ∈ c7wg.blocks,
      (∀ n ∈ c7wg.sched b, (c7wg.node n).block = b) ∧
      (∀ n ∈ c7wg.sched b, (c7wg.node n).nEdges ≠ 0) ∧
      ts_mono c7wg 0 (c7wg.sched b) ∧
      phis_first c7wg (c7wg.sched b) = true ∧
      (c7wg.sched b).countP (fun n => (c7wg.node n).isCfop) ≤ 1 ∧
      (∀ n ∈ c7wg.sched b, (c7wg.node n).isPhi = false →
        ∀ a ∈ (c7wg.node n).args, (c7wg.node a).block = b →
          (c7wg.node a).inSchedule = true →
          (c7wg.node a).timestep < (c7wg.node n).timestep)) :=
  ⟨by decide, c7_be_verify_schedule_sound c7wg 5 (by decide)⟩

end BeVerify

namespace BeVerify

theorem vlw_go_graph (g : SGraph) (cls : Nat) :
    ∀ (l live : List Nat) (prob : Bool),
      (vlw_go g cls l live prob).1 = g := by
  intro l
  induction l with
  | nil => intro live prob; rfl
  | cons n rest ih => intro live prob; exact ih _ _

theorem bvp_blocks_graph (g : SGraph) (cls : Nat) :
    ∀ (bs : List Nat) (prob : Bool),
      (bvp_blocks g cls bs prob).1 = g := by
  intro bs
  induction bs with
  | nil => intro prob; rfl
  | cons b rest ih =>
    intro prob
    simp only [bvp_blocks, verify_liveness_walker]
    rw [vlw_go_graph]
    exact ih _

theorem vbra_sched_graph (g : SGraph) (b : Nat) :
    ∀ (l : List Nat) (regs : Nat → Option Nat) (prob : Bool),
      (vbra_sched g b l regs prob).1 = g := by
  intro l
  induction l with
  | nil => intro regs prob; rfl
  | cons n rest ih => intro regs prob; exact ih _ _

theorem bvra_blocks_graph (g : SGraph) :
    ∀ (bs : List Nat) (prob : Bool), (bvra_blocks g bs prob).1 = g := by
  intro bs
  induction bs with
  | nil => intro prob; rfl
  | cons b rest ih =>
    intro prob
    simp only [bvra_blocks, verify_block_register_allocation]
    rw [vbra_sched_graph]
    exact ih _

/-- Claim C8: none of the three back-end verifiers mutates the graph it
checks: the graph value each one threads through its walks and returns
is exactly its input; problems are reported only through the boolean
result (the C code additionally prints warnings to stderr). -/
theorem c8_verifiers_leave_graph_unchanged (g : SGraph)
    (kfuel cls : Nat) :
    (be_verify_schedule g kfuel).1 = g ∧
    (be_verify_register_pressure g cls).1 = g ∧
    (be_verify_register_allocation g).1 = g := by
  refine ⟨?_, ?_, ?_⟩
  · simp only [be_verify_schedule]
    rw [verify_schedule_blocks_graph]
  · simp only [be_verify_register_pressure]
    rw [bvp_blocks_graph]
  · simp only [be_verify_register_allocation]
    rw [bvra_blocks_graph]

end BeVerify

namespace Mips

/-!
Shallow embedding of prologue/epilogue insertion of
`src/ir/be/mips/mips_bearch.c` (lines 169-206).  The graph is a growing
association-list node store: node creation prepends a fresh id,
`set_irn_n` prepends an updated binding that shadows the old one, and
the per-block schedule is a function updated at the touched block. -/

/-- A back-end node: `be_new_IncSP` nodes carry their offset and
alignment; every node has a block, inputs, and an assigned register. -/
structure MNode where
  isIncSP : Bool := false
  block : Nat := 0
  preds : List Nat := []
  offset : Int := 0
  align : Nat := 0
  reg : Option Nat := none
deriving DecidableEq, Repr

/-- The graph: node store, fresh-id counter, the Start node
(`get_irg_start`), the stack-pointer Start projection
(`be_get_Start_proj(irg, &mips_registers[REG_SP])`), the end block
(`get_irg_end_block`), the frame-type size (`get_type_size` of
`get_irg_frame_type`), and each block's schedule list. -/
structure MGraph where
  nodes : List (Nat × MNode) := []
  nextId : Nat := 0
  start : Nat := 0
  startSp : Nat := 0
  endBlock : Nat := 0
  frameSize : Nat := 0
  sched : Nat → List Nat := fun _ => []

/-- Node lookup (first binding wins, so shadowing updates work). -/
def getNode (g : MGraph) (n : Nat) : MNode :=
  (g.nodes.lookup n).getD {}

/-- Modelled from the spec: the MIPS stack-pointer register
`&mips_registers[REG_SP]` (generated register table, not in `src/`),
identified by its index. -/
def REG_SP : Nat := 29

/-- Modelled from the spec: the stack input position `n_mips_ret_stack`
of a `mips_ret` node (generated node header, not in `src/`). -/
def n_mips_ret_stack : Nat := 1

/-- `be_new_IncSP` (via `mips_new_IncSP`, lines 169-172): allocate a
fresh IncSP node in the given block with the single stack-pointer
input. -/
def mips_new_IncSP (g : MGraph) (block sp : Nat) (offset : Int)
    (align : Nat) : MGraph × Nat :=
  ({ g with
      nodes := (g.nextId,
        { isIncSP := true, block := block, preds := [sp],
          offset := offset, align := align, reg := some REG_SP })
        :: g.nodes,
      nextId := g.nextId + 1 },
   g.nextId)

/-- Insert `n` right after the first occurrence of `anchor`. -/
def insertAfter : List Nat → Nat → Nat → List Nat
  | [], _, _ => []
  | x :: rest, anchor, n =>
    if x = anchor then x :: n :: rest
    else x :: insertAfter rest anchor n

/-- Insert `n` right before the first occurrence of `anchor`. -/
def insertBefore : List Nat → Nat → Nat → List Nat
  | [], _, _ => []
  | x :: rest, anchor, n =>
    if x = anchor then n :: x :: rest
    else x :: insertBefore rest anchor n

/-- `sched_add_after` in the anchor's block. -/
def sched_add_after (g : MGraph) (anchor n : Nat) : MGraph :=
  let b := (getNode g anchor).block
  { g with sched := fun bb =>
      if bb = b then insertAfter (g.sched b) anchor n else g.sched bb }

/-- `sched_add_before` in the anchor's block. -/
def sched_add_before (g : MGraph) (anchor n : Nat) : MGraph :=
  let b := (getNode g anchor).block
  { g with sched := fun bb =>
      if bb = b then insertBefore (g.sched b) anchor n else g.sched bb }

/-- `set_irn_n`: shadow the node with one whose input list is updated at
the given position. -/
def set_irn_n (g : MGraph) (n idx v : Nat) : MGraph :=
  { g with nodes :=
      (n, { getNode g n with preds := (getNode g n).preds.set idx v })
        :: g.nodes }

/-- `edges_reroute_except(old, new, exception)`: every input edge to
`old` is redirected to `new`, except those of the `exception` node. -/
def edges_reroute_except (g : MGraph) (old new exception : Nat) :
    MGraph :=
  { g with nodes := g.nodes.map fun e =>
      (e.1,
        if e.1 = exception then e.2
        else { e.2 with
          preds := e.2.preds.map fun p => if p = old then new else p }) }

/-- `mips_introduce_prologue` (lines 174-182). -/
def mips_introduce_prologue (g : MGraph) (size : Nat) : MGraph :=
  let start := g.start
  let block := (getNode g start).block
  let start_sp := g.startSp
  let r := mips_new_IncSP g block start_sp (size : Int) 0
  let g := sched_add_after r.1 start r.2
  edges_reroute_except g start_sp r.2 r.2

/-- `mips_introduce_epilogue` (lines 184-191). -/
def mips_introduce_epilogue (g : MGraph) (ret : Nat) (size : Nat) :
    MGraph :=
  let block := (getNode g ret).block
  let ret_sp := (getNode g ret).preds.getD n_mips_ret_stack 0
  let r := mips_new_IncSP g block ret_sp (-(size : Int)) 0
  let g := sched_add_before r.1 ret r.2
  set_irn_n g ret n_mips_ret_stack r.2

/-- The `foreach_irn_in(get_irg_end_block(irg), i, ret)` loop of
`mips_introduce_prologue_epilogue` (lines 200-203): the arity is read
once, each input is re-read from the current graph. -/
def mipe_go (eb size : Nat) : Nat → Nat → MGraph → MGraph
  | 0, _, gg => gg
  | cnt + 1, i, gg =>
    let ret := (getNode gg eb).preds.getD i 0
    mipe_go eb size cnt (i + 1) (mips_introduce_epilogue gg ret size)

/-- `mips_introduce_prologue_epilogue` (lines 193-206). -/
def mips_introduce_prologue_epilogue (g : MGraph) : MGraph :=
  let size := g.frameSize
  if size = 0 then g
  else
    let g2 := mipe_go g.endBlock size
      ((getNode g g.endBlock).preds.length) 0 g
    mips_introduce_prologue g2 size

/-- `y` directly follows `x` somewhere in the list. -/
def adj (l : List Nat) (x y : Nat) : Prop :=
  ∃ l1 l2, l = l1 ++ x :: y :: l2

end Mips

namespace Mips

theorem insertAfter_eq (a n : Nat) :
    ∀ l : List Nat, a ∈ l →
      ∃ l1 l2, l = l1 ++ a :: l2 ∧ a ∉ l1 ∧
        insertAfter l a n = l1 ++ a :: n :: l2 := by
  intro l
  induction l with
  | nil => intro h; exact absurd h (List.not_mem_nil a)
  | cons x rest ih =>
    intro h
    by_cases hx : x = a
    · subst hx
      exact ⟨[], rest, rfl, List.not_mem_nil x, by
        simp [insertAfter]⟩
    · have hm : a ∈ rest := by
        rcases List.mem_cons.mp h with h | h
        · exact absurd h.symm hx
        · exact h
      obtain ⟨l1, l2, he, hna, hia⟩ := ih hm
      refine ⟨x :: l1, l2, by simp [he], ?_, ?_⟩
      · intro hc
        rcases List.mem_cons.mp hc with hc | hc
        · exact hx hc.symm
        · exact hna hc
      · simp [insertAfter, hx, hia]

theorem insertBefore_eq (a n : Nat) :
    ∀ l : List Nat, a ∈ l →
      ∃ l1 l2, l = l1 ++ a :: l2 ∧ a ∉ l1 ∧
        insertBefore l a n = l1 ++ n :: a :: l2 := by
  intro l
  induction l with
  | nil => intro h; exact absurd h (List.not_mem_nil a)
  | cons x rest ih =>
    intro h
    by_cases hx : x = a
    · subst hx
      exact ⟨[], rest, rfl, List.not_mem_nil x, by
        simp [insertBefore]⟩
    · have hm : a ∈ rest := by
        rcases List.mem_cons.mp h with h | h
        · exact absurd h.symm hx
        · exact h
      obtain ⟨l1, l2, he, hna, hia⟩ := ih hm
      refine ⟨x :: l1, l2, by simp [he], ?_, ?_⟩
      · intro hc
        rcases List.mem_cons.mp hc with hc | hc
        · exact hx hc.symm
        · exact hna hc
      · simp [insertBefore, hx, hia]

theorem mem_insertAfter (a n x : Nat) :
    ∀ l : List Nat, x ∈ l → x ∈ insertAfter l a n := by
  intro l
  induction l with
  | nil => intro h; exact absurd h (List.not_mem_nil x)
  | cons y rest ih =>
    intro h
    by_cases hy : y = a
    · subst hy
      simp only [insertAfter, if_pos rfl]
      rcases List.mem_cons.mp h with h | h
      · simp [h]
      · simp [h]
    · simp only [insertAfter, if_neg hy]
      rcases List.mem_cons.mp h with h | h
      · simp [h]
      · exact List.mem_cons_of_mem _ (ih h)

theorem mem_insertBefore (a n x : Nat) :
    ∀ l : List Nat, x ∈ l → x ∈ insertBefore l a n := by
  intro l
  induction l with
  | nil => intro h; exact absurd h (List.not_mem_nil x)
  | cons y rest ih =>
    intro h
    by_cases hy : y = a
    · subst hy
      simp only [insertBefore, if_pos rfl]
      rcases List.mem_cons.mp h with h | h
      · simp [h]
      · simp [h]
    · simp only [insertBefore, if_neg hy]
      rcases List.mem_cons.mp h with h | h
      · simp [h]
      · exact List.mem_cons_of_mem _ (ih h)

theorem mem_of_mem_insertAfter (a n x : Nat) :
    ∀ l : List Nat, x ∈ insertAfter l a n → x = n ∨ x ∈ l := by
  intro l
  induction l with
  | nil => intro h; exact absurd h (List.not_mem_nil x)
  | cons y rest ih =>
    intro h
    by_cases hy : y = a
    · subst hy
      simp only [insertAfter, if_pos rfl] at h
      rcases List.mem_cons.mp h with h | h
      · exact Or.inr (by simp [h])
      · rcases List.mem_cons.mp h with h | h
        · exact Or.inl h
        · exact Or.inr (List.mem_cons_of_mem _ h)
    · simp only [insertAfter, if_neg hy] at h
      rcases List.mem_cons.mp h with h | h
      · exact Or.inr (by simp [h])
      · rcases ih h with h | h
        · exact Or.inl h
        · exact Or.inr (List.mem_cons_of_mem _ h)

theorem mem_of_mem_insertBefore (a n x : Nat) :
    ∀ l : List Nat, x ∈ insertBefore l a n → x = n ∨ x ∈ l := by
  intro l
  induction l with
  | nil => intro h; exact absurd h (List.not_mem_nil x)
  | cons y rest ih =>
    intro h
    by_cases hy : y = a
    · subst hy
      simp only [insertBefore, if_pos rfl] at h
      rcases List.mem_cons.mp h with h | h
      · exact Or.inl h
      · exact Or.inr h
    · simp only [insertBefore, if_neg hy] at h
      rcases List.mem_cons.mp h with h | h
      · exact Or.inr (by simp [h])
      · rcases ih h with h | h
        · exact Or.inl h
        · exact Or.inr (List.mem_cons_of_mem _ h)

theorem adj_insertAfter (l : List Nat) (x y a n : Nat)
    (hxa : x ≠ a) (hadj : adj l x y) : adj (insertAfter l a n) x y := by
  obtain ⟨l1, l2, he⟩ := hadj
  subst he
  induction l1 with
  | nil =>
    simp only [List.nil_append, insertAfter, if_neg hxa]
    by_cases hy : y = a
    · subst hy
      exact ⟨[], n :: l2, by simp [insertAfter]⟩
    · exact ⟨[], insertAfter l2 a n, by simp [insertAfter, hy]⟩
  | cons h t ih =>
    by_cases hh : h = a
    · subst hh
      refine ⟨h :: n :: t, l2, ?_⟩
      simp [insertAfter]
    · obtain ⟨m1, m2, hm⟩ := ih
      refine ⟨h :: m1, m2, ?_⟩
      simp [insertAfter, hh, hm]

theorem count_insertAfter (l : List Nat) (a n m : Nat) (hnm : n ≠ m) :
    (insertAfter l a n).count m = l.count m := by
  induction l with
  | nil => rfl
  | cons x rest ih =>
    by_cases hx : x = a
    · subst hx
      simp [insertAfter, List.count_cons, hnm]
    · simp [insertAfter, hx, List.count_cons, ih]

theorem count_insertBefore (l : List Nat) (a n m : Nat) (hnm : n ≠ m) :
    (insertBefore l a n).count m = l.count m := by
  induction l with
  | nil => rfl
  | cons x rest ih =>
    by_cases hx : x = a
    · subst hx
      simp [insertBefore, List.count_cons, hnm]
    · simp [insertBefore, hx, List.count_cons, ih]

theorem count_insertAfter_self (l : List Nat) (a n : Nat)
    (ha : a ∈ l) (hn : n ∉ l) : (insertAfter l a n).count n = 1 := by
  obtain ⟨l1, l2, he, _, hia⟩ := insertAfter_eq a n l ha
  subst he
  rw [hia]
  have h1 : n ∉ l1 := fun hc => hn (List.mem_append_left _ hc)
  have h2 : n ∉ l2 := fun hc =>
    hn (List.mem_append_right _ (List.mem_cons_of_mem _ hc))
  have ha' : a ≠ n := fun hc =>
    hn (hc ▸ List.mem_append_right _ (List.mem_cons_self _ _))
  simp [List.count_append, List.count_cons,
    List.count_eq_zero.mpr h1, List.count_eq_zero.mpr h2, ha']

theorem count_insertBefore_self (l : List Nat) (a n : Nat)
    (ha : a ∈ l) (hn : n ∉ l) : (insertBefore l a n).count n = 1 := by
  obtain ⟨l1, l2, he, _, hia⟩ := insertBefore_eq a n l ha
  subst he
  rw [hia]
  have h1 : n ∉ l1 := fun hc => hn (List.mem_append_left _ hc)
  have h2 : n ∉ l2 := fun hc =>
    hn (List.mem_append_right _ (List.mem_cons_of_mem _ hc))
  have ha' : a ≠ n := fun hc =>
    hn (hc ▸ List.mem_append_right _ (List.mem_cons_self _ _))
  simp [List.count_append, List.count_cons,
    List.count_eq_zero.mpr h1, List.count_eq_zero.mpr h2, ha']

end Mips

namespace Mips

theorem lookup_cons (i : Nat) (nd : MNode) (l : List (Nat × MNode))
    (j : Nat) :
    ((i, nd) :: l).lookup j = if j = i then some nd else l.lookup j := by
  by_cases h : j = i
  · simp [List.lookup, h]
  · simp [List.lookup, h, beq_false_of_ne h]

theorem lookup_map_keys (f : Nat → MNode → MNode) :
    ∀ (l : List (Nat × MNode)) (j : Nat),
      (l.map fun e => (e.1, f e.1 e.2)).lookup j =
        (l.lookup j).map (f j) := by
  intro l
  induction l with
  | nil => intro j; rfl
  | cons e rest ih =>
    intro j
    by_cases h : j = e.1
    · simp [List.lookup, h]
    · simpa [List.lookup, h, beq_false_of_ne h] using ih j

theorem getD_set_self :
    ∀ (l : List Nat) (i v : Nat), i < l.length →
      (l.set i v).getD i 0 = v := by
  intro l
  induction l with
  | nil => intro i v h; exact absurd h (by simp)
  | cons x rest ih =>
    intro i v h
    cases i with
    | zero => rfl
    | succ i => exact ih i v (by simpa using h)

theorem getD_set_ne :
    ∀ (l : List Nat) (i j v : Nat), i ≠ j →
      (l.set i v).getD j 0 = l.getD j 0 := by
  intro l
  induction l with
  | nil => intro i j v h; simp [List.set]
  | cons x rest ih =>
    intro i j v h
    cases i with
    | zero =>
      cases j with
      | zero => exact absurd rfl h
      | succ j => rfl
    | succ i =>
      cases j with
      | zero => rfl
      | succ j => exact ih i j v (fun hc => h (by rw [hc]))

theorem getD_map_lt (f : Nat → Nat) :
    ∀ (l : List Nat) (i : Nat), i < l.length →
      (l.map f).getD i 0 = f (l.getD i 0) := by
  intro l
  induction l with
  | nil => intro i h; exact absurd h (by simp)
  | cons x rest ih =>
    intro i h
    cases i with
    | zero => rfl
    | succ i => exact ih i (by simpa using h)

theorem getD_get :
    ∀ (l : List Nat) (i : Nat) (h : i < l.length),
      l.getD i 0 = l.get ⟨i, h⟩ := by
  intro l
  induction l with
  | nil => intro i h; exact absurd h (by simp)
  | cons x rest ih =>
    intro i h
    cases i with
    | zero => rfl
    | succ i => exact ih i (by simpa using h)

theorem length_set_list :
    ∀ (l : List Nat) (i v : Nat), (l.set i v).length = l.length := by
  intro l i v
  exact List.length_set l i v ▸ rfl

end Mips

namespace Mips

theorem record_preds_self (nd : MNode) :
    { nd with preds := nd.preds } = nd := rfl

theorem getNode_epilogue (gg : MGraph) (ret size : Nat)
    (hr : ret ≠ gg.nextId) (i : Nat) :
    getNode (mips_introduce_epilogue gg ret size) i =
      if i = ret then
        { getNode gg ret with
            preds := (getNode gg ret).preds.set n_mips_ret_stack
              gg.nextId }
      else if i = gg.nextId then
        { isIncSP := true, block := (getNode gg ret).block,
          preds := [(getNode gg ret).preds.getD n_mips_ret_stack 0],
          offset := -(size : Int), align := 0, reg := some REG_SP }
      else getNode gg i := by
  have hget : getNode { gg with
      nodes := (gg.nextId,
        { isIncSP := true, block := (getNode gg ret).block,
          preds := [(getNode gg ret).preds.getD n_mips_ret_stack 0],
          offset := -(size : Int), align := 0, reg := some REG_SP })
        :: gg.nodes,
      nextId := gg.nextId + 1 } ret = getNode gg ret := by
    simp [getNode, lookup_cons, hr]
  simp only [mips_introduce_epilogue, mips_new_IncSP, set_irn_n,
    sched_add_before, getNode, lookup_cons]
  simp only [getNode] at hget
  by_cases h1 : i = ret
  · simp [h1, getNode, lookup_cons, hr, hget]
  · by_cases h2 : i = gg.nextId
    · simp [h1, h2, getNode, lookup_cons, Ne.symm hr]
    · simp [h1, h2, getNode, lookup_cons]

theorem sched_epilogue (gg : MGraph) (ret size : Nat)
    (hr : ret ≠ gg.nextId) :
    (mips_introduce_epilogue gg ret size).sched = fun bb =>
      if bb = (getNode gg ret).block then
        insertBefore (gg.sched (getNode gg ret).block) ret gg.nextId
      else gg.sched bb := by
  have hget : getNode { gg with
      nodes := (gg.nextId,
        { isIncSP := true, block := (getNode gg ret).block,
          preds := [(getNode gg ret).preds.getD n_mips_ret_stack 0],
          offset := -(size : Int), align := 0, reg := some REG_SP })
        :: gg.nodes,
      nextId := gg.nextId + 1 } ret = getNode gg ret := by
    simp [getNode, lookup_cons, hr]
  simp only [mips_introduce_epilogue, mips_new_IncSP, set_irn_n,
    sched_add_before]
  rw [hget]

theorem nextId_epilogue (gg : MGraph) (ret size : Nat) :
    (mips_introduce_epilogue gg ret size).nextId = gg.nextId + 1 := rfl

theorem static_epilogue (gg : MGraph) (ret size : Nat) :
    (mips_introduce_epilogue gg ret size).start = gg.start ∧
    (mips_introduce_epilogue gg ret size).startSp = gg.startSp ∧
    (mips_introduce_epilogue gg ret size).endBlock = gg.endBlock ∧
    (mips_introduce_epilogue gg ret size).frameSize = gg.frameSize :=
  ⟨rfl, rfl, rfl, rfl⟩

theorem lookup_reroute_map (old nw exc : Nat) :
    ∀ (l : List (Nat × MNode)) (j : Nat),
      (l.map fun e =>
        (e.1,
          if e.1 = exc then e.2
          else { e.2 with preds := e.2.preds.map fun p =>
            if p = old then nw else p })).lookup j =
      (l.lookup j).map fun nd =>
        if j = exc then nd
        else { nd with preds := nd.preds.map fun p =>
          if p = old then nw else p } := by
  intro l
  induction l with
  | nil => intro j; rfl
  | cons e rest ih =>
    intro j
    by_cases h : j = e.1
    · simp [List.lookup, h]
    · simpa [List.lookup, h, beq_false_of_ne h] using ih j

theorem getNode_prologue (gg : MGraph) (size : Nat)
    (hs : gg.start ≠ gg.nextId) (i : Nat) :
    getNode (mips_introduce_prologue gg size) i =
      if i = gg.nextId then
        { isIncSP := true, block := (getNode gg gg.start).block,
          preds := [gg.startSp], offset := (size : Int), align := 0,
          reg := some REG_SP }
      else
        { getNode gg i with
            preds := (getNode gg i).preds.map fun p =>
              if p = gg.startSp then gg.nextId else p } := by
  simp only [mips_introduce_prologue, mips_new_IncSP, sched_add_after,
    edges_reroute_except, getNode]
  simp only [List.map_cons]
  rw [lookup_cons, lookup_reroute_map]
  by_cases h : i = gg.nextId
  · simp [h]
  · simp only [h, if_false]
    cases hl : gg.nodes.lookup i with
    | none => simp [hl, h]
    | some nd => simp [hl, h]

theorem sched_prologue (gg : MGraph) (size : Nat)
    (hs : gg.start ≠ gg.nextId) :
    (mips_introduce_prologue gg size).sched = fun bb =>
      if bb = (getNode gg gg.start).block then
        insertAfter (gg.sched (getNode gg gg.start).block) gg.start
          gg.nextId
      else gg.sched bb := by
  have hget : getNode { gg with
      nodes := (gg.nextId,
        { isIncSP := true, block := (getNode gg gg.start).block,
          preds := [gg.startSp], offset := (size : Int), align := 0,
          reg := some REG_SP }) :: gg.nodes,
      nextId := gg.nextId + 1 } gg.start = getNode gg gg.start := by
    simp [getNode, lookup_cons, hs]
  simp only [mips_introduce_prologue, mips_new_IncSP, sched_add_after,
    edges_reroute_except]
  rw [hget]

theorem nextId_prologue (gg : MGraph) (size : Nat) :
    (mips_introduce_prologue gg size).nextId = gg.nextId + 1 := rfl

end Mips

namespace Mips

/-- The Return nodes: the inputs of the end block. -/
def rets (g : MGraph) : List Nat := (getNode g g.endBlock).preds

/-- The k-th Return. -/
def retK (g : MGraph) (k : Nat) : Nat := (rets g).getD k 0

/-- The k-th Return's block. -/
def blockK (g : MGraph) (k : Nat) : Nat := (getNode g (retK g k)).block

/-- The id of the IncSP created for the k-th Return. -/
def eidK (g : MGraph) (k : Nat) : Nat := g.nextId + k

/-- Well-formedness of the input graph: node ids used by the pass exist
below the fresh-id counter, Returns are distinct non-start non-end-block
nodes in pairwise distinct blocks, each Return is scheduled in its block
and has a stack input slot, and the schedules the pass touches mention
only existing nodes and contain their block's anchor. -/
structure MWF (g : MGraph) : Prop where
  hstart : g.start < g.nextId
  hsp : g.startSp < g.nextId
  heb : g.endBlock < g.nextId
  hrets_lt : ∀ r ∈ rets g, r < g.nextId
  hrets_eb : ∀ r ∈ rets g, r ≠ g.endBlock
  hrets_start : ∀ r ∈ rets g, r ≠ g.start
  hnodup : (rets g).Nodup
  hblocks : ((rets g).map fun r => (getNode g r).block).Nodup
  hret_sched : ∀ r ∈ rets g, r ∈ g.sched ((getNode g r).block)
  hret_len : ∀ r ∈ rets g, n_mips_ret_stack < (getNode g r).preds.length
  hbound_blocks : ∀ j, j < (rets g).length →
    ∀ n ∈ g.sched (blockK g j), n < g.nextId
  hbound_start : ∀ n ∈ g.sched ((getNode g g.start).block), n < g.nextId
  hstart_sched : g.start ∈ g.sched ((getNode g g.start).block)

/-- What `mips_introduce_epilogue` has established for the k-th Return:
its stack input is the fresh IncSP, that IncSP has offset `-size`, lives
in the Return's block, and sits directly before the Return in that
block's schedule, exactly once. -/
def EpiDone (g gg : MGraph) (k : Nat) : Prop :=
  (getNode gg (retK g k)).preds.getD n_mips_ret_stack 0 = eidK g k ∧
  (getNode gg (eidK g k)).isIncSP = true ∧
  (getNode gg (eidK g k)).offset = -(g.frameSize : Int) ∧
  (getNode gg (eidK g k)).block = blockK g k ∧
  adj (gg.sched (blockK g k)) (eidK g k) (retK g k) ∧
  (gg.sched (blockK g k)).count (eidK g k) = 1 ∧
  (getNode gg (retK g k)).preds.length =
    (getNode g (retK g k)).preds.length

/-- Invariant of the epilogue loop after `i` Returns were processed. -/
def EpiInv (g gg : MGraph) (i : Nat) : Prop :=
  gg.nextId = g.nextId + i ∧
  getNode gg g.endBlock = getNode g g.endBlock ∧
  (∀ j, i ≤ j → j < (rets g).length →
    getNode gg (retK g j) = getNode g (retK g j)) ∧
  (∀ j, i ≤ j → j < (rets g).length →
    gg.sched (blockK g j) = g.sched (blockK g j)) ∧
  (∀ j, j < (rets g).length →
    ∀ n ∈ gg.sched (blockK g j), n < g.nextId + i) ∧
  (∀ n ∈ gg.sched ((getNode g g.start).block), n < g.nextId + i) ∧
  g.start ∈ gg.sched ((getNode g g.start).block) ∧
  getNode gg g.start = getNode g g.start ∧
  gg.start = g.start ∧ gg.startSp = g.startSp ∧
  gg.endBlock = g.endBlock ∧ gg.frameSize = g.frameSize

theorem retK_ne (g : MGraph) (hwf : MWF g) (j k : Nat)
    (hj : j < (rets g).length) (hk : k < (rets g).length) (hjk : j ≠ k) :
    retK g j ≠ retK g k := by
  intro he
  rw [retK, retK, getD_get _ _ hj, getD_get _ _ hk] at he
  have := congrArg Fin.val
    ((List.nodup_iff_injective_get.mp hwf.hnodup) he)
  exact hjk this

theorem blockK_ne (g : MGraph) (hwf : MWF g) (j k : Nat)
    (hj : j < (rets g).length) (hk : k < (rets g).length) (hjk : j ≠ k) :
    blockK g j ≠ blockK g k := by
  intro he
  have hj' : j < ((rets g).map fun r => (getNode g r).block).length := by
    simpa using hj
  have hk' : k < ((rets g).map fun r => (getNode g r).block).length := by
    simpa using hk
  have hg : ((rets g).map fun r => (getNode g r).block).get ⟨j, hj'⟩ =
      ((rets g).map fun r => (getNode g r).block).get ⟨k, hk'⟩ := by
    simp only [List.get_map]
    rw [blockK, blockK, retK, retK, getD_get _ _ hj, getD_get _ _ hk]
      at he
    exact he
  exact hjk (congrArg Fin.val
    ((List.nodup_iff_injective_get.mp hwf.hblocks) hg))

theorem retK_mem (g : MGraph) (k : Nat) (hk : k < (rets g).length) :
    retK g k ∈ rets g := by
  rw [retK, getD_get _ _ hk]
  exact List.get_mem _ k hk

end Mips

namespace Mips

theorem mipe_go_spec (g : MGraph) (hwf : MWF g) :
    ∀ (cnt i : Nat) (gg : MGraph),
      i + cnt ≤ (rets g).length →
      EpiInv g gg i →
      (∀ k, k < i → EpiDone g gg k) →
      EpiInv g (mipe_go g.endBlock g.frameSize cnt i gg) (i + cnt) ∧
      ∀ k, k < i + cnt →
        EpiDone g (mipe_go g.endBlock g.frameSize cnt i gg) k := by
  intro cnt
  induction cnt with
  | zero =>
    intro i gg hle hinv hdone
    exact ⟨hinv, hdone⟩
  | succ cnt ih =>
    intro i gg hle hinv hdone
    obtain ⟨inext, ieb, irets, ischeds, ibound, isbound, ismem, isnode,
      istart, istartSp, iendBlock, iframe⟩ := hinv
    have hilen : i < (rets g).length := by omega
    have hret_eq : (getNode gg g.endBlock).preds.getD i 0 = retK g i := by
      rw [ieb]; rfl
    have hretmem : retK g i ∈ rets g := retK_mem g i hilen
    have hretlt : retK g i < g.nextId := hwf.hrets_lt _ hretmem
    have hrne : retK g i ≠ gg.nextId := by rw [inext]; omega
    have hgret : getNode gg (retK g i) = getNode g (retK g i) :=
      irets i (le_refl i) hilen
    have hN := getNode_epilogue gg (retK g i) g.frameSize hrne
    have hSb : ∀ bb,
        (mips_introduce_epilogue gg (retK g i) g.frameSize).sched bb =
        if bb = blockK g i then
          insertBefore (gg.sched (blockK g i)) (retK g i) gg.nextId
        else gg.sched bb := by
      intro bb
      rw [sched_epilogue gg (retK g i) g.frameSize hrne]
      dsimp only
      rw [hgret]
      rfl
    have hstatic := static_epilogue gg (retK g i) g.frameSize
    -- the new invariant
    have hinv' :
        EpiInv g (mips_introduce_epilogue gg (retK g i) g.frameSize)
          (i + 1) := by
      refine ⟨?_, ?_, ?_, ?_, ?_, ?_, ?_, ?_, ?_, ?_, ?_, ?_⟩
      · rw [nextId_epilogue, inext]; omega
      · rw [hN g.endBlock,
          if_neg (Ne.symm (hwf.hrets_eb _ hretmem)),
          if_neg (by have := hwf.heb; rw [inext]; omega :
            g.endBlock ≠ gg.nextId)]
        exact ieb
      · intro j hj hjlen
        have hne1 : retK g j ≠ retK g i :=
          retK_ne g hwf j i hjlen hilen (by omega)
        have hne2 : retK g j ≠ gg.nextId := by
          have := hwf.hrets_lt _ (retK_mem g j hjlen)
          rw [inext]; omega
        rw [hN (retK g j), if_neg hne1, if_neg hne2]
        exact irets j (by omega) hjlen
      · intro j hj hjlen
        have hne : blockK g j ≠ blockK g i :=
          blockK_ne g hwf j i hjlen hilen (by omega)
        rw [hSb (blockK g j), if_neg hne]
        exact ischeds j (by omega) hjlen
      · intro j hjlen n hn
        rw [hSb (blockK g j)] at hn
        by_cases hbj : blockK g j = blockK g i
        · rw [if_pos hbj] at hn
          rcases mem_of_mem_insertBefore _ _ _ _ hn with hn | hn
          · omega
          · have := ibound i hilen n hn
            omega
        · rw [if_neg hbj] at hn
          have := ibound j hjlen n hn
          omega
      · intro n hn
        rw [hSb ((getNode g g.start).block)] at hn
        by_cases hbj : (getNode g g.start).block = blockK g i
        · rw [if_pos hbj] at hn
          rcases mem_of_mem_insertBefore _ _ _ _ hn with hn | hn
          · omega
          · rw [← hbj] at hn
            have := isbound n hn
            omega
        · rw [if_neg hbj] at hn
          have := isbound n hn
          omega
      · rw [hSb ((getNode g g.start).block)]
        by_cases hbj : (getNode g g.start).block = blockK g i
        · rw [if_pos hbj]
          rw [← hbj]
          exact mem_insertBefore _ _ _ _ ismem
        · rw [if_neg hbj]
          exact ismem
      · rw [hN g.start,
          if_neg (Ne.symm (hwf.hrets_start _ hretmem)),
          if_neg (by have := hwf.hstart; rw [inext]; omega :
            g.start ≠ gg.nextId)]
        exact isnode
      · rw [hstatic.1, istart]
      · rw [hstatic.2.1, istartSp]
      · rw [hstatic.2.2.1, iendBlock]
      · rw [hstatic.2.2.2, iframe]
    -- the established and preserved epilogue facts
    have hdone' : ∀ k, k < i + 1 →
        EpiDone g (mips_introduce_epilogue gg (retK g i) g.frameSize)
          k := by
      intro k hk
      by_cases hki : k = i
      · subst hki
        have hlen : n_mips_ret_stack < (getNode gg (retK g k)).preds.length := by
          rw [hgret]
          exact hwf.hret_len _ hretmem
        refine ⟨?_, ?_, ?_, ?_, ?_, ?_, ?_⟩
        · rw [hN (retK g k), if_pos rfl]
          show ((getNode gg (retK g k)).preds.set n_mips_ret_stack
            gg.nextId).getD n_mips_ret_stack 0 = eidK g k
          rw [getD_set_self _ _ _ hlen, inext]
          rfl
        · rw [hN (eidK g k),
            if_neg (by have : eidK g k = g.nextId + k := rfl; omega),
            if_pos (by rw [inext]; rfl)]
        · rw [hN (eidK g k),
            if_neg (by have : eidK g k = g.nextId + k := rfl; omega),
            if_pos (by rw [inext]; rfl)]
        · rw [hN (eidK g k),
            if_neg (by have : eidK g k = g.nextId + k := rfl; omega),
            if_pos (by rw [inext]; rfl)]
          rw [hgret]
          rfl
        · rw [hSb (blockK g k), if_pos rfl,
            ischeds k (le_refl k) hilen]
          have hm : retK g k ∈ g.sched (blockK g k) :=
            hwf.hret_sched _ hretmem
          obtain ⟨l1, l2, _, _, hib⟩ :=
            insertBefore_eq (retK g k) gg.nextId _ hm
          rw [hib, inext]
          exact ⟨l1, l2, rfl⟩
        · rw [hSb (blockK g k), if_pos rfl,
            ischeds k (le_refl k) hilen]
          have hm : retK g k ∈ g.sched (blockK g k) :=
            hwf.hret_sched _ hretmem
          have hnm : gg.nextId ∉ g.sched (blockK g k) := by
            intro hc
            have := hwf.hbound_blocks k hilen _ hc
            omega
          rw [inext] at hnm ⊢
          exact count_insertBefore_self _ _ _ hm hnm
        · rw [hN (retK g k), if_pos rfl]
          show ((getNode gg (retK g k)).preds.set n_mips_ret_stack
            gg.nextId).length = (getNode g (retK g k)).preds.length
          rw [List.length_set, hgret]
      · have hk' : k < i := by omega
        obtain ⟨d1, d2, d3, d4, d5, d6, d7⟩ := hdone k hk'
        have hklen : k < (rets g).length := by omega
        have hne1 : retK g k ≠ retK g i :=
          retK_ne g hwf k i hklen hilen hki
        have hne2 : retK g k ≠ gg.nextId := by
          have := hwf.hrets_lt _ (retK_mem g k hklen)
          rw [inext]; omega
        have hene1 : eidK g k ≠ retK g i := by
          have : eidK g k = g.nextId + k := rfl
          omega
        have hene2 : eidK g k ≠ gg.nextId := by
          have : eidK g k = g.nextId + k := rfl
          rw [inext]; omega
        have hbne : blockK g k ≠ blockK g i :=
          blockK_ne g hwf k i hklen hilen hki
        refine ⟨?_, ?_, ?_, ?_, ?_, ?_, ?_⟩
        · rw [hN (retK g k), if_neg hne1, if_neg hne2]; exact d1
        · rw [hN (eidK g k), if_neg hene1, if_neg hene2]; exact d2
        · rw [hN (eidK g k), if_neg hene1, if_neg hene2]; exact d3
        · rw [hN (eidK g k), if_neg hene1, if_neg hene2]; exact d4
        · rw [hSb (blockK g k), if_neg hbne]; exact d5
        · rw [hSb (blockK g k), if_neg hbne]; exact d6
        · rw [hN (retK g k), if_neg hne1, if_neg hne2]; exact d7
    have hstep := ih (i + 1)
      (mips_introduce_epilogue gg (retK g i) g.frameSize)
      (by omega) hinv' hdone'
    have hgoal :
        mipe_go g.endBlock g.frameSize (cnt + 1) i gg =
        mipe_go g.endBlock g.frameSize cnt (i + 1)
          (mips_introduce_epilogue gg (retK g i) g.frameSize) := by
      rw [mipe_go, hret_eq]
    rw [hgoal]
    have hee : i + (cnt + 1) = (i + 1) + cnt := by omega
    rw [hee]
    exact hstep

end Mips

namespace Mips

/-- Claim C9: when the frame size is 0, `mips_introduce_prologue_epilogue`
changes nothing; otherwise it creates exactly one IncSP with offset
`+size` (register SP, stack input the start stack pointer) scheduled
directly after Start — appearing once in that schedule — reroutes every
other user of the start stack pointer to it, and for each Return creates
one IncSP with offset `-size` in the Return's block, scheduled directly
before the Return (appearing once), and rewires the Return's stack
input to it. -/
theorem c9_mips_prologue_epilogue (g : MGraph) (hwf : MWF g) :
    (g.frameSize = 0 → mips_introduce_prologue_epilogue g = g) ∧
    (g.frameSize ≠ 0 →
      (getNode (mips_introduce_prologue_epilogue g)
          (g.nextId + (rets g).length) =
        { isIncSP := true, block := (getNode g g.start).block,
          preds := [g.startSp], offset := (g.frameSize : Int),
          align := 0, reg := some REG_SP }) ∧
      adj ((mips_introduce_prologue_epilogue g).sched
          ((getNode g g.start).block)) g.start
        (g.nextId + (rets g).length) ∧
      ((mips_introduce_prologue_epilogue g).sched
          ((getNode g g.start).block)).count
        (g.nextId + (rets g).length) = 1 ∧
      (∀ i, i ≠ g.nextId + (rets g).length →
        g.startSp ∉
          (getNode (mips_introduce_prologue_epilogue g) i).preds) ∧
      (∀ k, k < (rets g).length →
        (getNode (mips_introduce_prologue_epilogue g)
            (retK g k)).preds.getD n_mips_ret_stack 0 = eidK g k ∧
        (getNode (mips_introduce_prologue_epilogue g)
            (eidK g k)).isIncSP = true ∧
        (getNode (mips_introduce_prologue_epilogue g)
            (eidK g k)).offset = -(g.frameSize : Int) ∧
        (getNode (mips_introduce_prologue_epilogue g)
            (eidK g k)).block = blockK g k ∧
        adj ((mips_introduce_prologue_epilogue g).sched (blockK g k))
          (eidK g k) (retK g k) ∧
        ((mips_introduce_prologue_epilogue g).sched
            (blockK g k)).count (eidK g k) = 1)) := by
  constructor
  · intro h0
    simp [mips_introduce_prologue_epilogue, h0]
  · intro hnz
    have hinv0 : EpiInv g g 0 := by
      refine ⟨rfl, rfl, fun j _ _ => rfl, fun j _ _ => rfl, ?_, ?_,
        hwf.hstart_sched, rfl, rfl, rfl, rfl, rfl⟩
      · intro j hj n hn
        exact hwf.hbound_blocks j hj n hn
      · intro n hn
        exact hwf.hbound_start n hn
    obtain ⟨inv2, done2⟩ := mipe_go_spec g hwf (rets g).length 0 g
      (by omega) hinv0 (fun k hk => absurd hk (Nat.not_lt_zero k))
    obtain ⟨inext, ieb, irets, ischeds, ibound, isbound, ismem, isnode,
      istart, istartSp, iendBlock, iframe⟩ := inv2
    set g2 := mipe_go g.endBlock g.frameSize (rets g).length 0 g with hg2
    have hunf : mips_introduce_prologue_epilogue g =
        mips_introduce_prologue g2 g.frameSize := by
      simp only [mips_introduce_prologue_epilogue, if_neg hnz]
      rfl
    have hpid : g2.nextId = g.nextId + (rets g).length := by
      simpa using inext
    have hs : g2.start ≠ g2.nextId := by
      rw [istart, hpid]
      have := hwf.hstart
      omega
    have hNP := getNode_prologue g2 g.frameSize hs
    have hSP : ∀ bb, (mips_introduce_prologue g2 g.frameSize).sched bb =
        if bb = (getNode g g.start).block then
          insertAfter (g2.sched ((getNode g g.start).block)) g.start
            g2.nextId
        else g2.sched bb := by
      intro bb
      rw [sched_prologue g2 g.frameSize hs]
      dsimp only
      rw [istart, isnode]
    rw [hunf]
    refine ⟨?_, ?_, ?_, ?_, ?_⟩
    · rw [hNP (g.nextId + (rets g).length), if_pos hpid.symm]
      rw [istart, isnode, istartSp]
    · rw [hSP ((getNode g g.start).block), if_pos rfl, hpid]
      obtain ⟨l1, l2, _, _, hia⟩ :=
        insertAfter_eq g.start (g.nextId + (rets g).length) _ ismem
      rw [hia]
      exact ⟨l1, l2, rfl⟩
    · rw [hSP ((getNode g g.start).block), if_pos rfl, hpid]
      refine count_insertAfter_self _ _ _ ismem ?_
      intro hc
      have := isbound _ hc
      omega
    · intro i hi
      rw [hNP i, if_neg (by rw [hpid]; exact hi)]
      intro hc
      simp only [List.mem_map] at hc
      obtain ⟨p, hp, hfp⟩ := hc
      rw [istartSp, hpid] at hfp
      by_cases hps : p = g.startSp
      · rw [if_pos hps] at hfp
        have := hwf.hsp
        omega
      · rw [if_neg hps] at hfp
        exact hps hfp
    · intro k hk
      obtain ⟨d1, d2, d3, d4, d5, d6, d7⟩ := done2 k (by omega)
      have hretmem : retK g k ∈ rets g := retK_mem g k hk
      have hretlt : retK g k < g.nextId := hwf.hrets_lt _ hretmem
      have heid : eidK g k = g.nextId + k := rfl
      have hrne : retK g k ≠ g2.nextId := by rw [hpid]; omega
      have hene : eidK g k ≠ g2.nextId := by rw [hpid]; omega
      have hlen2 : n_mips_ret_stack <
          (getNode g2 (retK g k)).preds.length := by
        rw [d7]
        exact hwf.hret_len _ hretmem
      refine ⟨?_, ?_, ?_, ?_, ?_, ?_⟩
      · rw [hNP (retK g k), if_neg hrne]
        show ((getNode g2 (retK g k)).preds.map fun p =>
          if p = g2.startSp then g2.nextId else p).getD
            n_mips_ret_stack 0 = eidK g k
        rw [getD_map_lt _ _ _ hlen2, d1]
        rw [if_neg (by rw [istartSp]; have := hwf.hsp; omega)]
      · rw [hNP (eidK g k), if_neg hene]
        exact d2
      · rw [hNP (eidK g k), if_neg hene]
        exact d3
      · rw [hNP (eidK g k), if_neg hene]
        exact d4
      · rw [hSP (blockK g k)]
        by_cases hbb : blockK g k = (getNode g g.start).block
        · rw [if_pos hbb]
          refine adj_insertAfter _ _ _ _ _ ?_ ?_
          · have := hwf.hstart
            omega
          · rw [← hbb]
            exact d5
        · rw [if_neg hbb]
          exact d5
      · rw [hSP (blockK g k)]
        by_cases hbb : blockK g k = (getNode g g.start).block
        · rw [if_pos hbb]
          rw [count_insertAfter _ _ _ _ (by rw [hpid]; omega)]
          rw [← hbb]
          exact d6
        · rw [if_neg hbb]
          exact d6

end Mips

namespace Mips

/-- Concrete graph for the C9 witness: Start is node 0 in block 10, the
stack-pointer projection is node 2, one Return (node 1, block 11) whose
stack input (slot 1) is node 2, node 4 another user of the stack
pointer, end block node 3; frame size 8. -/
def c9wg : MGraph where
  nodes := [(0, { block := 10, preds := [] }),
            (1, { block := 11, preds := [5, 2] }),
            (2, { block := 10 }),
            (3, { block := 12, preds := [1] }),
            (4, { block := 11, preds := [2] })]
  nextId := 6
  start := 0
  startSp := 2
  endBlock := 3
  frameSize := 8
  sched := fun b =>
    if b = 10 then [0, 2] else if b = 11 then [4, 1] else []

theorem c9wg_wf : MWF c9wg where
  hstart := by decide
  hsp := by decide
  heb := by decide
  hrets_lt := by decide
  hrets_eb := by decide
  hrets_start := by decide
  hnodup := by decide
  hblocks := by decide
  hret_sched := by decide
  hret_len := by decide
  hbound_blocks := by decide
  hbound_start := by decide
  hstart_sched := by decide

end Mips

namespace Mips

theorem c9_mips_prologue_epilogue_witness :
    (c9wg.frameSize = 0 → mips_introduce_prologue_epilogue c9wg = c9wg) ∧
    (c9wg.frameSize ≠ 0 →
      (getNode (mips_introduce_prologue_epilogue c9wg)
          (c9wg.nextId + (rets c9wg).length) =
        { isIncSP := true, block := (getNode c9wg c9wg.start).block,
          preds := [c9wg.startSp], offset := (c9wg.frameSize : Int),
          align := 0, reg := some REG_SP }) ∧
      adj ((mips_introduce_prologue_epilogue c9wg).sched
          ((getNode c9wg c9wg.start).block)) c9wg.start
        (c9wg.nextId + (rets c9wg).length) ∧
      ((mips_introduce_prologue_epilogue c9wg).sched
          ((getNode c9wg c9wg.start).block)).count
        (c9wg.nextId + (rets c9wg).length) = 1 ∧
      (∀ i, i ≠ c9wg.nextId + (rets c9wg).length →
        c9wg.startSp ∉
          (getNode (mips_introduce_prologue_epilogue c9wg) i).preds) ∧
      (∀ k, k < (rets c9wg).length →
        (getNode (mips_introduce_prologue_epilogue c9wg)
            (retK c9wg k)).preds.getD n_mips_ret_stack 0 =
          eidK c9wg k ∧
        (getNode (mips_introduce_prologue_epilogue c9wg)
            (eidK c9wg k)).isIncSP = true ∧
        (getNode (mips_introduce_prologue_epilogue c9wg)
            (eidK c9wg k)).offset = -(c9wg.frameSize : Int) ∧
        (getNode (mips_introduce_prologue_epilogue c9wg)
            (eidK c9wg k)).block = blockK c9wg k ∧
        adj ((mips_introduce_prologue_epilogue c9wg).sched
            (blockK c9wg k)) (eidK c9wg k) (retK c9wg k) ∧
        ((mips_introduce_prologue_epilogue c9wg).sched
            (blockK c9wg k)).count (eidK c9wg k) = 1)) :=
  c9_mips_prologue_epilogue c9wg c9wg_wf

end Mips

namespace Mips

theorem insertBefore_of_not_mem (a n : Nat) (l2 : List Nat) :
    ∀ l1 : List Nat, a ∉ l1 →
      insertBefore (l1 ++ a :: l2) a n = l1 ++ n :: a :: l2 := by
  intro l1
  induction l1 with
  | nil => intro h; simp [insertBefore]
  | cons x rest ih =>
    intro h
    have hxa : x ≠ a := fun hc => h (hc ▸ List.mem_cons_self _ _)
    simp only [List.cons_append, insertBefore, if_neg hxa]
    rw [show rest.append (a :: l2) = rest ++ a :: l2 from rfl,
      ih (fun hc => h (List.mem_cons_of_mem _ hc))]

theorem insertAfter_of_not_mem (a n : Nat) (l2 : List Nat) :
    ∀ l1 : List Nat, a ∉ l1 →
      insertAfter (l1 ++ a :: l2) a n = l1 ++ a :: n :: l2 := by
  intro l1
  induction l1 with
  | nil => intro h; simp [insertAfter]
  | cons x rest ih =>
    intro h
    have hxa : x ≠ a := fun hc => h (hc ▸ List.mem_cons_self _ _)
    simp only [List.cons_append, insertAfter, if_neg hxa]
    rw [show rest.append (a :: l2) = rest ++ a :: l2 from rfl,
      ih (fun hc => h (List.mem_cons_of_mem _ hc))]

theorem map_replace_not_mem (a b : Nat) :
    ∀ l : List Nat, a ∉ l →
      l.map (fun x => if x = a then b else x) = l := by
  intro l
  induction l with
  | nil => intro h; rfl
  | cons x rest ih =>
    intro h
    have hxa : x ≠ a := fun hc => h (hc ▸ List.mem_cons_self _ _)
    simp only [List.map_cons, if_neg hxa]
    rw [ih (fun hc => h (List.mem_cons_of_mem _ hc))]

theorem not_mem_of_count_decomp (a : Nat) (l1 l2 : List Nat)
    (hna : a ∉ l1) (hc : (l1 ++ a :: l2).count a = 1) : a ∉ l2 := by
  rw [List.count_append, List.count_cons_self,
    List.count_eq_zero.mpr hna] at hc
  intro hmem
  have hpos : 0 < l2.count a := List.count_pos_iff_mem.mpr hmem
  omega

end Mips

namespace Ia32

/-!
Shallow embedding of `src/ir/be/ia32/ia32_finish.c`.  The graph reuses
the association-list store of the MIPS development; the block schedule
is a single list (all rewrites here stay inside one block).  Generated
node headers (input positions, projection numbers, register table,
condition-code encoding) are not part of `src/` and are modelled as
named constants; `ia32_turn_back_am`, `ia32_swap_left_right` and
`ia32_transform_ShlD_to_ShrD_imm`'s immediate creation live outside the
translated unit and are passed in as function parameters. -/

/-- The ia32 opcodes read or created by `ia32_finish.c`. -/
inductive XOpc where
  | Sub | Sbb | xSub | Neg | Add | Adc | Not | Stc | Cmc
  | xXor | xAdd | Proj | Lea | Minus64 | Asm | ShlD | Copy | other
deriving DecidableEq, Repr

/-- Node data read by the pass: opcode, inputs, assigned register,
whether the node's mode is `mode_T`, Proj number, the condition code of
a flag user (`get_ia32_condcode`), whether it is an ia32 node, its
address-mode type (`1` = `ia32_AddrModeS`) and whether its address-mode
support is binary. -/
structure XNode where
  opc : XOpc := .other
  preds : List Nat := []
  reg : Option Nat := none
  isModeT : Bool := false
  projNum : Nat := 0
  cc : Nat := 0
  isIa32 : Bool := true
  opType : Nat := 0
  amBinary : Bool := false
deriving DecidableEq, Repr

/-- The graph: node store with fresh-id counter, the block schedule, the
out-edge oracle (`foreach_out_edge`), and the shared `NoReg`/`NoMem`
nodes. -/
structure XGraph where
  nodes : List (Nat × XNode) := []
  nextId : Nat := 0
  sched : List Nat := []
  outs : Nat → List Nat := fun _ => []
  noreg : Nat := 0
  noregFp : Nat := 0
  nomem : Nat := 0

/-- Node lookup (first binding wins). -/
def getNodeX (g : XGraph) (n : Nat) : XNode :=
  (g.nodes.lookup n).getD {}

/-- Allocate a fresh node. -/
def newNodeX (g : XGraph) (nd : XNode) : XGraph × Nat :=
  ({ g with nodes := (g.nextId, nd) :: g.nodes, nextId := g.nextId + 1 },
   g.nextId)

/-- `arch_set_irn_register`. -/
def set_reg (g : XGraph) (n r : Nat) : XGraph :=
  { g with nodes := (n, { getNodeX g n with reg := some r }) :: g.nodes }

/-- `set_irn_mode(n, mode_T)` / copying a mode in the final
`set_irn_mode(res, get_irn_mode(irn))`. -/
def set_modeT (g : XGraph) (n : Nat) (b : Bool) : XGraph :=
  { g with nodes := (n, { getNodeX g n with isModeT := b }) :: g.nodes }

/-- `sched_add_before`. -/
def sched_add_beforeX (g : XGraph) (anchor n : Nat) : XGraph :=
  { g with sched := Mips.insertBefore g.sched anchor n }

/-- `sched_add_after`. -/
def sched_add_afterX (g : XGraph) (anchor n : Nat) : XGraph :=
  { g with sched := Mips.insertAfter g.sched anchor n }

/-- `sched_replace`. -/
def sched_replaceX (g : XGraph) (old new : Nat) : XGraph :=
  { g with sched := g.sched.map fun x => if x = old then new else x }

/-- `exchange`: reroute every input edge of `old` to `new`. -/
def exchangeX (g : XGraph) (old new : Nat) : XGraph :=
  { g with nodes := g.nodes.map fun e =>
      (e.1, { e.2 with preds := e.2.preds.map fun p =>
        if p = old then new else p }) }

/-- Modelled from the spec: the generated ia32 input positions
(`gen_ia32_new_nodes.h`, not in `src/`). -/
def n_ia32_base : Nat := 0

/-- Modelled from the spec: see `n_ia32_base`. -/
def n_ia32_index : Nat := 1

/-- Modelled from the spec: see `n_ia32_base`. -/
def n_ia32_binary_left : Nat := 3

/-- Modelled from the spec: see `n_ia32_base`. -/
def n_ia32_binary_right : Nat := 4

/-- Modelled from the spec: the `eflags` input of `Sbb`. -/
def n_ia32_Sbb_eflags : Nat := 5

/-- Modelled from the spec: the flags projection number. -/
def pn_ia32_flags : Nat := 1

/-- Modelled from the spec: the flags projection number of `Adc`. -/
def pn_ia32_Adc_flags : Nat := 1

/-- Modelled from the spec: the EFLAGS register index. -/
def REG_EFLAGS : Nat := 100

/-- Modelled from the spec: the `x86_condition_code_t` encoding
(`x86_cc_negated` is the low bit, carry-reading codes are the even
constants below). -/
def x86_cc_below : Nat := 2

/-- Modelled from the spec: see `x86_cc_below`. -/
def x86_cc_below_equal : Nat := 4

/-- Modelled from the spec: see `x86_cc_below`. -/
def x86_cc_float_below : Nat := 6

/-- Modelled from the spec: see `x86_cc_below`. -/
def x86_cc_float_below_equal : Nat := 8

/-- Modelled from the spec: see `x86_cc_below`. -/
def x86_cc_float_unordered_below_equal : Nat := 10

/-- Modelled from the spec: see `x86_cc_below`. -/
def x86_cc_float_unordered_below : Nat := 12

/-- `reads_carry` (lines 29-36): mask off `x86_cc_negated` (the low
bit) and compare against the carry-reading codes. -/
def reads_carry (code : Nat) : Bool :=
  let c2 := code - code % 2
  c2 == x86_cc_below || c2 == x86_cc_below_equal
    || c2 == x86_cc_float_below || c2 == x86_cc_float_below_equal
    || c2 == x86_cc_float_unordered_below_equal
    || c2 == x86_cc_float_unordered_below

/-- `get_Proj_for_pn`: the Proj user with the given number. -/
def get_Proj_for_pn (g : XGraph) (irn pn : Nat) : Option Nat :=
  (g.outs irn).find? fun o =>
    (getNodeX g o).opc == .Proj && (getNodeX g o).projNum == pn

/-- The `flags_proj` computation of `ia32_transform_sub_to_neg_add`
(lines 79-94): only a `mode_T` Sub has a flags projection. -/
def flags_proj_of (g : XGraph) (irn : Nat) : Option Nat :=
  if (getNodeX g irn).isModeT then get_Proj_for_pn g irn pn_ia32_flags
  else none

/-- The `needs_carry` computation (lines 80-94): some user of the flags
projection reads the carry. -/
def needs_carry_of (g : XGraph) (irn : Nat) : Bool :=
  match flags_proj_of g irn with
  | some fp => (g.outs fp).any fun u => reads_carry (getNodeX g u).cc
  | none => false

/-- The common tail of `ia32_transform_sub_to_neg_add` (lines 153-159):
copy the mode, replace the Sub by `res` in the schedule and exchange
it. -/
def sub_finish (g : XGraph) (irn res : Nat) : XGraph × Bool :=
  let g := set_modeT g res (getNodeX g irn).isModeT
  let g := sched_replaceX g irn res
  let g := exchangeX g irn res
  (g, true)

/-- The `carry:` path of `ia32_transform_sub_to_neg_add` (lines
114-137): `not in2`, schedule the carry producer, build the `Adc`, and
when the flags were used reroute the flags projection to a final
`Cmc`. -/
def sub_carry_path (g : XGraph) (carry irn out_reg in1 in2 : Nat)
    (flags_proj : Option Nat) : XGraph × Nat :=
  let rn := newNodeX g { opc := .Not, preds := [in2], reg := some out_reg }
  let g := sched_add_beforeX rn.1 irn rn.2
  let g := set_reg g carry REG_EFLAGS
  let g := sched_add_beforeX g irn carry
  let ra := newNodeX g
    { opc := .Adc, preds := [g.noreg, g.noreg, g.nomem, rn.2, in1, carry],
      reg := some out_reg }
  let g := ra.1
  match flags_proj with
  | some fp =>
    let g := set_modeT g ra.2 true
    let rpf := newNodeX g
      { opc := .Proj, preds := [ra.2], projNum := pn_ia32_Adc_flags,
        reg := some REG_EFLAGS }
    let rcm := newNodeX rpf.1
      { opc := .Cmc, preds := [rpf.2], reg := some REG_EFLAGS }
    let g := sched_add_afterX rcm.1 irn rcm.2
    let g := exchangeX g fp rcm.2
    (g, ra.2)
  | none => (g, ra.2)

/-- `ia32_transform_sub_to_neg_add` (lines 42-160). -/
def ia32_transform_sub_to_neg_add (g : XGraph) (irn out_reg : Nat) :
    XGraph × Bool :=
  let in2 := (getNodeX g irn).preds.getD n_ia32_binary_right 0
  if (getNodeX g in2).reg ≠ some out_reg then (g, false)
  else
    let in1 := (getNodeX g irn).preds.getD n_ia32_binary_left 0
    if (getNodeX g irn).opc = .xSub then
      let r1 := newNodeX g
        { opc := .xXor,
          preds := [g.noreg, g.noreg, g.nomem, in2, g.noregFp],
          reg := some out_reg, opType := 1 }
      let g := sched_add_beforeX r1.1 irn r1.2
      let r2 := newNodeX g
        { opc := .xAdd, preds := [g.noreg, g.noreg, g.nomem, r1.2, in1] }
      sub_finish r2.1 irn r2.2
    else
      let flags_proj := flags_proj_of g irn
      let needs_carry := needs_carry_of g irn
      if (getNodeX g irn).opc = .Sbb then
        let carry0 := (getNodeX g irn).preds.getD n_ia32_Sbb_eflags 0
        let rc := newNodeX g { opc := .Cmc, preds := [carry0] }
        let r := sub_carry_path rc.1 rc.2 irn out_reg in1 in2 flags_proj
        sub_finish r.1 irn r.2
      else if flags_proj.isSome && needs_carry then
        let rc := newNodeX g { opc := .Stc, preds := [] }
        let r := sub_carry_path rc.1 rc.2 irn out_reg in1 in2 flags_proj
        sub_finish r.1 irn r.2
      else
        let rn := newNodeX g
          { opc := .Neg, preds := [in2], reg := some out_reg }
        let g := sched_add_beforeX rn.1 irn rn.2
        let ra := newNodeX g
          { opc := .Add,
            preds := [g.noreg, g.noreg, g.nomem, rn.2, in1],
            reg := some out_reg }
        sub_finish ra.1 irn ra.2

/-- `need_constraint_copy` (lines 179-193). -/
def need_constraint_copy (g : XGraph) (irn : Nat) : Bool :=
  if (getNodeX g irn).isIa32 then
    match (getNodeX g irn).opc with
    | .Lea => false
    | .Minus64 => false
    | _ => true
  else (getNodeX g irn).opc == .Asm

/-- The two-address requirement fields read by the handler. -/
structure Req where
  same_as_next : Bool
  same_as : Nat

/-- `fix_am_source` (lines 203-223); `amFn` stands for
`ia32_turn_back_am` plus the register assignment on its load result
(code outside this unit). -/
def fix_am_source (amFn : XGraph → Nat → Nat → XGraph) (g : XGraph)
    (irn out_reg : Nat) : XGraph :=
  if (getNodeX g irn).opType ≠ 1 then g
  else if ¬ (getNodeX g irn).amBinary then g
  else if
    (getNodeX g ((getNodeX g irn).preds.getD n_ia32_base 0)).reg ≠
        some out_reg ∧
    (getNodeX g ((getNodeX g irn).preds.getD n_ia32_index 0)).reg ≠
        some out_reg then g
  else amFn g irn out_reg

/-- `ia32_handle_2addr` (lines 225-250); `shldFn` stands for
`ia32_transform_ShlD_to_ShrD_imm` and `swapFn` for
`ia32_swap_left_right` (both need generated attribute access outside
this unit). -/
def ia32_handle_2addr (amFn : XGraph → Nat → Nat → XGraph)
    (shldFn : XGraph → Nat → Nat → XGraph)
    (swapFn : XGraph → Nat → XGraph)
    (g : XGraph) (node : Nat) (req : Req) (reg : Nat) : XGraph × Bool :=
  if ¬ need_constraint_copy g node then (g, true)
  else
    let g := fix_am_source amFn g node reg
    if req.same_as_next then
      let next_reg :=
        (getNodeX g ((getNodeX g node).preds.getD (req.same_as + 1) 0)).reg
      if next_reg = some reg then
        if (getNodeX g node).opc = .ShlD then (shldFn g node reg, true)
        else (swapFn g node, true)
      else (g, false)
    else if (getNodeX g node).opc = .Sub ∨ (getNodeX g node).opc = .Sbb ∨
        (getNodeX g node).opc = .xSub then
      ia32_transform_sub_to_neg_add g node reg
    else (g, false)

/-- Modelled from the spec: when the handler declines,
`be_handle_2addr` (be2addr.c, not in `src/`) inserts a Copy of the
should-be-same input before the node and rewires that input. -/
def be_handle_2addr_node (amFn : XGraph → Nat → Nat → XGraph)
    (shldFn : XGraph → Nat → Nat → XGraph)
    (swapFn : XGraph → Nat → XGraph)
    (g : XGraph) (node : Nat) (req : Req) (reg : Nat) : XGraph :=
  let r := ia32_handle_2addr amFn shldFn swapFn g node req reg
  if r.2 then r.1
  else
    let g := r.1
    let rc := newNodeX g
      { opc := .Copy,
        preds := [(getNodeX g node).preds.getD req.same_as 0],
        reg := some reg }
    let g := sched_add_beforeX rc.1 node rc.2
    let nd := { getNodeX g node with
      preds := (getNodeX g node).preds.set req.same_as rc.2 }
    { g with nodes := (node, nd) :: g.nodes }

end Ia32

namespace Ia32

theorem lookup_consX (i : Nat) (nd : XNode) (l : List (Nat × XNode))
    (j : Nat) :
    ((i, nd) :: l).lookup j = if j = i then some nd else l.lookup j := by
  by_cases h : j = i
  · simp [List.lookup, h]
  · simp [List.lookup, h, beq_false_of_ne h]

theorem lookup_exchange_map (old nw : Nat) :
    ∀ (l : List (Nat × XNode)) (j : Nat),
      (l.map fun e => (e.1, { e.2 with preds := e.2.preds.map fun p =>
        if p = old then nw else p })).lookup j =
      (l.lookup j).map fun nd =>
        { nd with preds := nd.preds.map fun p =>
          if p = old then nw else p } := by
  intro l
  induction l with
  | nil => intro j; rfl
  | cons e rest ih =>
    intro j
    by_cases h : j = e.1
    · simp [List.lookup, h]
    · simpa [List.lookup, h, beq_false_of_ne h] using ih j

theorem getNodeX_new (g : XGraph) (nd : XNode) (j : Nat) :
    getNodeX (newNodeX g nd).1 j =
      if j = g.nextId then nd else getNodeX g j := by
  simp only [getNodeX, newNodeX, lookup_consX]
  by_cases h : j = g.nextId <;> simp [h]

theorem getNodeX_set_reg (g : XGraph) (n r j : Nat) :
    getNodeX (set_reg g n r) j =
      if j = n then { getNodeX g n with reg := some r }
      else getNodeX g j := by
  simp only [getNodeX, set_reg, lookup_consX]
  by_cases h : j = n <;> simp [h, getNodeX]

theorem getNodeX_set_modeT (g : XGraph) (n : Nat) (b : Bool) (j : Nat) :
    getNodeX (set_modeT g n b) j =
      if j = n then { getNodeX g n with isModeT := b }
      else getNodeX g j := by
  simp only [getNodeX, set_modeT, lookup_consX]
  by_cases h : j = n <;> simp [h, getNodeX]

theorem getNodeX_exchange (g : XGraph) (old nw j : Nat) :
    getNodeX (exchangeX g old nw) j =
      { getNodeX g j with preds := (getNodeX g j).preds.map fun p =>
        if p = old then nw else p } := by
  simp only [getNodeX, exchangeX, lookup_exchange_map]
  cases hl : g.nodes.lookup j with
  | none => rfl
  | some nd => rfl

theorem getNodeX_sched_before (g : XGraph) (a n j : Nat) :
    getNodeX (sched_add_beforeX g a n) j = getNodeX g j := rfl

theorem getNodeX_sched_after (g : XGraph) (a n j : Nat) :
    getNodeX (sched_add_afterX g a n) j = getNodeX g j := rfl

theorem getNodeX_sched_replace (g : XGraph) (a n j : Nat) :
    getNodeX (sched_replaceX g a n) j = getNodeX g j := rfl

theorem sched_new (g : XGraph) (nd : XNode) :
    (newNodeX g nd).1.sched = g.sched := rfl

theorem sched_set_reg (g : XGraph) (n r : Nat) :
    (set_reg g n r).sched = g.sched := rfl

theorem sched_set_modeT (g : XGraph) (n : Nat) (b : Bool) :
    (set_modeT g n b).sched = g.sched := rfl

theorem sched_exchange (g : XGraph) (old nw : Nat) :
    (exchangeX g old nw).sched = g.sched := rfl

theorem nextId_new (g : XGraph) (nd : XNode) :
    (newNodeX g nd).1.nextId = g.nextId + 1 := rfl

theorem nextId_set_reg (g : XGraph) (n r : Nat) :
    (set_reg g n r).nextId = g.nextId := rfl

theorem nextId_set_modeT (g : XGraph) (n : Nat) (b : Bool) :
    (set_modeT g n b).nextId = g.nextId := rfl

theorem newNodeX_id (g : XGraph) (nd : XNode) :
    (newNodeX g nd).2 = g.nextId := rfl

end Ia32

namespace Ia32

/-- Counterexample graph for C3: node 4 is a `mode_T` Sub (left input
node 2, right input node 3 in the output register 7), node 5 its flags
projection, node 6 a user of the flags with the carry-reading condition
code `x86_cc_below`. -/
def c3g : XGraph where
  nodes := [(0, { opc := .other }),
            (1, { opc := .other }),
            (2, { opc := .other, reg := some 8 }),
            (3, { opc := .other, reg := some 7 }),
            (4, { opc := .Sub, preds := [0, 0, 1, 2, 3],
                  isModeT := true, reg := some 7 }),
            (5, { opc := .Proj, preds := [4], projNum := 1,
                  reg := some 100 }),
            (6, { opc := .other, preds := [5], cc := 2 })]
  nextId := 7
  sched := [2, 3, 4, 6]
  outs := fun n => if n = 4 then [5] else if n = 5 then [6] else []
  noreg := 0
  nomem := 1

/-- Claim C3 counterexample: on a Sub whose flags are consumed by a
carry-reading condition, the carry fed into the `Adc` is produced by an
`Stc`, not by a `Cmc`, and the emitted order is
`not; stc; adc; cmc` — the initial complement claimed by the spec does
not exist.  (Node 7 = Stc, 8 = Not, 9 = Adc, 10 = flags Proj,
11 = final Cmc.) -/
theorem c3_counterexample :
    (ia32_transform_sub_to_neg_add c3g 4 7).2 = true ∧
    (ia32_transform_sub_to_neg_add c3g 4 7).1.sched =
      [2, 3, 8, 7, 9, 11, 6] ∧
    (getNodeX (ia32_transform_sub_to_neg_add c3g 4 7).1 8).opc =
      XOpc.Not ∧
    (getNodeX (ia32_transform_sub_to_neg_add c3g 4 7).1 9).opc =
      XOpc.Adc ∧
    (getNodeX (ia32_transform_sub_to_neg_add c3g 4 7).1 9).preds =
      [0, 0, 1, 8, 2, 7] ∧
    (getNodeX (ia32_transform_sub_to_neg_add c3g 4 7).1 7).opc =
      XOpc.Stc ∧
    ¬ ((getNodeX (ia32_transform_sub_to_neg_add c3g 4 7).1
        ((getNodeX (ia32_transform_sub_to_neg_add c3g 4 7).1 9).preds.getD
          5 0)).opc = XOpc.Cmc) ∧
    (getNodeX (ia32_transform_sub_to_neg_add c3g 4 7).1 11).opc =
      XOpc.Cmc ∧
    (getNodeX (ia32_transform_sub_to_neg_add c3g 4 7).1 6).preds =
      [11] := by
  decide

end Ia32

namespace Ia32

theorem sched_sched_before (g : XGraph) (a n : Nat) :
    (sched_add_beforeX g a n).sched = Mips.insertBefore g.sched a n := rfl

theorem sched_sched_after (g : XGraph) (a n : Nat) :
    (sched_add_afterX g a n).sched = Mips.insertAfter g.sched a n := rfl

theorem sched_sched_replace (g : XGraph) (a n : Nat) :
    (sched_replaceX g a n).sched =
      g.sched.map fun x => if x = a then n else x := rfl

theorem nextId_sched_before (g : XGraph) (a n : Nat) :
    (sched_add_beforeX g a n).nextId = g.nextId := rfl

theorem nextId_sched_after (g : XGraph) (a n : Nat) :
    (sched_add_afterX g a n).nextId = g.nextId := rfl

theorem nextId_sched_replace (g : XGraph) (a n : Nat) :
    (sched_replaceX g a n).nextId = g.nextId := rfl

theorem nextId_exchange (g : XGraph) (old nw : Nat) :
    (exchangeX g old nw).nextId = g.nextId := rfl

theorem noreg_stable_new (g : XGraph) (nd : XNode) :
    (newNodeX g nd).1.noreg = g.noreg := rfl

theorem nomem_stable_new (g : XGraph) (nd : XNode) :
    (newNodeX g nd).1.nomem = g.nomem := rfl

end Ia32

namespace Ia32

theorem noreg_stable_sched_before (g : XGraph) (a n : Nat) :
    (sched_add_beforeX g a n).noreg = g.noreg := rfl

theorem nomem_stable_sched_before (g : XGraph) (a n : Nat) :
    (sched_add_beforeX g a n).nomem = g.nomem := rfl

theorem sub_finish_true (g : XGraph) (irn res : Nat) :
    (sub_finish g irn res).2 = true := rfl

theorem sched_sub_finish (g : XGraph) (irn res : Nat) :
    (sub_finish g irn res).1.sched =
      g.sched.map fun x => if x = irn then res else x := rfl

theorem getNodeX_sub_finish (g : XGraph) (irn res j : Nat) :
    getNodeX (sub_finish g irn res).1 j =
      if j = res then
        { getNodeX g res with
            isModeT := (getNodeX g irn).isModeT,
            preds := (getNodeX g res).preds.map fun p =>
              if p = irn then res else p }
      else
        { getNodeX g j with preds := (getNodeX g j).preds.map fun p =>
          if p = irn then res else p } := by
  simp only [sub_finish, getNodeX_exchange, getNodeX_sched_replace,
    getNodeX_set_modeT]
  by_cases h : j = res
  · simp [h]
  · simp [h]

theorem noreg_stable_set_reg (g : XGraph) (n r : Nat) :
    (set_reg g n r).noreg = g.noreg := rfl

theorem nomem_stable_set_reg (g : XGraph) (n r : Nat) :
    (set_reg g n r).nomem = g.nomem := rfl

theorem noreg_stable_sched_after (g : XGraph) (a n : Nat) :
    (sched_add_afterX g a n).noreg = g.noreg := rfl

theorem nomem_stable_sched_after (g : XGraph) (a n : Nat) :
    (sched_add_afterX g a n).nomem = g.nomem := rfl

theorem nextId_scp (g : XGraph) (carry irn out_reg in1 in2 fp : Nat) :
    (sub_carry_path g carry irn out_reg in1 in2 (some fp)).2 =
      g.nextId + 1 := rfl

theorem sched_scp (g : XGraph) (carry irn out_reg in1 in2 fp : Nat) :
    (sub_carry_path g carry irn out_reg in1 in2 (some fp)).1.sched =
      Mips.insertAfter
        (Mips.insertBefore (Mips.insertBefore g.sched irn g.nextId)
          irn carry) irn (g.nextId + 3) := rfl

theorem getNodeX_scp (g : XGraph) (carry irn out_reg in1 in2 fp : Nat)
    (hcarlt : carry < g.nextId) (hfplt : fp < g.nextId)
    (hcarfp : carry ≠ fp) (hin2fp : in2 ≠ fp) (hin1fp : in1 ≠ fp)
    (hnoregfp : g.noreg ≠ fp) (hnomemfp : g.nomem ≠ fp) :
    ∀ j, getNodeX
        (sub_carry_path g carry irn out_reg in1 in2 (some fp)).1 j =
      if j = g.nextId + 3 then
        { opc := XOpc.Cmc, preds := [g.nextId + 2],
          reg := some REG_EFLAGS }
      else if j = g.nextId + 2 then
        { opc := XOpc.Proj, preds := [g.nextId + 1],
          projNum := pn_ia32_Adc_flags, reg := some REG_EFLAGS }
      else if j = g.nextId + 1 then
        { opc := XOpc.Adc,
          preds := [g.noreg, g.noreg, g.nomem, g.nextId, in1, carry],
          reg := some out_reg, isModeT := true }
      else if j = g.nextId then
        { opc := XOpc.Not, preds := [in2], reg := some out_reg }
      else if j = carry then
        { getNodeX g carry with
            reg := some REG_EFLAGS,
            preds := (getNodeX g carry).preds.map fun p =>
              if p = fp then g.nextId + 3 else p }
      else
        { getNodeX g j with preds := (getNodeX g j).preds.map fun p =>
          if p = fp then g.nextId + 3 else p } := by
  intro j
  have e1 : carry ≠ g.nextId := by omega
  have e2 : carry ≠ g.nextId + 1 := by omega
  have e3 : carry ≠ g.nextId + 2 := by omega
  have e4 : carry ≠ g.nextId + 3 := by omega
  have f0 : fp ≠ g.nextId := by omega
  have f1 : fp ≠ g.nextId + 1 := by omega
  have f2 : fp ≠ g.nextId + 2 := by omega
  have f3 : fp ≠ g.nextId + 3 := by omega
  simp only [sub_carry_path]
  by_cases h3 : j = g.nextId + 3
  · simp [h3, getNodeX_exchange, getNodeX_sched_after, getNodeX_new,
      getNodeX_set_modeT, getNodeX_set_reg, getNodeX_sched_before,
      nextId_new, nextId_sched_before, nextId_set_reg, nextId_set_modeT,
      newNodeX_id, Ne.symm f2]
  · by_cases h2 : j = g.nextId + 2
    · simp [h2, h3, getNodeX_exchange, getNodeX_sched_after,
        getNodeX_new, getNodeX_set_modeT, getNodeX_set_reg,
        getNodeX_sched_before, nextId_new, nextId_sched_before,
        nextId_set_reg, nextId_set_modeT, newNodeX_id, Ne.symm f1]
    · by_cases h1 : j = g.nextId + 1
      · simp [h1, h2, h3, getNodeX_exchange, getNodeX_sched_after,
          getNodeX_new, getNodeX_set_modeT, getNodeX_set_reg,
          getNodeX_sched_before, nextId_new, nextId_sched_before,
          nextId_set_reg, nextId_set_modeT, newNodeX_id,
          noreg_stable_new, nomem_stable_new, noreg_stable_sched_before,
          nomem_stable_sched_before, noreg_stable_set_reg,
          nomem_stable_set_reg, Ne.symm e2,
          Ne.symm hnoregfp, Ne.symm hnomemfp, Ne.symm hin1fp,
          Ne.symm hcarfp, f0]
        omega
      · by_cases h0 : j = g.nextId
        · simp [h0, h1, h2, h3, getNodeX_exchange, getNodeX_sched_after,
            getNodeX_new, getNodeX_set_modeT, getNodeX_set_reg,
            getNodeX_sched_before, nextId_new, nextId_sched_before,
            nextId_set_reg, nextId_set_modeT, newNodeX_id, Ne.symm e1,
            Ne.symm hin2fp,
            (show g.nextId ≠ g.nextId + 1 + 1 + 1 by omega),
            (show g.nextId ≠ g.nextId + 1 + 1 by omega),
            (show g.nextId ≠ g.nextId + 1 by omega)]
          omega
        · by_cases hc : j = carry
          · simp [hc, e1, e2, e3, e4, getNodeX_exchange,
              getNodeX_sched_after, getNodeX_new, getNodeX_set_modeT,
              getNodeX_set_reg, getNodeX_sched_before, nextId_new,
              nextId_sched_before, nextId_set_reg, nextId_set_modeT,
              newNodeX_id,
              (show carry ≠ g.nextId + 1 + 1 + 1 by omega),
              (show carry ≠ g.nextId + 1 + 1 by omega)]
          · have h2' : ¬ j = g.nextId + 1 + 1 := by omega
            have h3' : ¬ j = g.nextId + 1 + 1 + 1 := by omega
            simp [h0, h1, h2, h3, h2', h3', hc, getNodeX_exchange,
              getNodeX_sched_after, getNodeX_new, getNodeX_set_modeT,
              getNodeX_set_reg, getNodeX_sched_before, nextId_new,
              nextId_sched_before, nextId_set_reg, nextId_set_modeT,
              newNodeX_id]

/-- Claim C3 (amended): with the output register equal to the right
input's register the Sub is rewritten — `neg right; add left` when no
carry-reading consumer of the flags exists, and
`not right; stc; adc left, ~right, carry; cmc` with the flags
projection rerouted onto the final `Cmc` when one does; with a
different output register the handler declines and the graph is left
untouched (the generic handler then inserts a Copy). -/
theorem c3_sub_rewrite_amended (g : XGraph) (irn out_reg in1 in2 : Nat)
    (hopc : (getNodeX g irn).opc = XOpc.Sub)
    (hin2def : (getNodeX g irn).preds.getD n_ia32_binary_right 0 = in2)
    (hin1def : (getNodeX g irn).preds.getD n_ia32_binary_left 0 = in1)
    (hmem : irn ∈ g.sched)
    (hcount : g.sched.count irn = 1)
    (hbound : ∀ n ∈ g.sched, n < g.nextId)
    (hirn : irn < g.nextId)
    (hin2ne : in2 ≠ irn) (hin1ne : in1 ≠ irn)
    (hnoregne : g.noreg ≠ irn) (hnomemne : g.nomem ≠ irn) :
    ((getNodeX g in2).reg ≠ some out_reg →
      ia32_transform_sub_to_neg_add g irn out_reg = (g, false)) ∧
    ((getNodeX g in2).reg = some out_reg →
      ((flags_proj_of g irn).isSome && needs_carry_of g irn) = false →
      (ia32_transform_sub_to_neg_add g irn out_reg).2 = true ∧
      ∃ l1 l2,
        (ia32_transform_sub_to_neg_add g irn out_reg).1.sched =
          l1 ++ g.nextId :: (g.nextId + 1) :: l2 ∧
        getNodeX (ia32_transform_sub_to_neg_add g irn out_reg).1
            g.nextId =
          { opc := XOpc.Neg, preds := [in2], reg := some out_reg } ∧
        getNodeX (ia32_transform_sub_to_neg_add g irn out_reg).1
            (g.nextId + 1) =
          { opc := XOpc.Add,
            preds := [g.noreg, g.noreg, g.nomem, g.nextId, in1],
            reg := some out_reg,
            isModeT := (getNodeX g irn).isModeT }) ∧
    (∀ fp, (getNodeX g in2).reg = some out_reg →
      flags_proj_of g irn = some fp →
      needs_carry_of g irn = true →
      fp < g.nextId → in2 ≠ fp → in1 ≠ fp →
      g.noreg ≠ fp → g.nomem ≠ fp →
      (ia32_transform_sub_to_neg_add g irn out_reg).2 = true ∧
      ∃ l1 l2,
        (ia32_transform_sub_to_neg_add g irn out_reg).1.sched =
          l1 ++ (g.nextId + 1) :: g.nextId :: (g.nextId + 2) ::
            (g.nextId + 4) :: l2 ∧
        getNodeX (ia32_transform_sub_to_neg_add g irn out_reg).1
            g.nextId =
          { opc := XOpc.Stc, reg := some REG_EFLAGS } ∧
        getNodeX (ia32_transform_sub_to_neg_add g irn out_reg).1
            (g.nextId + 1) =
          { opc := XOpc.Not, preds := [in2], reg := some out_reg } ∧
        getNodeX (ia32_transform_sub_to_neg_add g irn out_reg).1
            (g.nextId + 2) =
          { opc := XOpc.Adc,
            preds := [g.noreg, g.noreg, g.nomem, g.nextId + 1, in1,
              g.nextId],
            reg := some out_reg, isModeT := true } ∧
        getNodeX (ia32_transform_sub_to_neg_add g irn out_reg).1
            (g.nextId + 3) =
          { opc := XOpc.Proj, preds := [g.nextId + 2],
            projNum := pn_ia32_Adc_flags, reg := some REG_EFLAGS } ∧
        getNodeX (ia32_transform_sub_to_neg_add g irn out_reg).1
            (g.nextId + 4) =
          { opc := XOpc.Cmc, preds := [g.nextId + 3],
            reg := some REG_EFLAGS } ∧
        (∀ u, u < g.nextId →
          getNodeX (ia32_transform_sub_to_neg_add g irn out_reg).1 u =
            { getNodeX g u with preds :=
                ((getNodeX g u).preds.map fun p =>
                  if p = fp then g.nextId + 4 else p).map fun p =>
                  if p = irn then g.nextId + 2 else p })) := by
  refine ⟨?_, ?_, ?_⟩
  · intro h1
    simp only [ia32_transform_sub_to_neg_add, hin2def]
    rw [if_pos h1]
  · intro h1 h2
    simp only [ia32_transform_sub_to_neg_add, hin2def, hin1def]
    rw [if_neg (fun hc => hc h1)]
    rw [if_neg (by rw [hopc]; intro hc; exact XOpc.noConfusion hc)]
    rw [if_neg (by rw [hopc]; intro hc; exact XOpc.noConfusion hc)]
    rw [if_neg (by rw [h2]; exact Bool.false_ne_true)]
    simp only [newNodeX_id, noreg_stable_new, nomem_stable_new,
      noreg_stable_sched_before, nomem_stable_sched_before,
      nextId_new, nextId_sched_before]
    obtain ⟨l1, l2, hdecomp, hnl1, hins⟩ :=
      Mips.insertBefore_eq irn g.nextId g.sched hmem
    have hnl2 : irn ∉ l2 :=
      Mips.not_mem_of_count_decomp irn l1 l2 hnl1 (hdecomp ▸ hcount)
    have hne_neg : g.nextId ≠ irn := by omega
    have hne_add : g.nextId + 1 ≠ irn := by omega
    refine ⟨sub_finish_true _ _ _, l1, l2, ?_, ?_, ?_⟩
    · rw [sched_sub_finish, sched_new, sched_sched_before, sched_new,
        hins]
      simp only [List.map_append, List.map_cons, if_neg hne_neg,
        if_pos rfl, Mips.map_replace_not_mem _ _ _ hnl1,
        Mips.map_replace_not_mem _ _ _ hnl2]
      simp
    · rw [getNodeX_sub_finish]
      rw [if_neg (by omega : ¬ g.nextId = g.nextId + 1)]
      rw [getNodeX_new, nextId_sched_before, nextId_new]
      rw [if_neg (by omega : ¬ g.nextId = g.nextId + 1)]
      rw [getNodeX_sched_before, getNodeX_new, if_pos rfl]
      simp [hin2ne]
    · rw [getNodeX_sub_finish]
      rw [if_pos rfl]
      rw [getNodeX_new, nextId_sched_before, nextId_new]
      rw [if_pos rfl]
      rw [getNodeX_new, nextId_sched_before, nextId_new]
      rw [if_neg (by omega : ¬ irn = g.nextId + 1)]
      rw [getNodeX_sched_before, getNodeX_new]
      rw [if_neg (by omega : ¬ irn = g.nextId)]
      simp [hnoregne, hnomemne, hin1ne, hne_neg]
  · intro fp h1 hfp hnc hfplt hin2fp hin1fp hnoregfp hnomemfp
    have hmT : (getNodeX g irn).isModeT = true := by
      by_cases ht : (getNodeX g irn).isModeT = true
      · exact ht
      · rw [Bool.not_eq_true] at ht
        rw [flags_proj_of, ht] at hfp
        simp at hfp
    simp only [ia32_transform_sub_to_neg_add, hin2def, hin1def]
    rw [if_neg (fun hc => hc h1)]
    rw [if_neg (by rw [hopc]; intro hc; exact XOpc.noConfusion hc)]
    rw [if_neg (by rw [hopc]; intro hc; exact XOpc.noConfusion hc)]
    rw [if_pos (by rw [hfp, hnc]; rfl)]
    rw [hfp]
    simp only [newNodeX_id]
    have hscpN := getNodeX_scp
      (newNodeX g { opc := XOpc.Stc }).1 g.nextId irn out_reg in1 in2
      fp (by rw [nextId_new]; omega) (by rw [nextId_new]; omega)
      (by omega) hin2fp hin1fp hnoregfp hnomemfp
    simp only [nextId_new, noreg_stable_new, nomem_stable_new] at hscpN
    have ha3 : g.nextId + 1 + 3 = g.nextId + 4 := by omega
    have ha2 : g.nextId + 1 + 2 = g.nextId + 3 := by omega
    have ha1 : g.nextId + 1 + 1 = g.nextId + 2 := by omega
    rw [ha3, ha2, ha1] at hscpN
    simp only [nextId_scp, nextId_new, ha1]
    obtain ⟨l1, l2, hdecomp, hnl1, hins⟩ :=
      Mips.insertBefore_eq irn (g.nextId + 1) g.sched hmem
    have hnl2 : irn ∉ l2 :=
      Mips.not_mem_of_count_decomp irn l1 l2 hnl1 (hdecomp ▸ hcount)
    have hpre1 : irn ∉ l1 ++ [g.nextId + 1] := by
      intro hc
      rcases List.mem_append.mp hc with hc | hc
      · exact hnl1 hc
      · simp at hc; omega
    have hpre2 : irn ∉ l1 ++ [g.nextId + 1, g.nextId] := by
      intro hc
      rcases List.mem_append.mp hc with hc | hc
      · exact hnl1 hc
      · simp at hc; omega
    refine ⟨sub_finish_true _ _ _, l1, l2, ?_, ?_, ?_, ?_, ?_, ?_, ?_⟩
    · rw [sched_sub_finish, sched_scp, sched_new, nextId_new, ha3,
        hins]
      rw [show l1 ++ (g.nextId + 1) :: irn :: l2 =
        (l1 ++ [g.nextId + 1]) ++ irn :: l2 by simp]
      rw [Mips.insertBefore_of_not_mem irn g.nextId l2 _ hpre1]
      rw [show (l1 ++ [g.nextId + 1]) ++ g.nextId :: irn :: l2 =
        (l1 ++ [g.nextId + 1, g.nextId]) ++ irn :: l2 by simp]
      rw [Mips.insertAfter_of_not_mem irn (g.nextId + 4) l2 _ hpre2]
      simp only [List.map_append, List.map_cons, List.map_nil,
        Mips.map_replace_not_mem _ _ _ hnl1,
        Mips.map_replace_not_mem _ _ _ hnl2]
      simp [(show ¬ (g.nextId + 1 = irn) by omega),
        (show ¬ (g.nextId = irn) by omega),
        (show ¬ (g.nextId + 4 = irn) by omega)]
    · rw [getNodeX_sub_finish]
      rw [if_neg (by omega : ¬ g.nextId = g.nextId + 2)]
      rw [hscpN]
      rw [if_neg (by omega : ¬ g.nextId = g.nextId + 4)]
      rw [if_neg (by omega : ¬ g.nextId = g.nextId + 3)]
      rw [if_neg (by omega : ¬ g.nextId = g.nextId + 2)]
      rw [if_neg (by omega : ¬ g.nextId = g.nextId + 1)]
      rw [if_pos rfl]
      rw [getNodeX_new, if_pos rfl]
      simp
    · rw [getNodeX_sub_finish]
      rw [if_neg (by omega : ¬ g.nextId + 1 = g.nextId + 2)]
      rw [hscpN]
      rw [if_neg (by omega : ¬ g.nextId + 1 = g.nextId + 4)]
      rw [if_neg (by omega : ¬ g.nextId + 1 = g.nextId + 3)]
      rw [if_neg (by omega : ¬ g.nextId + 1 = g.nextId + 2)]
      rw [if_pos rfl]
      simp [hin2ne]
    · rw [getNodeX_sub_finish]
      rw [if_pos rfl]
      simp only [hscpN]
      rw [if_neg (by omega : ¬ g.nextId + 2 = g.nextId + 4)]
      rw [if_neg (by omega : ¬ g.nextId + 2 = g.nextId + 3)]
      rw [if_pos trivial]
      rw [if_neg (by omega : ¬ irn = g.nextId + 4)]
      rw [if_neg (by omega : ¬ irn = g.nextId + 3)]
      rw [if_neg (by omega : ¬ irn = g.nextId + 2)]
      rw [if_neg (by omega : ¬ irn = g.nextId + 1)]
      rw [if_neg (by omega : ¬ irn = g.nextId)]
      rw [getNodeX_new]
      rw [if_neg (by omega : ¬ irn = g.nextId)]
      simp [hmT, hnoregne, hnomemne, hin1ne,
        (show ¬ (g.nextId + 1 = irn) by omega),
        (show ¬ (g.nextId = irn) by omega)]
    · rw [getNodeX_sub_finish]
      rw [if_neg (by omega : ¬ g.nextId + 3 = g.nextId + 2)]
      rw [hscpN]
      rw [if_neg (by omega : ¬ g.nextId + 3 = g.nextId + 4)]
      rw [if_pos rfl]
      simp [(show ¬ (g.nextId + 1 = irn) by omega)]
    · rw [getNodeX_sub_finish]
      rw [if_neg (by omega : ¬ g.nextId + 4 = g.nextId + 2)]
      rw [hscpN]
      rw [if_pos rfl]
      simp [(show ¬ (g.nextId + 3 = irn) by omega)]
    · intro u hu
      rw [getNodeX_sub_finish]
      rw [if_neg (by omega : ¬ u = g.nextId + 2)]
      rw [hscpN]
      rw [if_neg (by omega : ¬ u = g.nextId + 4)]
      rw [if_neg (by omega : ¬ u = g.nextId + 3)]
      rw [if_neg (by omega : ¬ u = g.nextId + 2)]
      rw [if_neg (by omega : ¬ u = g.nextId + 1)]
      rw [if_neg (by omega : ¬ u = g.nextId)]
      rw [getNodeX_new]
      rw [if_neg (by omega : ¬ u = g.nextId)]

end Ia32

namespace Ia32

theorem c3_sub_rewrite_amended_witness :
    ((getNodeX c3g 3).reg ≠ some 7 →
      ia32_transform_sub_to_neg_add c3g 4 7 = (c3g, false)) ∧
    ((getNodeX c3g 3).reg = some 7 →
      ((flags_proj_of c3g 4).isSome && needs_carry_of c3g 4) = false →
      (ia32_transform_sub_to_neg_add c3g 4 7).2 = true ∧
      ∃ l1 l2,
        (ia32_transform_sub_to_neg_add c3g 4 7).1.sched =
          l1 ++ c3g.nextId :: (c3g.nextId + 1) :: l2 ∧
        getNodeX (ia32_transform_sub_to_neg_add c3g 4 7).1
            c3g.nextId =
          { opc := XOpc.Neg, preds := [3], reg := some 7 } ∧
        getNodeX (ia32_transform_sub_to_neg_add c3g 4 7).1
            (c3g.nextId + 1) =
          { opc := XOpc.Add,
            preds := [c3g.noreg, c3g.noreg, c3g.nomem, c3g.nextId, 2],
            reg := some 7,
            isModeT := (getNodeX c3g 4).isModeT }) ∧
    (∀ fp, (getNodeX c3g 3).reg = some 7 →
      flags_proj_of c3g 4 = some fp →
      needs_carry_of c3g 4 = true →
      fp < c3g.nextId → 3 ≠ fp → 2 ≠ fp →
      c3g.noreg ≠ fp → c3g.nomem ≠ fp →
      (ia32_transform_sub_to_neg_add c3g 4 7).2 = true ∧
      ∃ l1 l2,
        (ia32_transform_sub_to_neg_add c3g 4 7).1.sched =
          l1 ++ (c3g.nextId + 1) :: c3g.nextId :: (c3g.nextId + 2) ::
            (c3g.nextId + 4) :: l2 ∧
        getNodeX (ia32_transform_sub_to_neg_add c3g 4 7).1
            c3g.nextId =
          { opc := XOpc.Stc, reg := some REG_EFLAGS } ∧
        getNodeX (ia32_transform_sub_to_neg_add c3g 4 7).1
            (c3g.nextId + 1) =
          { opc := XOpc.Not, preds := [3], reg := some 7 } ∧
        getNodeX (ia32_transform_sub_to_neg_add c3g 4 7).1
            (c3g.nextId + 2) =
          { opc := XOpc.Adc,
            preds := [c3g.noreg, c3g.noreg, c3g.nomem, c3g.nextId + 1,
              2, c3g.nextId],
            reg := some 7, isModeT := true } ∧
        getNodeX (ia32_transform_sub_to_neg_add c3g 4 7).1
            (c3g.nextId + 3) =
          { opc := XOpc.Proj, preds := [c3g.nextId + 2],
            projNum := pn_ia32_Adc_flags, reg := some REG_EFLAGS } ∧
        getNodeX (ia32_transform_sub_to_neg_add c3g 4 7).1
            (c3g.nextId + 4) =
          { opc := XOpc.Cmc, preds := [c3g.nextId + 3],
            reg := some REG_EFLAGS } ∧
        (∀ u, u < c3g.nextId →
          getNodeX (ia32_transform_sub_to_neg_add c3g 4 7).1 u =
            { getNodeX c3g u with preds :=
                ((getNodeX c3g u).preds.map fun p =>
                  if p = fp then c3g.nextId + 4 else p).map fun p =>
                  if p = 4 then c3g.nextId + 2 else p })) :=
  c3_sub_rewrite_amended c3g 4 7 2 3 (by decide) (by decide)
    (by decide) (by decide) (by decide) (by decide) (by decide)
    (by decide) (by decide) (by decide) (by decide)

end Ia32
